import Mathlib

/-!
# myzipmodule.c: the streaming-compression buffer manager

A shallow embedding of `src/myzipmodule.c` (a cut-down copy of CPython's
`zlibmodule.c` exposing a single `compress` function) together with
theorems about it.

Platform: LP64.  `Py_ssize_t` is a 64 bit signed integer, `size_t` a 64 bit
unsigned integer and zlib's `uInt` a 32 bit unsigned integer.  Machine
integers are embedded as `Int`/`Nat` with the conversions written out.

The DEFLATE engine (`deflateInit`, `deflate`, `deflateEnd`), the CPython
object allocator and `assert` are not part of the repository.  The engine is
a parameter (`Engine`), the allocator's success is decided by an oracle
(`Config.heap`) and `assert` is compiled in or out by `Config.asserts`.

The two loops of `myzip_compress_impl` run on an iteration budget, so that
the embedding is a total function; a run that exhausts the budget ends as
`Return.out_of_fuel`.  Every call the driver makes is recorded in
`Locals.log`, which is what the theorems about the order and the number of
calls read.  Variables that the C code leaves uninitialised, and the content
of freshly allocated storage, are 0.
-/

namespace MyZip

/-! ## Machine integers -/

/-- The largest `unsigned int` (`<limits.h>`). -/
def UINT_MAX : Nat := 4294967295

/-- The largest `Py_ssize_t` (`pyport.h`). -/
def PY_SSIZE_T_MAX : Int := 9223372036854775807

/-- Conversion to `size_t`: reduction modulo `2^64`. -/
def to_size_t (x : Int) : Nat := (x % 18446744073709551616).toNat

/-- Conversion to zlib's `uInt`: reduction modulo `2^32`. -/
def to_uInt (x : Nat) : Nat := x % 4294967296

/-- Conversion to `Py_ssize_t`: two's complement wrap into `[-2^63, 2^63)`. -/
def to_ssize_t (x : Int) : Int :=
  (x + 9223372036854775808) % 18446744073709551616 - 9223372036854775808

/-- The macro `Py_MIN(x, y)`, that is `((x) > (y)) ? (y) : (x)`. -/
def Py_MIN (x y : Nat) : Nat := if x > y then y else x

/-- Initial buffer size. -/
def DEF_BUF_SIZE : Int := 16 * 1024

/-! ## zlib constants (`zlib.h`) -/

def Z_OK : Int := 0
def Z_STREAM_END : Int := 1
def Z_STREAM_ERROR : Int := -2
def Z_DATA_ERROR : Int := -3
def Z_MEM_ERROR : Int := -4
def Z_BUF_ERROR : Int := -5
def Z_VERSION_ERROR : Int := -6
def Z_NO_FLUSH : Int := 0
def Z_FINISH : Int := 4

/-! ## Bytes objects, the interpreter's error indicator, the allocator -/

abbrev Byte := Fin 256

/-- A CPython bytes object: its size and the content of its storage, as a
function of the offset from `PyBytes_AS_STRING`. -/
structure PyBytes where
  size : Nat
  data : Nat → Byte

/-- The content of a bytes object as a list of `size` bytes. -/
def PyBytes.toList (b : PyBytes) : List Byte := (List.range b.size).map b.data

/-- Store the bytes `w` at offset `off` (what `deflate` does at `next_out`). -/
def PyBytes.write (b : PyBytes) (off : Nat) (w : List Byte) : PyBytes :=
  { size := b.size
    data := fun i => if off ≤ i ∧ i < off + w.length then w.getD (i - off) 0 else b.data i }

/-- The exceptions this module can leave in the error indicator. -/
inductive PyErr where
  | MemoryError (msg : Option String)
  | SystemError
  | ZlibError (msg : String)
  deriving DecidableEq, Repr

/-- The part of the interpreter state the module touches: the number of
allocation requests made so far and the error indicator. -/
structure PyState where
  allocs : Nat
  err : Option PyErr
  deriving DecidableEq, Repr

/-- Build parameters and environment of one call. -/
structure Config where
  /-- Whether `assert` is compiled in (`NDEBUG` not defined). -/
  asserts : Bool
  /-- Whether the `n`-th allocation request, for the given size, succeeds. -/
  heap : Nat → Int → Bool

/-- CPython's `PyBytes_FromStringAndSize(NULL, size)`: a new object of `size`
bytes of unspecified content (here zero), `NULL` with an exception set when
the size is negative or the allocation fails. -/
def PyBytes_FromStringAndSize (cfg : Config) (py : PyState) (size : Int) :
    Option PyBytes × PyState :=
  if size < 0 then (none, { py with err := some .SystemError })
  else if cfg.heap py.allocs size then
    (some { size := size.toNat, data := fun _ => 0 }, { py with allocs := py.allocs + 1 })
  else (none, { allocs := py.allocs + 1, err := some (.MemoryError none) })

/-- CPython's `_PyBytes_Resize(&v, newsize)`: the first `min(size, newsize)`
bytes are kept; on failure the object is released, `*pv` becomes `NULL` and
an exception is set. -/
def _PyBytes_Resize (cfg : Config) (py : PyState) (v : PyBytes) (newsize : Int) :
    Option PyBytes × PyState :=
  if newsize < 0 then (none, { py with err := some .SystemError })
  else if (v.size : Int) = newsize then (some v, py)
  else if cfg.heap py.allocs newsize then
    (some { size := newsize.toNat, data := fun i => if i < v.size then v.data i else 0 },
     { py with allocs := py.allocs + 1 })
  else (none, { allocs := py.allocs + 1, err := some (.MemoryError none) })

/-! ## The engine -/

/-- The caller's `Py_buffer`: storage and length. -/
structure Py_buffer where
  buf : Nat → Byte
  len : Int

/-- What `deflateInit` and `deflateEnd` hand back: the status, the engine's
internal state and the new `zst.msg`. -/
structure CallOut (σ : Type) where
  err : Int
  state : σ
  msg : Option String

/-- What one `deflate` call hands back: status, state and message as above,
the number of input bytes consumed at `next_in` and the bytes stored at
`next_out`. -/
structure StepOut (σ : Type) where
  err : Int
  state : σ
  msg : Option String
  consumed : Nat
  written : List Byte

/-- The DEFLATE engine, a black box to the module.  `deflate` sees its own state,
the input storage, `next_in`, `avail_in`, `avail_out` and the flush mode. -/
structure Engine (σ : Type) where
  deflateInit : Int → CallOut σ
  deflate : σ → (Nat → Byte) → Nat → Nat → Nat → Int → StepOut σ
  deflateEnd : σ → CallOut σ

/-- The fields of `z_stream` the module uses.  `next_in` and `next_out` are
kept as offsets from the start of the input storage and of the output
object's storage. -/
structure z_stream (σ : Type) where
  next_in : Nat
  avail_in : Nat
  next_out : Nat
  avail_out : Nat
  msg : Option String
  state : σ

/-- The engine contract of `deflate` the buffer manager relies on: a step
stores at most `avail_out` bytes. -/
def Engine.WritesWithin {σ : Type} (E : Engine σ) : Prop :=
  ∀ st buf next_in avail_in avail_out flush,
    (E.deflate st buf next_in avail_in avail_out flush).written.length ≤ avail_out

/-! ## Chunked input -/

/-- The function `arrange_input_buffer`: the new `avail_in` and `*remains`. -/
def arrange_input_buffer (remains : Int) : Nat × Int :=
  let avail_in := to_uInt (Py_MIN (to_size_t remains) UINT_MAX)
  (avail_in, to_ssize_t (remains - avail_in))

/-! ## Growable output -/

/-- The result of `arrange_output_buffer_with_maximum`: the returned value
and the objects it updated through pointers. -/
structure Arranged (σ : Type) where
  ret : Int
  zst : z_stream σ
  buffer : Option PyBytes
  py : PyState

/-- The last two statements of `arrange_output_buffer_with_maximum`. -/
def set_window {σ : Type} (zst : z_stream σ) (b : PyBytes) (py : PyState)
    (length : Int) (occupied : Nat) : Arranged σ :=
  { ret := length
    zst := { zst with
      avail_out := to_uInt (Py_MIN (to_size_t (length - occupied)) UINT_MAX)
      next_out := occupied }
    buffer := some b
    py := py }

/-- The function `arrange_output_buffer_with_maximum`.  The result `none` is
the failure of `assert(length <= max_length)`; `length << 1` is the doubling
of `length` in `Py_ssize_t`. -/
def arrange_output_buffer_with_maximum {σ : Type} (cfg : Config) (py : PyState)
    (zst : z_stream σ) (buffer : Option PyBytes) (length max_length : Int) :
    Option (Arranged σ) :=
  match buffer with
  | none =>
    match PyBytes_FromStringAndSize cfg py length with
    | (none, py1) => some { ret := -1, zst := zst, buffer := none, py := py1 }
    | (some b, py1) => some (set_window zst b py1 length 0)
  | some b =>
    let occupied := zst.next_out
    if length = (occupied : Int) then
      if cfg.asserts ∧ ¬ length ≤ max_length then none
      else if length = max_length then
        some { ret := -2, zst := zst, buffer := some b, py := py }
      else
        let new_length :=
          if length ≤ max_length >>> (1 : Nat) then to_ssize_t (length * 2) else max_length
        match _PyBytes_Resize cfg py b new_length with
        | (none, py1) => some { ret := -1, zst := zst, buffer := none, py := py1 }
        | (some b1, py1) => some (set_window zst b1 py1 new_length occupied)
    else some (set_window zst b py length occupied)

/-- The function `arrange_output_buffer`. -/
def arrange_output_buffer {σ : Type} (cfg : Config) (py : PyState)
    (zst : z_stream σ) (buffer : Option PyBytes) (length : Int) :
    Option (Arranged σ) :=
  match arrange_output_buffer_with_maximum cfg py zst buffer length PY_SSIZE_T_MAX with
  | none => none
  | some a =>
    if a.ret = -2 then some { a with py := { a.py with err := some (.MemoryError none) } }
    else some a

/-! ## Error formatting -/

/-- The message `zlib_error` settles on, `none` for `Z_NULL`. -/
def zlib_error_zmsg (zmsg : Option String) (err : Int) : Option String :=
  let zmsg0 : Option String :=
    if err = Z_VERSION_ERROR then some "library version mismatch" else none
  let zmsg1 : Option String := if zmsg0 = none then zmsg else zmsg0
  if zmsg1 = none then
    if err = Z_BUF_ERROR then some "incomplete or truncated stream"
    else if err = Z_STREAM_ERROR then some "inconsistent stream state"
    else if err = Z_DATA_ERROR then some "invalid input data"
    else none
  else zmsg1

/-- The conversion `%.<n>s` of `PyErr_Format`, on the characters of the text
that the C string holds in UTF-8.  `PyErr_Format` takes the first `n` bytes of
the C string and decodes them as UTF-8 with the `replace` handler.  So a
character whose bytes all lie within the first `n` bytes is kept; a character
that starts before byte `n` and ends after it leaves an incomplete sequence at
the end of the bytes taken, which decodes to one U+FFFD; nothing further is
read. -/
def decode_first_bytes : Nat → List Char → List Char
  | _, [] => []
  | n, c :: cs =>
    if c.utf8Size ≤ n then c :: decode_first_bytes (n - c.utf8Size) cs
    else if n = 0 then [] else [Char.ofNat 0xFFFD]

/-- The function `zlib_error`: the exception it sets.  A C string is kept as
the text that its bytes, up to the terminating NUL, hold in UTF-8; `%.200s`
reads at most the first 200 bytes of the message. -/
def zlib_error (zmsg : Option String) (err : Int) (msg : String) : PyErr :=
  match zlib_error_zmsg zmsg err with
  | none => .ZlibError ("Error " ++ toString err ++ " " ++ msg)
  | some m =>
    .ZlibError ("Error " ++ toString err ++ " " ++ msg ++ ": "
      ++ String.mk (decode_first_bytes 200 m.data))

/-! ## The driver -/

/-- The calls the driver makes, in the order it makes them.  A `deflate`
entry records the flush mode, the remaining input count `ibuflen`, the two
windows the step was given, the bytes it stored and its status. -/
inductive Event where
  | deflateInit (level err : Int)
  | arrange_input (avail_in : Nat) (remains : Int)
  | arrange_output (length ret : Int)
  | deflate (flush remains : Int) (avail_in avail_out : Nat) (written : List Byte) (err : Int)
  | deflateEnd (err : Int)
  deriving DecidableEq, Repr

/-- The local variables of `myzip_compress_impl`, the interpreter state and
the calls made so far. -/
structure Locals (σ : Type) where
  RetVal : Option PyBytes
  ibuflen : Int
  obuflen : Int
  err : Int
  flush : Int
  zst : z_stream σ
  py : PyState
  log : List Event

/-- How a loop of `myzip_compress_impl` is left. -/
inductive Exit (σ : Type) where
  /-- The loop condition became false. -/
  | done (s : Locals σ)
  /-- The loop was left by `goto error`. -/
  | error (s : Locals σ)
  /-- The `assert` of the given source line failed. -/
  | abort (line : Nat) (s : Locals σ)
  /-- The iteration budget of the embedding ran out. -/
  | fuel (s : Locals σ)

/-- The state in which a loop is left. -/
def Exit.state {σ : Type} : Exit σ → Locals σ
  | .done s => s
  | .error s => s
  | .abort _ s => s
  | .fuel s => s

/-- What one pass through a loop body decides. -/
inductive Iter (σ : Type) where
  /-- The loop condition holds: the body runs again. -/
  | again (s : Locals σ)
  /-- The loop is left. -/
  | leave (e : Exit σ)

/-- One call `deflate(&zst, flush)`: the engine's step, the update of the
four cursors and of the output storage.  An engine that consumes more than
`avail_in` or stores more than `avail_out` bytes has no defined behaviour in
C; here the two counts then stop at 0. -/
def call_deflate {σ : Type} (E : Engine σ) (data : Py_buffer) (s : Locals σ) : Locals σ :=
  let o := E.deflate s.zst.state data.buf s.zst.next_in s.zst.avail_in s.zst.avail_out s.flush
  { s with
    err := o.err
    RetVal := s.RetVal.map (fun b => b.write s.zst.next_out o.written)
    zst :=
      { next_in := s.zst.next_in + o.consumed
        avail_in := s.zst.avail_in - o.consumed
        next_out := s.zst.next_out + o.written.length
        avail_out := s.zst.avail_out - o.written.length
        msg := o.msg
        state := o.state }
    log := s.log ++ [.deflate s.flush s.ibuflen s.zst.avail_in s.zst.avail_out o.written o.err] }

/-- One call `deflateEnd(&zst)`: its status and the state after it. -/
def call_deflateEnd {σ : Type} (E : Engine σ) (s : Locals σ) : Int × Locals σ :=
  let o := E.deflateEnd s.zst.state
  (o.err, { s with
    zst := { s.zst with msg := o.msg, state := o.state }
    log := s.log ++ [.deflateEnd o.err] })

/-- A call of `zlib_error(zst, err, msg)` or of another function that only
sets the error indicator. -/
def set_error {σ : Type} (s : Locals σ) (e : PyErr) : Locals σ :=
  { s with py := { s.py with err := some e } }

/-- The statements `arrange_input_buffer(&zst, &ibuflen)` and
`flush = ibuflen == 0 ? Z_FINISH : Z_NO_FLUSH`. -/
def input_step {σ : Type} (s : Locals σ) : Locals σ :=
  let r := arrange_input_buffer s.ibuflen
  { s with
    zst := { s.zst with avail_in := r.1 }
    ibuflen := r.2
    flush := if r.2 = 0 then Z_FINISH else Z_NO_FLUSH
    log := s.log ++ [.arrange_input r.1 r.2] }

/-- The assignments made by `obuflen = arrange_output_buffer(&zst, &RetVal, obuflen)`. -/
def output_step {σ : Type} (s : Locals σ) (a : Arranged σ) : Locals σ :=
  { s with
    obuflen := a.ret, zst := a.zst, RetVal := a.buffer, py := a.py
    log := s.log ++ [.arrange_output s.obuflen a.ret] }

/-- The body of the inner loop of `myzip_compress_impl` and its condition
`zst.avail_out == 0`. -/
def inner_body {σ : Type} (cfg : Config) (E : Engine σ) (data : Py_buffer)
    (s : Locals σ) : Iter σ :=
  match arrange_output_buffer cfg s.py s.zst s.RetVal s.obuflen with
  | none => .leave (.abort 54 s)
  | some a =>
    let s1 := output_step s a
    if s1.obuflen < 0 then .leave (.error (call_deflateEnd E s1).2)
    else
      let s2 := call_deflate E data s1
      if s2.err = Z_STREAM_ERROR then
        let s3 := (call_deflateEnd E s2).2
        .leave (.error (set_error s3 (zlib_error s3.zst.msg s3.err "while compressing data")))
      else if s2.zst.avail_out = 0 then .again s2
      else .leave (.done s2)

/-- The inner `do ... while (zst.avail_out == 0)` loop of
`myzip_compress_impl`, run for at most `fuel` iterations. -/
def inner_loop {σ : Type} (cfg : Config) (E : Engine σ) (data : Py_buffer) :
    Nat → Locals σ → Exit σ
  | 0, s => .fuel s
  | fuel + 1, s =>
    match inner_body cfg E data s with
    | .again s1 => inner_loop cfg E data fuel s1
    | .leave e => e

/-- The body of the outer loop of `myzip_compress_impl` and its condition
`flush != Z_FINISH`; the inner loop runs for at most `fuel` iterations. -/
def outer_body {σ : Type} (cfg : Config) (E : Engine σ) (data : Py_buffer)
    (fuel : Nat) (s : Locals σ) : Iter σ :=
  match inner_loop cfg E data fuel (input_step s) with
  | .done s1 =>
    if cfg.asserts ∧ s1.zst.avail_in ≠ 0 then .leave (.abort 173 s1)
    else if s1.flush ≠ Z_FINISH then .again s1
    else .leave (.done s1)
  | e => .leave e

/-- The outer `do ... while (flush != Z_FINISH)` loop of
`myzip_compress_impl`, run for at most `fuel` iterations, each inner loop
for at most `fuel` iterations. -/
def outer_loop {σ : Type} (cfg : Config) (E : Engine σ) (data : Py_buffer)
    (fuel : Nat) : Nat → Locals σ → Exit σ
  | 0, s => .fuel s
  | n + 1, s =>
    match outer_body cfg E data fuel s with
    | .again s1 => outer_loop cfg E data fuel n s1
    | .leave e => e

/-- How `myzip_compress_impl` ends. -/
inductive Return where
  /-- The function returned `RetVal`. -/
  | object (b : PyBytes)
  /-- The function returned `NULL`. -/
  | null
  /-- The process died at the given source line: a failed `assert`, or the
  `NULL` dereference of line 180. -/
  | aborted (line : Nat)
  /-- The iteration budget of the embedding ran out. -/
  | out_of_fuel

/-- The end of a call: how it ended and the final state. -/
structure Result (σ : Type) where
  ret : Return
  s : Locals σ

/-- The returned object, if any. -/
def Result.value {σ : Type} (r : Result σ) : Option PyBytes :=
  match r.ret with
  | .object b => some b
  | _ => none

/-- Whether the function returned (an object or `NULL`). -/
def Result.returned {σ : Type} (r : Result σ) : Bool :=
  match r.ret with
  | .object _ => true
  | .null => true
  | _ => false

/-- The label `error:` of `myzip_compress_impl`: `Py_XDECREF(RetVal)` and
`return NULL`. -/
def goto_error {σ : Type} (s : Locals σ) : Result σ :=
  { ret := .null, s := { s with RetVal := none } }

/-- The statements of `myzip_compress_impl` after the loops.  With `RetVal`
absent, `PyBytes_AS_STRING(RetVal)` of line 180 dereferences `NULL`. -/
def finish {σ : Type} (cfg : Config) (E : Engine σ) (s : Locals σ) : Result σ :=
  if cfg.asserts ∧ s.err ≠ Z_STREAM_END then { ret := .aborted 176, s := s }
  else
    let r := call_deflateEnd E s
    let s1 : Locals σ := { r.2 with err := r.1 }
    if s1.err = Z_OK then
      match s1.RetVal with
      | none => { ret := .aborted 180, s := s1 }
      | some b =>
        match _PyBytes_Resize cfg s1.py b s1.zst.next_out with
        | (none, py1) => goto_error { s1 with RetVal := none, py := py1 }
        | (some b1, py1) => { ret := .object b1, s := { s1 with RetVal := some b1, py := py1 } }
    else goto_error (set_error s1 (zlib_error s1.zst.msg s1.err "while finishing compression"))

/-- The state of `myzip_compress_impl` after `deflateInit`. -/
def after_init {σ : Type} (E : Engine σ) (py : PyState) (data : Py_buffer) (level : Int) :
    Locals σ :=
  let i := E.deflateInit level
  { RetVal := none, ibuflen := data.len, obuflen := DEF_BUF_SIZE, err := i.err, flush := 0
    zst := { next_in := 0, avail_in := 0, next_out := 0, avail_out := 0
             msg := i.msg, state := i.state }
    py := py
    log := [.deflateInit level i.err] }

/-- The function `myzip_compress_impl`, its loops run for at most `fuel`
iterations each. -/
def myzip_compress_impl {σ : Type} (cfg : Config) (E : Engine σ) (py : PyState)
    (data : Py_buffer) (level : Int) (fuel : Nat) : Result σ :=
  let s := after_init E py data level
  if s.err = Z_OK then
    match outer_loop cfg E data fuel fuel s with
    | .done s1 => finish cfg E s1
    | .error s1 => goto_error s1
    | .abort line s1 => { ret := .aborted line, s := s1 }
    | .fuel s1 => { ret := .out_of_fuel, s := s1 }
  else if s.err = Z_MEM_ERROR then
    goto_error (set_error s (.MemoryError (some "Out of memory while compressing data")))
  else if s.err = Z_STREAM_ERROR then
    goto_error (set_error s (.ZlibError "Bad compression level"))
  else
    let s1 := (call_deflateEnd E s).2
    goto_error (set_error s1 (zlib_error s1.zst.msg s1.err "while compressing data"))

/-! ## Reading the log -/

/-- The bytes stored by the `deflate` calls of a log, in call order. -/
def written_bytes : List Event → List Byte
  | [] => []
  | .deflate _ _ _ _ w _ :: l => w ++ written_bytes l
  | _ :: l => written_bytes l

/-- The number of `deflateEnd` calls of a log. -/
def deflateEnd_calls : List Event → Nat
  | [] => 0
  | .deflateEnd _ :: l => deflateEnd_calls l + 1
  | _ :: l => deflateEnd_calls l

/-- The window sizes set by the `arrange_input_buffer` calls of a log. -/
def input_windows : List Event → List Nat
  | [] => []
  | .arrange_input a _ :: l => a :: input_windows l
  | _ :: l => input_windows l

/-! ## Paths and invariants -/

variable {σ : Type}

/-- The outcomes of `arrange_output_buffer_with_maximum`, one per path. -/
inductive ArrangePath (cfg : Config) (py : PyState) (zst : z_stream σ)
    (buffer : Option PyBytes) (length max_length : Int) (a : Arranged σ) : Prop where
  | alloc_failed (py1 : PyState)
      (hb : buffer = none)
      (ha : a = { ret := -1, zst := zst, buffer := none, py := py1 })
      (he : py1.err ≠ none)
  | allocated (b : PyBytes) (py1 : PyState)
      (hb : buffer = none) (h0 : 0 ≤ length) (hs : (b.size : Int) = length)
      (ha : a = set_window zst b py1 length 0)
      (he : py1.err = py.err)
  | exhausted (b : PyBytes)
      (hb : buffer = some b) (ho : length = zst.next_out) (hm : length = max_length)
      (ha : a = { ret := -2, zst := zst, buffer := some b, py := py })
  | resize_failed (b : PyBytes) (py1 : PyState)
      (hb : buffer = some b) (ho : length = zst.next_out) (hm : length ≠ max_length)
      (ha : a = { ret := -1, zst := zst, buffer := none, py := py1 })
      (he : py1.err ≠ none)
  | resized (b b1 : PyBytes) (py1 : PyState) (new_length : Int)
      (hb : buffer = some b) (ho : length = zst.next_out) (hm : length ≠ max_length)
      (hn : new_length = if length ≤ max_length >>> (1 : Nat) then to_ssize_t (length * 2) else max_length)
      (hr : _PyBytes_Resize cfg py b new_length = (some b1, py1))
      (ha : a = set_window zst b1 py1 new_length zst.next_out)
  | kept (b : PyBytes)
      (hb : buffer = some b) (ho : length ≠ zst.next_out)
      (ha : a = set_window zst b py length zst.next_out)

/-- The offset `occupied` that `arrange_output_buffer_with_maximum` computes. -/
def occupied_of (zst : z_stream σ) (buffer : Option PyBytes) : Nat :=
  match buffer with
  | none => 0
  | some _ => zst.next_out

/-- The paths through the body of the inner loop. -/
inductive InnerPath (cfg : Config) (E : Engine σ) (data : Py_buffer) (s : Locals σ) :
    Iter σ → Prop where
  | assert_failed
      (ha : arrange_output_buffer cfg s.py s.zst s.RetVal s.obuflen = none) :
      InnerPath cfg E data s (.leave (.abort 54 s))
  | no_buffer (a : Arranged σ)
      (ha : arrange_output_buffer cfg s.py s.zst s.RetVal s.obuflen = some a)
      (hr : a.ret < 0) :
      InnerPath cfg E data s (.leave (.error (call_deflateEnd E (output_step s a)).2))
  | stream_error (a : Arranged σ)
      (ha : arrange_output_buffer cfg s.py s.zst s.RetVal s.obuflen = some a)
      (hr : 0 ≤ a.ret)
      (he : (call_deflate E data (output_step s a)).err = Z_STREAM_ERROR) :
      InnerPath cfg E data s
        (.leave (.error (set_error (call_deflateEnd E (call_deflate E data (output_step s a))).2
          (zlib_error (call_deflateEnd E (call_deflate E data (output_step s a))).2.zst.msg
            Z_STREAM_ERROR "while compressing data"))))
  | full (a : Arranged σ)
      (ha : arrange_output_buffer cfg s.py s.zst s.RetVal s.obuflen = some a)
      (hr : 0 ≤ a.ret)
      (he : (call_deflate E data (output_step s a)).err ≠ Z_STREAM_ERROR)
      (hv : (call_deflate E data (output_step s a)).zst.avail_out = 0) :
      InnerPath cfg E data s (.again (call_deflate E data (output_step s a)))
  | room_left (a : Arranged σ)
      (ha : arrange_output_buffer cfg s.py s.zst s.RetVal s.obuflen = some a)
      (hr : 0 ≤ a.ret)
      (he : (call_deflate E data (output_step s a)).err ≠ Z_STREAM_ERROR)
      (hv : (call_deflate E data (output_step s a)).zst.avail_out ≠ 0) :
      InnerPath cfg E data s (.leave (.done (call_deflate E data (output_step s a))))

/-- The paths through the body of the outer loop. -/
inductive OuterPath (cfg : Config) (E : Engine σ) (data : Py_buffer) (fuel : Nat)
    (s : Locals σ) : Iter σ → Prop where
  | assert_failed (s1 : Locals σ)
      (hi : inner_loop cfg E data fuel (input_step s) = .done s1)
      (ha : cfg.asserts = true) (hv : s1.zst.avail_in ≠ 0) :
      OuterPath cfg E data fuel s (.leave (.abort 173 s1))
  | more_input (s1 : Locals σ)
      (hi : inner_loop cfg E data fuel (input_step s) = .done s1)
      (hf : s1.flush ≠ Z_FINISH) :
      OuterPath cfg E data fuel s (.again s1)
  | finished (s1 : Locals σ)
      (hi : inner_loop cfg E data fuel (input_step s) = .done s1)
      (hf : s1.flush = Z_FINISH) (ha : cfg.asserts = true → s1.zst.avail_in = 0) :
      OuterPath cfg E data fuel s (.leave (.done s1))
  | inner_left (e : Exit σ)
      (hi : inner_loop cfg E data fuel (input_step s) = e)
      (hd : ∀ s1, e ≠ .done s1) :
      OuterPath cfg E data fuel s (.leave e)

/-- A property of the state that every statement of the loops keeps and that
reads only `log`, `ibuflen`, `obuflen` and `flush`. -/
structure Preserved (cfg : Config) (E : Engine σ) (data : Py_buffer)
    (P : Locals σ → Prop) : Prop where
  input : ∀ s, P s → P (input_step s)
  output : ∀ s a, P s →
    arrange_output_buffer cfg s.py s.zst s.RetVal s.obuflen = some a → P (output_step s a)
  deflate : ∀ s, P s → P (call_deflate E data s)
  deflateEnd : ∀ s, P s → P (call_deflateEnd E s).2
  frame : ∀ s s1, P s → s1.log = s.log → s1.ibuflen = s.ibuflen →
    s1.obuflen = s.obuflen → s1.flush = s.flush → P s1

/-- The input accounting of the driver for an input of `n` bytes. -/
def InputInv (n : Int) (s : Locals σ) : Prop :=
  ((input_windows s.log).sum : Int) + s.ibuflen = n ∧ 0 ≤ s.ibuflen ∧
  s.ibuflen ≤ PY_SSIZE_T_MAX ∧
  ∀ a rem, Event.arrange_input a rem ∈ s.log → a ≤ UINT_MAX ∧ 0 ≤ rem

/-! ## Test doubles -/

/-- A configuration in which every allocation succeeds. -/
def plain_cfg (asserts : Bool) : Config := { asserts := asserts, heap := fun _ _ => true }

/-- The interpreter state before a call: no request made, no exception set. -/
def fresh_py : PyState := { allocs := 0, err := none }

/-- A stream whose write cursor stands at offset `n` of the output object. -/
def stream_at (n : Nat) : z_stream Unit :=
  { next_in := 0, avail_in := 0, next_out := n, avail_out := 0, msg := none, state := () }

/-- A bytes object of `n` zero bytes. -/
def zeros (n : Nat) : PyBytes := { size := n, data := fun _ => 0 }

/-- An engine that consumes its whole input window, stores nothing and
reports the end of the stream when asked to finish. -/
def null_engine : Engine Unit where
  deflateInit := fun _ => { err := Z_OK, state := (), msg := none }
  deflate := fun _ _ _ avail_in _ flush =>
    { err := if flush = Z_FINISH then Z_STREAM_END else Z_OK
      state := (), msg := none, consumed := avail_in, written := [] }
  deflateEnd := fun _ => { err := Z_OK, state := (), msg := none }

/-- An engine that copies its input: each step takes the whole input window
into its pending output and stores as much of it as the output window
holds. -/
def copy_engine : Engine (List Byte) where
  deflateInit := fun _ => { err := Z_OK, state := [], msg := none }
  deflate := fun pending buf next_in avail_in avail_out flush =>
    let all := pending ++ (List.range avail_in).map (fun i => buf (next_in + i))
    { err := if flush = Z_FINISH ∧ all.drop avail_out = [] then Z_STREAM_END else Z_OK
      state := all.drop avail_out, msg := none, consumed := avail_in
      written := all.take avail_out }
  deflateEnd := fun pending => { err := Z_OK, state := pending, msg := none }

/-- An engine whose initialisation fails with the status `err`. -/
def failing_init_engine (err : Int) : Engine Unit where
  deflateInit := fun _ => { err := err, state := (), msg := none }
  deflate := fun _ _ _ _ _ _ => { err := Z_OK, state := (), msg := none, consumed := 0, written := [] }
  deflateEnd := fun _ => { err := Z_OK, state := (), msg := none }

/-- An engine that breaks the contract of `deflate`: it consumes nothing,
stores nothing and always reports `Z_OK`. -/
def idle_engine : Engine Unit where
  deflateInit := fun _ => { err := Z_OK, state := (), msg := none }
  deflate := fun _ _ _ _ _ _ => { err := Z_OK, state := (), msg := none, consumed := 0, written := [] }
  deflateEnd := fun _ => { err := Z_OK, state := (), msg := none }

/-- An input of `n` bytes, the byte at offset `i` being `i mod 256`. -/
def ramp (n : Int) : Py_buffer := { buf := fun i => Fin.ofNat i, len := n }

/-! ## The capacity recorded in a log -/

/-- The value of `obuflen` after the calls of a log, `cur` being its value
before them. -/
def capacity_after (cur : Int) : List Event → Int
  | [] => cur
  | .arrange_output _ ret :: l => capacity_after ret l
  | _ :: l => capacity_after cur l

/-- Every `arrange_output_buffer` call of a log is made with the current
value `cur` of `obuflen`, this value satisfies the assertion
`length <= max_length` for `max_length = PY_SSIZE_T_MAX`, and a non-negative
returned length is no smaller than `cur` and at most `PY_SSIZE_T_MAX`. -/
def capacity_ok (cur : Int) : List Event → Prop
  | [] => True
  | .arrange_output length ret :: l =>
    length = cur ∧ length ≤ PY_SSIZE_T_MAX ∧
    (0 ≤ ret → length ≤ ret ∧ ret ≤ PY_SSIZE_T_MAX) ∧ capacity_ok ret l
  | _ :: l => capacity_ok cur l

/-- The capacity accounting of the driver. -/
def CapInv (s : Locals σ) : Prop :=
  capacity_ok DEF_BUF_SIZE s.log ∧ capacity_after DEF_BUF_SIZE s.log = s.obuflen ∧
  (s.obuflen < 0 ∨ (0 < s.obuflen ∧ s.obuflen ≤ PY_SSIZE_T_MAX))

/-! ## The output buffer and the log -/

/-- The output accounting of the driver: the capacity is within bounds; as
long as no buffer exists nothing has been stored; an existing buffer has
`obuflen` bytes, the write cursor lies inside it and the bytes before the
cursor are the bytes stored by the `deflate` calls so far, in call order. -/
def BufInv (s : Locals σ) : Prop :=
  0 ≤ s.obuflen ∧ s.obuflen ≤ PY_SSIZE_T_MAX ∧
  match s.RetVal with
  | none => written_bytes s.log = []
  | some b =>
    (b.size : Int) = s.obuflen ∧ s.zst.next_out ≤ b.size ∧
    (List.range s.zst.next_out).map b.data = written_bytes s.log

/-- The state `deflate` is called in: `BufInv` with a buffer and the output
window inside it. -/
def WindowInv (s : Locals σ) : Prop :=
  s.obuflen ≤ PY_SSIZE_T_MAX ∧
  ∃ b, s.RetVal = some b ∧ (b.size : Int) = s.obuflen ∧
    s.zst.next_out + s.zst.avail_out ≤ b.size ∧
    (List.range s.zst.next_out).map b.data = written_bytes s.log

/-! ## The flush modes recorded in a log -/

/-- The remaining count left by the last `arrange_input_buffer` call of a
log, `last` when the log has none. -/
def last_remains (last : Option Int) : List Event → Option Int
  | [] => last
  | .arrange_input _ rem :: l => last_remains (some rem) l
  | _ :: l => last_remains last l

/-- A log is flush-consistent from the remaining count `last`: every
`deflate` call is made with the count left by the latest
`arrange_input_buffer` call and with `Z_FINISH` when that count is 0,
`Z_NO_FLUSH` otherwise, and `arrange_input_buffer` is not called again once
the count left is 0. -/
def flush_ok (last : Option Int) : List Event → Prop
  | [] => True
  | .arrange_input _ rem :: l => last ≠ some 0 ∧ flush_ok (some rem) l
  | .deflate flush rem _ _ _ _ :: l =>
    last = some rem ∧ flush = (if rem = 0 then Z_FINISH else Z_NO_FLUSH) ∧ flush_ok last l
  | _ :: l => flush_ok last l

/-- The flush accounting at the head of the outer loop. -/
def FlushHead (s : Locals σ) : Prop :=
  flush_ok none s.log ∧ last_remains none s.log ≠ some 0

/-- The flush accounting inside the outer loop, after `input_step`. -/
def FlushIn (s : Locals σ) : Prop :=
  flush_ok none s.log ∧ last_remains none s.log = some s.ibuflen ∧
  s.flush = (if s.ibuflen = 0 then Z_FINISH else Z_NO_FLUSH)

/-- The accounting of an empty input: nothing remains and every `deflate`
call was made with nothing remaining. -/
def EmptyInv (s : Locals σ) : Prop :=
  s.ibuflen = 0 ∧
  ∀ f r ai ao w e, Event.deflate f r ai ao w e ∈ s.log → r = 0

/-! ## The engine's lifetime -/

/-- The state of a run in which nothing has failed: `deflateEnd` has not been
called and the error indicator is as it was before the call, `err0`. -/
def Running (err0 : Option PyErr) (s : Locals σ) : Prop :=
  deflateEnd_calls s.log = 0 ∧ s.py.err = err0

/-- How the loops are left by a run in which nothing had failed before:
at their end with nothing failed, or by `goto error` after exactly one
`deflateEnd` call. -/
def Released (err0 : Option PyErr) : Exit σ → Prop
  | .done s => Running err0 s
  | .error s => deflateEnd_calls s.log = 1
  | .abort _ _ => True
  | .fuel _ => True

/-- The source line at which the process died, if it did. -/
def Result.aborted_at {σ : Type} (r : Result σ) : Option Nat :=
  match r.ret with
  | .aborted line => some line
  | _ => none

/-! ## The engine's allocator -/

/-- What `PyZlib_Malloc` does: it returns `NULL` at once, or it returns what
`PyMem_RawMalloc` returns for a request of `bytes` bytes. -/
inductive MallocCall where
  | null
  | PyMem_RawMalloc (bytes : Nat)
  deriving DecidableEq, Repr

/-- The function `PyZlib_Malloc`, for `items` and `size` of type `uInt`: the
division and the product are computed in `size_t`. -/
def PyZlib_Malloc (items size : Nat) : MallocCall :=
  if size ≠ 0 ∧ items > to_size_t PY_SSIZE_T_MAX / size then .null
  else .PyMem_RawMalloc ((items * size) % 18446744073709551616)

/-! ## The message of an error, in the words of the specification -/

/-- The message resolution as the specification puts it: the fixed text for a
version mismatch; otherwise the engine's message if present; otherwise the
fixed text of the status; otherwise none. -/
def resolved_message (err : Int) (m : Option String) : Option String :=
  if err = Z_VERSION_ERROR then some "library version mismatch"
  else
    match m with
    | some t => some t
    | none =>
      if err = Z_BUF_ERROR then some "incomplete or truncated stream"
      else if err = Z_STREAM_ERROR then some "inconsistent stream state"
      else if err = Z_DATA_ERROR then some "invalid input data"
      else none

/-- A message of 201 characters, of one byte each: 200 times `a`, then `b`. -/
def long_message : String := String.mk (List.replicate 200 'a' ++ ['b'])

/-- A message of 150 characters of two bytes each: 150 times U+00E9. -/
def accented_message : String := String.mk (List.replicate 150 (Char.ofNat 0xE9))

/-- A message of 151 characters: `a`, then 150 times U+00E9.  Byte 200 is the
first byte of a character. -/
def shifted_message : String := String.mk ('a' :: List.replicate 150 (Char.ofNat 0xE9))

/-! ## Stream errors in a log -/

/-- No `deflate` call of the log returned `Z_STREAM_ERROR`. -/
def no_stream_error (l : List Event) : Prop :=
  ∀ f r ai ao w e, Event.deflate f r ai ao w e ∈ l → e ≠ Z_STREAM_ERROR

/-- The end of a run whose last `deflate` call returned `Z_STREAM_ERROR`: that
call is followed by one `deflateEnd` call and by nothing else, no earlier
`deflate` call returned `Z_STREAM_ERROR`, `deflateEnd` was not called before,
and the exception set is the one `zlib_error` formats from `Z_STREAM_ERROR`
and the phase "while compressing data". -/
def StreamErrorEnd (s : Locals σ) : Prop :=
  ∃ l f r ai ao w e0,
    s.log = l ++ [.deflate f r ai ao w Z_STREAM_ERROR, .deflateEnd e0] ∧
    no_stream_error l ∧ deflateEnd_calls l = 0 ∧
    s.py.err = some (zlib_error s.zst.msg Z_STREAM_ERROR "while compressing data")

/-- The state of a run in which no step has failed: no `deflate` call
returned `Z_STREAM_ERROR` and `deflateEnd` has not been called. -/
def Stepping (s : Locals σ) : Prop :=
  no_stream_error s.log ∧ deflateEnd_calls s.log = 0

/-- How the loops are left as far as stream errors go: by `goto error` right
after the `deflate` call that returned `Z_STREAM_ERROR`, or without any such
call. -/
def StreamErrorExit : Exit σ → Prop
  | .done s => Stepping s
  | .error s => no_stream_error s.log ∨ StreamErrorEnd s
  | .abort _ s => no_stream_error s.log
  | .fuel s => no_stream_error s.log

/-- An engine whose first step fails with `Z_STREAM_ERROR`. -/
def stream_error_engine : Engine Unit where
  deflateInit := fun _ => { err := Z_OK, state := (), msg := none }
  deflate := fun _ _ _ _ _ _ =>
    { err := Z_STREAM_ERROR, state := (), msg := none, consumed := 0, written := [] }
  deflateEnd := fun _ => { err := Z_OK, state := (), msg := none }

/-- An engine that consumes its whole input window, stores nothing and
reports `Z_DATA_ERROR` for every step but the finishing one. -/
def data_error_engine : Engine Unit where
  deflateInit := fun _ => { err := Z_OK, state := (), msg := none }
  deflate := fun _ _ _ avail_in _ flush =>
    { err := if flush = Z_FINISH then Z_STREAM_END else Z_DATA_ERROR
      state := (), msg := none, consumed := avail_in, written := [] }
  deflateEnd := fun _ => { err := Z_OK, state := (), msg := none }

/-- An engine that runs like `null_engine` and whose `deflateEnd` fails with
`Z_DATA_ERROR`. -/
def failing_end_engine : Engine Unit where
  deflateInit := fun _ => { err := Z_OK, state := (), msg := none }
  deflate := fun _ _ _ avail_in _ flush =>
    { err := if flush = Z_FINISH then Z_STREAM_END else Z_OK
      state := (), msg := none, consumed := avail_in, written := [] }
  deflateEnd := fun _ => { err := Z_DATA_ERROR, state := (), msg := none }

/-! ## The place of `deflateEnd` in a log -/

/-- The log ends with a `deflateEnd` call. -/
def ends_with_deflateEnd (l : List Event) : Prop :=
  ∃ l0 e, l = l0 ++ [.deflateEnd e]

/-- How the loops are left by a run in which `deflateEnd` had not been
called: by `goto error` right after its first `deflateEnd` call, and in
every other way without any. -/
def Lifetime : Exit σ → Prop
  | .done s => deflateEnd_calls s.log = 0
  | .error s => deflateEnd_calls s.log = 1 ∧ ends_with_deflateEnd s.log
  | .abort _ s => deflateEnd_calls s.log = 0
  | .fuel s => deflateEnd_calls s.log = 0

/-! ## Progress of the inner loop -/

/-- Every `deflate` call of the log was given a non-empty output window. -/
def windows_ok (l : List Event) : Prop :=
  ∀ f r ai ao w e, Event.deflate f r ai ao w e ∈ l → 1 ≤ ao

/-- The occupied length of the output buffer: 0 as long as no buffer exists,
the offset of `next_out` afterwards. -/
def Locals.occupied (s : Locals σ) : Nat := occupied_of s.zst s.RetVal

/-- The output accounting `BufInv` with a positive capacity and only
non-empty output windows so far. -/
def GrowInv (s : Locals σ) : Prop :=
  BufInv s ∧ 0 < s.obuflen ∧ windows_ok s.log

/-! ## Progress of the outer loop -/

/-- The input accounting at the head of the outer loop for an input of `n`
bytes: every window set so far was a full one, of `UINT_MAX` bytes, and
unless no window has been set yet, input remains. -/
def HeadInv (n : Int) (s : Locals σ) : Prop :=
  ((input_windows s.log).length : Int) * (UINT_MAX : Int) + s.ibuflen = n ∧
  0 ≤ s.ibuflen ∧ s.ibuflen ≤ PY_SSIZE_T_MAX ∧
  ((input_windows s.log).length = 0 ∨ 0 < s.ibuflen)

/-- The largest number of passes through the outer loop for an input of `n`
bytes: `max(1, ceil(n / UINT_MAX))`. -/
def outer_bound (n : Int) : Nat := max 1 ((n.toNat + UINT_MAX - 1) / UINT_MAX)


/-! # Theorems -/

/-! ## Machine integer lemmas -/

theorem to_size_t_of_range (x : Int) (h0 : 0 ≤ x) (h1 : x ≤ PY_SSIZE_T_MAX) :
    (to_size_t x : Int) = x := by
  unfold to_size_t PY_SSIZE_T_MAX at *
  omega

theorem to_ssize_t_of_range (x : Int) (h0 : -9223372036854775808 ≤ x) (h1 : x ≤ PY_SSIZE_T_MAX) :
    to_ssize_t x = x := by
  unfold to_ssize_t PY_SSIZE_T_MAX at *
  omega

theorem to_uInt_Py_MIN (x : Nat) : to_uInt (Py_MIN x UINT_MAX) = min x UINT_MAX := by
  unfold to_uInt Py_MIN UINT_MAX
  split <;> omega

theorem window_of_range (x : Int) (h0 : 0 ≤ x) (h1 : x ≤ PY_SSIZE_T_MAX) :
    (to_uInt (Py_MIN (to_size_t x) UINT_MAX) : Int) = min x (UINT_MAX : Int) := by
  rw [to_uInt_Py_MIN]
  have := to_size_t_of_range x h0 h1
  omega

theorem shr1_eq (x : Int) : x >>> (1 : Nat) = x / 2 := by
  rw [Int.shiftRight_eq_div_pow]; rfl

/-- The new length chosen when the buffer is full: the doubling does not
overflow and the choice is `min (2 * length) max_length`. -/
theorem new_length_eq (length max_length : Int) (h0 : 0 ≤ length)
    (hmax : max_length ≤ PY_SSIZE_T_MAX) :
    (if length ≤ max_length >>> (1 : Nat) then to_ssize_t (length * 2) else max_length)
      = min (2 * length) max_length ∧
    (length ≤ max_length >>> (1 : Nat) → to_ssize_t (length * 2) = length * 2) := by
  rw [shr1_eq]
  constructor
  · split
    · rw [to_ssize_t_of_range] <;> unfold PY_SSIZE_T_MAX at * <;> omega
    · omega
  · intro h
    rw [to_ssize_t_of_range] <;> unfold PY_SSIZE_T_MAX at * <;> omega

/-- The results of `_PyBytes_Resize`. -/
theorem resize_some (cfg : Config) (py py1 : PyState) (v b1 : PyBytes) (n : Int)
    (h : _PyBytes_Resize cfg py v n = (some b1, py1)) :
    0 ≤ n ∧ (b1.size : Int) = n ∧ py1.err = py.err ∧
    ∀ i, i < v.size → i < b1.size → b1.data i = v.data i := by
  unfold _PyBytes_Resize at h
  split at h
  · simp at h
  · split at h
    · simp only [Prod.mk.injEq, Option.some.injEq] at h
      obtain ⟨rfl, rfl⟩ := h
      refine ⟨by omega, by assumption, rfl, fun _ _ _ => rfl⟩
    · split at h
      · simp only [Prod.mk.injEq, Option.some.injEq] at h
        obtain ⟨rfl, rfl⟩ := h
        refine ⟨by omega, by simp; omega, rfl, ?_⟩
        intro i hi _
        simp [hi]
      · simp at h

theorem resize_none (cfg : Config) (py py1 : PyState) (v : PyBytes) (n : Int)
    (h : _PyBytes_Resize cfg py v n = (none, py1)) :
    py1.err = some .SystemError ∨ py1.err = some (.MemoryError none) := by
  unfold _PyBytes_Resize at h
  split at h
  · simp only [Prod.mk.injEq] at h; obtain ⟨-, rfl⟩ := h; simp
  · split at h
    · simp at h
    · split at h
      · simp at h
      · simp only [Prod.mk.injEq] at h; obtain ⟨-, rfl⟩ := h; simp

/-! ## The paths of `arrange_output_buffer_with_maximum` -/

theorem arrange_paths (cfg : Config) (py : PyState) (zst : z_stream σ)
    (buffer : Option PyBytes) (length max_length : Int) (a : Arranged σ)
    (h : arrange_output_buffer_with_maximum cfg py zst buffer length max_length = some a) :
    ArrangePath cfg py zst buffer length max_length a := by
  unfold arrange_output_buffer_with_maximum at h
  split at h
  · split at h
    · rename_i py1 heq
      simp only [Option.some.injEq] at h
      refine .alloc_failed py1 rfl h.symm ?_
      unfold PyBytes_FromStringAndSize at heq
      split at heq
      · simp only [Prod.mk.injEq] at heq; obtain ⟨-, rfl⟩ := heq; simp
      · split at heq
        · simp at heq
        · simp only [Prod.mk.injEq] at heq; obtain ⟨-, rfl⟩ := heq; simp
    · rename_i b py1 heq
      simp only [Option.some.injEq] at h
      unfold PyBytes_FromStringAndSize at heq
      split at heq
      · simp at heq
      · split at heq
        · simp only [Prod.mk.injEq, Option.some.injEq] at heq
          obtain ⟨rfl, rfl⟩ := heq
          exact .allocated _ _ rfl (by omega) (by simp; omega) h.symm rfl
        · simp at heq
  · rename_i b
    simp only at h
    split at h
    · rename_i ho
      split at h
      · simp at h
      · split at h
        · rename_i hm
          simp only [Option.some.injEq] at h
          exact .exhausted b rfl ho hm h.symm
        · rename_i hm
          split at h
          · rename_i py1 heq
            simp only [Option.some.injEq] at h
            refine .resize_failed b py1 rfl ho hm h.symm ?_
            rcases resize_none _ _ _ _ _ heq with h1 | h1 <;> simp [h1]
          · rename_i b1 py1 heq
            simp only [Option.some.injEq] at h
            exact .resized b b1 py1 _ rfl ho hm rfl heq h.symm
    · rename_i ho
      simp only [Option.some.injEq] at h
      exact .kept b rfl ho h.symm

/-! ## The results of `arrange_output_buffer_with_maximum` -/

/-- When `arrange_output_buffer_with_maximum` returns -2. -/
theorem exhausted_iff (cfg : Config) (py : PyState) (zst : z_stream σ)
    (buffer : Option PyBytes) (length max_length : Int) (a : Arranged σ)
    (h0 : 0 ≤ length)
    (h : arrange_output_buffer_with_maximum cfg py zst buffer length max_length = some a) :
    (a.ret = -2 ↔ buffer ≠ none ∧ (zst.next_out : Int) = length ∧ length = max_length) ∧
    (a.ret = -2 → a.buffer = buffer ∧ a.zst = zst ∧ a.py = py) := by
  cases arrange_paths _ _ _ _ _ _ _ h with
  | alloc_failed py1 hb ha => subst ha hb; simp
  | allocated b py1 hb h0 hs ha =>
    subst ha hb
    simp only [set_window]
    constructor
    · constructor
      · intro h2; omega
      · intro h2; simp at h2
    · intro h2; omega
  | exhausted b hb ho hm ha =>
    subst ha hb
    exact ⟨⟨fun _ => ⟨by simp, ho.symm, hm⟩, fun _ => rfl⟩, fun _ => ⟨rfl, rfl, rfl⟩⟩
  | resize_failed b py1 hb ho hm ha => subst ha hb; simp [hm]
  | resized b0 b1 py1 new_length hb ho hm hnl hr ha =>
    subst ha hb
    have hs := (resize_some _ _ _ _ _ _ hr).1
    simp only [set_window]
    constructor
    · constructor
      · intro h2; omega
      · intro h2; exact absurd h2.2.2 hm
    · intro h2; omega
  | kept b hb ho ha =>
    subst ha hb
    simp only [set_window]
    constructor
    · constructor
      · intro h2; omega
      · intro h2; exact absurd h2.2.1.symm ho
    · intro h2; omega

/-- The window and the length after a successful
`arrange_output_buffer_with_maximum`. -/
theorem window_rule (cfg : Config) (py : PyState) (zst : z_stream σ)
    (buffer : Option PyBytes) (length max_length : Int) (a : Arranged σ)
    (hocc : (occupied_of zst buffer : Int) ≤ length) (hlen : length ≤ max_length)
    (hmax : max_length ≤ PY_SSIZE_T_MAX)
    (h : arrange_output_buffer_with_maximum cfg py zst buffer length max_length = some a)
    (hret : 0 ≤ a.ret) :
    a.zst.next_out = occupied_of zst buffer ∧
    (a.zst.avail_out : Int) = min (a.ret - occupied_of zst buffer) (UINT_MAX : Int) ∧
    (length ≤ a.ret ∧ a.ret ≤ max_length ∧ (occupied_of zst buffer : Int) ≤ a.ret) ∧
    (∃ b, a.buffer = some b ∧ (b.size : Int) = a.ret ∨ buffer = some b ∧ a.buffer = some b) := by
  cases arrange_paths _ _ _ _ _ _ _ h with
  | alloc_failed py1 hb ha => subst ha; simp at hret
  | allocated b py1 hb h0 hs ha =>
    subst ha hb
    simp only [set_window, occupied_of] at *
    refine ⟨trivial, ?_, by omega, b, Or.inl ⟨rfl, hs⟩⟩
    exact window_of_range _ (by omega) (by omega)
  | exhausted b hb ho hm ha => subst ha; simp at hret
  | resize_failed b py1 hb ho hm ha => subst ha; simp at hret
  | resized b0 b1 py1 new_length hb ho hm hnl hr ha =>
    subst ha hb
    have hs := (resize_some _ _ _ _ _ _ hr).2.1
    simp only [set_window, occupied_of] at *
    have hn := (new_length_eq length max_length (by omega) hmax).1
    rw [← hnl] at hn
    refine ⟨trivial, ?_, by omega, b1, Or.inl ⟨rfl, hs⟩⟩
    exact window_of_range _ (by omega) (by omega)
  | kept b hb ho ha =>
    subst ha hb
    simp only [set_window, occupied_of] at *
    refine ⟨trivial, ?_, by omega, b, Or.inr ⟨rfl, rfl⟩⟩
    exact window_of_range _ (by omega) (by omega)

/-- The wrapper `arrange_output_buffer` in terms of
`arrange_output_buffer_with_maximum`. -/
theorem arrange_output_buffer_eq (cfg : Config) (py : PyState) (zst : z_stream σ)
    (buffer : Option PyBytes) (length : Int) (a : Arranged σ)
    (h : arrange_output_buffer cfg py zst buffer length = some a) :
    ∃ a0, arrange_output_buffer_with_maximum cfg py zst buffer length PY_SSIZE_T_MAX = some a0 ∧
      a.ret = a0.ret ∧ a.zst = a0.zst ∧ a.buffer = a0.buffer ∧
      (a0.ret = -2 → a.py.err = some (.MemoryError none)) ∧ (a0.ret ≠ -2 → a.py = a0.py) := by
  unfold arrange_output_buffer at h
  split at h
  · simp at h
  · rename_i a0 h0
    refine ⟨a0, h0, ?_⟩
    split at h
    · rename_i h2
      simp only [Option.some.injEq] at h
      subst h
      exact ⟨rfl, rfl, rfl, fun _ => rfl, fun hne => absurd h2 hne⟩
    · rename_i h2
      simp only [Option.some.injEq] at h
      subst h
      exact ⟨rfl, rfl, rfl, fun he => absurd he h2, fun _ => rfl⟩

theorem arrange_output_buffer_none (cfg : Config) (py : PyState) (zst : z_stream σ)
    (buffer : Option PyBytes) (length : Int)
    (h : arrange_output_buffer cfg py zst buffer length = none) :
    arrange_output_buffer_with_maximum cfg py zst buffer length PY_SSIZE_T_MAX = none := by
  unfold arrange_output_buffer at h
  split at h
  · assumption
  · split at h <;> simp at h

/-! ## Loop rules -/

/-- Invariant rule for the inner loop. -/
theorem inner_loop_rule (cfg : Config) (E : Engine σ) (data : Py_buffer)
    (P : Locals σ → Prop) (Q : Exit σ → Prop)
    (hbody : ∀ s, P s → ∀ i, inner_body cfg E data s = i →
      match i with
      | .again s1 => P s1
      | .leave e => Q e)
    (hfuel : ∀ s, P s → Q (.fuel s)) :
    ∀ fuel s, P s → Q (inner_loop cfg E data fuel s) := by
  intro fuel
  induction fuel with
  | zero => intro s hs; exact hfuel s hs
  | succ n ih =>
    intro s hs
    have hb := hbody s hs _ rfl
    unfold inner_loop
    cases hi : inner_body cfg E data s with
    | again s1 => rw [hi] at hb; exact ih s1 hb
    | leave e => rw [hi] at hb; exact hb

/-- Invariant rule for the outer loop. -/
theorem outer_loop_rule (cfg : Config) (E : Engine σ) (data : Py_buffer) (fuel : Nat)
    (P : Locals σ → Prop) (Q : Exit σ → Prop)
    (hbody : ∀ s, P s → ∀ i, outer_body cfg E data fuel s = i →
      match i with
      | .again s1 => P s1
      | .leave e => Q e)
    (hfuel : ∀ s, P s → Q (.fuel s)) :
    ∀ n s, P s → Q (outer_loop cfg E data fuel n s) := by
  intro n
  induction n with
  | zero => intro s hs; exact hfuel s hs
  | succ n ih =>
    intro s hs
    have hb := hbody s hs _ rfl
    unfold outer_loop
    cases hi : outer_body cfg E data fuel s with
    | again s1 => rw [hi] at hb; exact ih s1 hb
    | leave e => rw [hi] at hb; exact hb

theorem inner_body_paths (cfg : Config) (E : Engine σ) (data : Py_buffer) (s : Locals σ) :
    InnerPath cfg E data s (inner_body cfg E data s) := by
  unfold inner_body
  split
  · rename_i ha; exact .assert_failed ha
  · rename_i a ha
    simp only
    split
    · rename_i hr; exact .no_buffer a ha (by simpa [output_step] using hr)
    · rename_i hr
      have hr : 0 ≤ a.ret := by simpa [output_step] using hr
      split
      · rename_i he
        have := @InnerPath.stream_error σ cfg E data s a ha hr he
        have h3 : (call_deflateEnd E (call_deflate E data (output_step s a))).2.err = Z_STREAM_ERROR := he
        rw [h3]
        exact this
      · rename_i he
        split
        · rename_i hv; exact .full a ha hr he hv
        · rename_i hv; exact .room_left a ha hr he hv

theorem outer_body_paths (cfg : Config) (E : Engine σ) (data : Py_buffer) (fuel : Nat)
    (s : Locals σ) : OuterPath cfg E data fuel s (outer_body cfg E data fuel s) := by
  unfold outer_body
  split
  · rename_i s1 hi
    split
    · rename_i h; exact .assert_failed s1 hi h.1 h.2
    · rename_i h
      split
      · rename_i hf; exact .more_input s1 hi hf
      · rename_i hf
        refine .finished s1 hi (by simpa using hf) ?_
        intro ha
        by_contra hv
        exact h ⟨ha, hv⟩
  · rename_i e hd
    exact .inner_left _ rfl (fun s1 h => hd s1 h)

theorem Preserved.keeps_inner {cfg : Config} {E : Engine σ} {data : Py_buffer}
    {P : Locals σ → Prop} (hP : Preserved cfg E data P) :
    ∀ fuel s, P s → P (inner_loop cfg E data fuel s).state := by
  apply inner_loop_rule cfg E data P (fun e => P e.state)
  · intro s hs i hi
    have hp := inner_body_paths cfg E data s
    rw [hi] at hp
    cases hp with
    | assert_failed ha => exact hs
    | no_buffer a ha hr => exact hP.deflateEnd _ (hP.output s a hs ha)
    | stream_error a ha hr he =>
      exact hP.frame _ _ (hP.deflateEnd _ (hP.deflate _ (hP.output s a hs ha))) rfl rfl rfl rfl
    | full a ha hr he hv => exact hP.deflate _ (hP.output s a hs ha)
    | room_left a ha hr he hv => exact hP.deflate _ (hP.output s a hs ha)
  · intro s hs; exact hs

theorem Preserved.keeps_outer {cfg : Config} {E : Engine σ} {data : Py_buffer}
    {P : Locals σ → Prop} (hP : Preserved cfg E data P) (fuel : Nat) :
    ∀ n s, P s → P (outer_loop cfg E data fuel n s).state := by
  apply outer_loop_rule cfg E data fuel P (fun e => P e.state)
  · intro s hs i hi
    have hin := hP.keeps_inner fuel (input_step s) (hP.input s hs)
    have hp := outer_body_paths cfg E data fuel s
    rw [hi] at hp
    cases hp with
    | assert_failed s1 hl ha hv => rw [hl] at hin; exact hin
    | more_input s1 hl hf => rw [hl] at hin; exact hin
    | finished s1 hl hf ha => rw [hl] at hin; exact hin
    | inner_left e hl hd => rw [hl] at hin; exact hin
  · intro s hs; exact hs

theorem Preserved.keeps_finish {cfg : Config} {E : Engine σ} {data : Py_buffer}
    {P : Locals σ → Prop} (hP : Preserved cfg E data P) (s : Locals σ) (hs : P s) :
    P (finish cfg E s).s := by
  have hend := hP.deflateEnd s hs
  unfold finish
  split
  · exact hs
  · simp only
    split
    · split
      · exact hP.frame _ _ hend rfl rfl rfl rfl
      · split
        · exact hP.frame _ _ hend rfl rfl rfl rfl
        · exact hP.frame _ _ hend rfl rfl rfl rfl
    · exact hP.frame _ _ hend rfl rfl rfl rfl

theorem Preserved.at_result {cfg : Config} {E : Engine σ} {data : Py_buffer}
    {P : Locals σ → Prop} (hP : Preserved cfg E data P) (py : PyState) (level : Int)
    (fuel : Nat) (h0 : P (after_init E py data level)) :
    P (myzip_compress_impl cfg E py data level fuel).s := by
  have hout := hP.keeps_outer fuel fuel _ h0
  unfold myzip_compress_impl
  simp only
  split
  · split
    · rename_i s1 heq; rw [heq] at hout; exact hP.keeps_finish s1 hout
    · rename_i s1 heq; rw [heq] at hout; exact hP.frame _ _ hout rfl rfl rfl rfl
    · rename_i s1 heq; rw [heq] at hout; exact hout
    · rename_i s1 heq; rw [heq] at hout; exact hout
  · split
    · exact hP.frame _ _ h0 rfl rfl rfl rfl
    · split
      · exact hP.frame _ _ h0 rfl rfl rfl rfl
      · exact hP.frame _ _ (hP.deflateEnd _ h0) rfl rfl rfl rfl

/-! ## Input accounting -/

theorem arrange_input_buffer_eq (remains : Int) (h0 : 0 ≤ remains)
    (h1 : remains ≤ PY_SSIZE_T_MAX) :
    ((arrange_input_buffer remains).1 : Int) = min remains (UINT_MAX : Int) ∧
    (arrange_input_buffer remains).2 = remains - (arrange_input_buffer remains).1 := by
  have hw := window_of_range remains h0 h1
  simp only [arrange_input_buffer]
  refine ⟨hw, ?_⟩
  apply to_ssize_t_of_range
  · unfold UINT_MAX PY_SSIZE_T_MAX at *; omega
  · unfold UINT_MAX PY_SSIZE_T_MAX at *; omega

theorem input_windows_append (l1 l2 : List Event) :
    input_windows (l1 ++ l2) = input_windows l1 ++ input_windows l2 := by
  induction l1 with
  | nil => rfl
  | cons e l ih => cases e <;> simp [input_windows, ih]

/-- The inner loop changes neither `ibuflen` nor `flush`. -/
theorem inner_loop_keeps (cfg : Config) (E : Engine σ) (data : Py_buffer) (fuel : Nat)
    (s : Locals σ) :
    (inner_loop cfg E data fuel s).state.ibuflen = s.ibuflen ∧
    (inner_loop cfg E data fuel s).state.flush = s.flush := by
  refine inner_loop_rule cfg E data (fun s1 => s1.ibuflen = s.ibuflen ∧ s1.flush = s.flush)
    (fun e => e.state.ibuflen = s.ibuflen ∧ e.state.flush = s.flush) ?_ ?_ fuel s ⟨rfl, rfl⟩
  · intro s1 hs i hi
    have hp := inner_body_paths cfg E data s1
    rw [hi] at hp
    cases hp <;> exact hs
  · intro s1 hs; exact hs

/-- When the outer loop runs to its end, no input remains. -/
theorem outer_done_ibuflen (cfg : Config) (E : Engine σ) (data : Py_buffer) (fuel n : Nat)
    (s s1 : Locals σ) (h : outer_loop cfg E data fuel n s = .done s1) :
    s1.ibuflen = 0 ∧ s1.flush = Z_FINISH := by
  have := outer_loop_rule cfg E data fuel (fun _ => True)
    (fun e => ∀ s1, e = .done s1 → s1.ibuflen = 0 ∧ s1.flush = Z_FINISH) ?_ ?_ n s trivial
  · exact this s1 h
  · intro s0 _ i hi
    have hp := outer_body_paths cfg E data fuel s0
    rw [hi] at hp
    cases hp with
    | assert_failed s2 hl ha hv => intro s3 h3; cases h3
    | more_input s2 hl hf => trivial
    | finished s2 hl hf ha =>
      intro s3 h3
      cases h3
      have hk := inner_loop_keeps cfg E data fuel (input_step s0)
      rw [hl] at hk
      simp only [Exit.state, input_step] at hk
      refine ⟨?_, hf⟩
      rw [hk.1]
      by_contra hne
      rw [hk.2, if_neg hne] at hf
      exact absurd hf (by decide)
    | inner_left e hl hd => intro s3 h3; exact absurd h3 (hd s3)
  · intro s0 _ s3 h3; cases h3

theorem InputInv_preserved (cfg : Config) (E : Engine σ) (data : Py_buffer) (n : Int) :
    Preserved cfg E data (@InputInv σ n) where
  input := by
    intro s ⟨h1, h2, h3, h4⟩
    have hw := arrange_input_buffer_eq s.ibuflen h2 h3
    simp only [InputInv, input_step, input_windows_append, input_windows, List.sum_append,
      List.sum_cons, List.sum_nil, List.mem_append, List.mem_singleton]
    refine ⟨?_, ?_, ?_, ?_⟩
    · push_cast at h1 ⊢; omega
    · omega
    · omega
    · intro a rem hm
      rcases hm with hm | hm
      · exact h4 a rem hm
      · cases hm
        constructor
        · have := hw.1; omega
        · omega
  output := by
    intro s a ⟨h1, h2, h3, h4⟩ _
    simp only [InputInv, output_step, input_windows_append, input_windows, List.append_nil,
      List.mem_append, List.mem_singleton]
    refine ⟨h1, h2, h3, ?_⟩
    intro a rem hm
    rcases hm with hm | hm
    · exact h4 a rem hm
    · cases hm
  deflate := by
    intro s ⟨h1, h2, h3, h4⟩
    simp only [InputInv, call_deflate, input_windows_append, input_windows, List.append_nil,
      List.mem_append, List.mem_singleton]
    refine ⟨h1, h2, h3, ?_⟩
    intro a rem hm
    rcases hm with hm | hm
    · exact h4 a rem hm
    · cases hm
  deflateEnd := by
    intro s ⟨h1, h2, h3, h4⟩
    simp only [InputInv, call_deflateEnd, input_windows_append, input_windows, List.append_nil,
      List.mem_append, List.mem_singleton]
    refine ⟨h1, h2, h3, ?_⟩
    intro a rem hm
    rcases hm with hm | hm
    · exact h4 a rem hm
    · cases hm
  frame := by
    intro s s1 hs hl hi _ _
    unfold InputInv at *
    rw [hl, hi]
    exact hs

/-- Iterating `arrange_input_buffer` exhausts the input. -/
theorem remains_reaches_zero (n : Nat) : ∀ r : Int, r.toNat = n → 0 ≤ r → r ≤ PY_SSIZE_T_MAX →
    ∃ k, k ≤ n / UINT_MAX + 1 ∧ (fun x => (arrange_input_buffer x).2)^[k] r = 0 := by
  induction n using Nat.strong_induction_on with
  | _ n ih =>
    intro r hr h0 h1
    have hw := arrange_input_buffer_eq r h0 h1
    by_cases hle : r ≤ (UINT_MAX : Int)
    · refine ⟨1, Nat.le_add_left 1 _, ?_⟩
      simp only [Function.iterate_succ, Function.iterate_zero, Function.comp_apply, id_eq]
      omega
    · have hlt : (r - (UINT_MAX : Int)).toNat < n := by unfold UINT_MAX at *; omega
      obtain ⟨k, hk, hz⟩ := ih _ hlt (r - (UINT_MAX : Int)) rfl (by omega)
        (by unfold UINT_MAX at *; omega)
      refine ⟨k + 1, ?_, ?_⟩
      · unfold UINT_MAX at *
        have hsub : (r - ((4294967295 : Nat) : Int)).toNat = n - 4294967295 := by omega
        rw [hsub] at hk
        omega
      · rw [Function.iterate_succ_apply]
        have : (arrange_input_buffer r).2 = r - (UINT_MAX : Int) := by omega
        rw [this]; exact hz

/-! ## Capacity accounting -/

theorem capacity_after_append (cur : Int) (l1 l2 : List Event) :
    capacity_after cur (l1 ++ l2) = capacity_after (capacity_after cur l1) l2 := by
  induction l1 generalizing cur with
  | nil => rfl
  | cons e l ih => cases e <;> simp [capacity_after, ih]

theorem capacity_ok_append (cur : Int) (l1 l2 : List Event) :
    capacity_ok cur (l1 ++ l2) ↔
      capacity_ok cur l1 ∧ capacity_ok (capacity_after cur l1) l2 := by
  induction l1 generalizing cur with
  | nil => simp [capacity_ok, capacity_after]
  | cons e l ih => cases e <;> simp [capacity_ok, capacity_after, ih, and_assoc]

/-- The length returned by `arrange_output_buffer` for a capacity within
bounds. -/
theorem arrange_output_buffer_ret (cfg : Config) (py : PyState) (zst : z_stream σ)
    (buffer : Option PyBytes) (length : Int) (a : Arranged σ)
    (hl : length < 0 ∨ (0 < length ∧ length ≤ PY_SSIZE_T_MAX))
    (h : arrange_output_buffer cfg py zst buffer length = some a) :
    (0 ≤ a.ret → 0 < a.ret ∧ length ≤ a.ret ∧ a.ret ≤ PY_SSIZE_T_MAX) := by
  obtain ⟨a0, ha0, hr, -⟩ := arrange_output_buffer_eq _ _ _ _ _ _ h
  rw [hr]
  intro hret
  cases arrange_paths _ _ _ _ _ _ _ ha0 with
  | alloc_failed py1 hb ha => subst ha; simp at hret
  | allocated b py1 hb h0 hs ha => subst ha; simp only [set_window] at *; omega
  | exhausted b hb ho hm ha => subst ha; simp at hret
  | resize_failed b py1 hb ho hm ha => subst ha; simp at hret
  | resized b0 b1 py1 new_length hb ho hm hnl hr ha =>
    subst ha
    simp only [set_window] at *
    have hn := (new_length_eq length PY_SSIZE_T_MAX (by omega) (le_refl _)).1
    rw [← hnl] at hn
    omega
  | kept b hb ho ha => subst ha; simp only [set_window] at *; omega

theorem CapInv_preserved (cfg : Config) (E : Engine σ) (data : Py_buffer) :
    Preserved cfg E data (@CapInv σ) where
  input := by
    intro s ⟨h1, h2, h3⟩
    refine ⟨?_, ?_, h3⟩
    · simp only [input_step, capacity_ok_append, capacity_ok, and_true]; exact h1
    · simp only [input_step, capacity_after_append, capacity_after]; exact h2
  output := by
    intro s a ⟨h1, h2, h3⟩ ha
    have hr := arrange_output_buffer_ret cfg _ _ _ _ _ h3 ha
    refine ⟨?_, ?_, ?_⟩
    · simp only [output_step, capacity_ok_append, capacity_ok, and_true]
      refine ⟨h1, h2.symm, by unfold PY_SSIZE_T_MAX at *; omega, fun h => ?_⟩
      have := hr h; omega
    · simp only [output_step, capacity_after_append, capacity_after]
    · simp only [output_step]
      by_cases h : 0 ≤ a.ret
      · have := hr h; right; omega
      · left; omega
  deflate := by
    intro s ⟨h1, h2, h3⟩
    refine ⟨?_, ?_, h3⟩
    · simp only [call_deflate, capacity_ok_append, capacity_ok, and_true]; exact h1
    · simp only [call_deflate, capacity_after_append, capacity_after]; exact h2
  deflateEnd := by
    intro s ⟨h1, h2, h3⟩
    refine ⟨?_, ?_, h3⟩
    · simp only [call_deflateEnd, capacity_ok_append, capacity_ok, and_true]; exact h1
    · simp only [call_deflateEnd, capacity_after_append, capacity_after]; exact h2
  frame := by
    intro s s1 hs hl _ ho _
    unfold CapInv at *
    rw [hl, ho]
    exact hs

/-- With the capacity within bounds the assertion of line 54 holds. -/
theorem CapInv_assertion_holds (cfg : Config) (s : Locals σ) (hs : CapInv s) :
    arrange_output_buffer cfg s.py s.zst s.RetVal s.obuflen ≠ none := by
  intro h
  have h1 := arrange_output_buffer_none _ _ _ _ _ h
  have h3 := hs.2.2
  unfold arrange_output_buffer_with_maximum at h1
  split at h1
  · split at h1 <;> simp at h1
  · simp only at h1
    split at h1
    · split at h1
      · rename_i hx; omega
      · split at h1
        · simp at h1
        · split at h1 <;> simp at h1
    · simp at h1

/-- A property that implies the assertion of line 54 and is kept by the
loops: the loops are never left by a failure of that assertion. -/
theorem Preserved.line_54 {cfg : Config} {E : Engine σ} {data : Py_buffer}
    {P : Locals σ → Prop} (hP : Preserved cfg E data P)
    (hsafe : ∀ s, P s → arrange_output_buffer cfg s.py s.zst s.RetVal s.obuflen ≠ none)
    (fuel : Nat) : ∀ n s, P s → ∀ s1, outer_loop cfg E data fuel n s ≠ .abort 54 s1 := by
  have hin : ∀ k s, P s → ∀ s1, inner_loop cfg E data k s ≠ .abort 54 s1 := by
    intro k s hs
    refine inner_loop_rule cfg E data P (fun e => ∀ s1, e ≠ .abort 54 s1) ?_ ?_ k s hs
    · intro s hs i hi
      have hp := inner_body_paths cfg E data s
      rw [hi] at hp
      cases hp with
      | assert_failed ha => exact absurd ha (hsafe s hs)
      | no_buffer a ha hr => intro s1 h; cases h
      | stream_error a ha hr he => intro s1 h; cases h
      | full a ha hr he hv => exact hP.deflate _ (hP.output s a hs ha)
      | room_left a ha hr he hv => intro s1 h; cases h
    · intro s _ s1 h; cases h
  refine outer_loop_rule cfg E data fuel P (fun e => ∀ s1, e ≠ .abort 54 s1) ?_ ?_
  · intro s hs i hi
    have hp := outer_body_paths cfg E data fuel s
    rw [hi] at hp
    cases hp with
    | assert_failed s1 hl ha hv => intro s2 h; cases h
    | more_input s1 hl hf =>
      have := hP.keeps_inner fuel _ (hP.input s hs)
      rw [hl] at this
      exact this
    | finished s1 hl hf ha => intro s2 h; cases h
    | inner_left e hl hd => rw [← hl]; exact hin fuel _ (hP.input s hs)
  · intro s _ s1 h; cases h

theorem capacity_ok_mem (l : List Event) : ∀ (cur : Int), capacity_ok cur l →
    ∀ length ret, Event.arrange_output length ret ∈ l →
      length ≤ PY_SSIZE_T_MAX ∧ (0 ≤ ret → length ≤ ret ∧ ret ≤ PY_SSIZE_T_MAX) := by
  induction l with
  | nil => intro cur _ length ret hm; simp at hm
  | cons e l ih =>
    intro cur hok length ret hm
    cases e with
    | arrange_output l0 r0 =>
      simp only [capacity_ok] at hok
      rcases List.mem_cons.mp hm with hm | hm
      · cases hm; exact ⟨hok.2.1, hok.2.2.1⟩
      · exact ih _ hok.2.2.2 length ret hm
    | deflateInit _ _ =>
      rcases List.mem_cons.mp hm with hm | hm
      · cases hm
      · exact ih _ hok length ret hm
    | arrange_input _ _ =>
      rcases List.mem_cons.mp hm with hm | hm
      · cases hm
      · exact ih _ hok length ret hm
    | deflate _ _ _ _ _ _ =>
      rcases List.mem_cons.mp hm with hm | hm
      · cases hm
      · exact ih _ hok length ret hm
    | deflateEnd _ =>
      rcases List.mem_cons.mp hm with hm | hm
      · cases hm
      · exact ih _ hok length ret hm

/-- Where an abort of `myzip_compress_impl` comes from. -/
theorem result_aborted (cfg : Config) (E : Engine σ) (py : PyState) (data : Py_buffer)
    (level : Int) (fuel : Nat) (line : Nat)
    (h : (myzip_compress_impl cfg E py data level fuel).ret = .aborted line) :
    (∃ s1, outer_loop cfg E data fuel fuel (after_init E py data level) = .abort line s1) ∨
    line = 176 ∨ line = 180 := by
  unfold myzip_compress_impl at h
  simp only at h
  split at h
  · split at h
    · right
      unfold finish at h
      split at h
      · simp only [Return.aborted.injEq] at h; omega
      · simp only at h
        split at h
        · split at h
          · simp only [Return.aborted.injEq] at h; omega
          · split at h
            · simp [goto_error] at h
            · simp at h
        · simp [goto_error] at h
    · simp [goto_error] at h
    · rename_i l s1 heq
      simp only [Return.aborted.injEq] at h
      subst h
      exact Or.inl ⟨s1, heq⟩
    · simp at h
  · split at h
    · simp [goto_error] at h
    · split at h <;> simp [goto_error] at h

/-! ## Output accounting -/

theorem written_bytes_append (l1 l2 : List Event) :
    written_bytes (l1 ++ l2) = written_bytes l1 ++ written_bytes l2 := by
  induction l1 with
  | nil => rfl
  | cons e l ih => cases e <;> simp [written_bytes, ih]

theorem map_getD_range (w : List Byte) :
    (List.range w.length).map (fun j => w.getD j 0) = w := by
  apply List.ext_getElem
  · simp
  · intro i h1 h2
    simp [List.getD_eq_getElem?_getD, List.getElem?_eq_getElem h2]

/-- Storing `w` at offset `off` extends the bytes before `off` by `w`. -/
theorem write_extends (b : PyBytes) (off : Nat) (w : List Byte) :
    (List.range (off + w.length)).map (b.write off w).data
      = (List.range off).map b.data ++ w := by
  rw [List.range_add, List.map_append, List.map_map]
  congr 1
  · apply List.map_congr_left
    intro i hi
    have : i < off := List.mem_range.mp hi
    simp only [PyBytes.write]
    rw [if_neg (by omega)]
  · conv_rhs => rw [← map_getD_range w]
    apply List.map_congr_left
    intro j hj
    have : j < w.length := List.mem_range.mp hj
    simp only [PyBytes.write, Function.comp_apply]
    rw [if_pos (by omega)]
    congr 1
    omega

/-- After a successful `arrange_output_buffer` the output window lies inside
the buffer and the stored bytes are kept. -/
theorem BufInv.arranged (cfg : Config) (s : Locals σ) (a : Arranged σ) (hs : BufInv s)
    (ha : arrange_output_buffer cfg s.py s.zst s.RetVal s.obuflen = some a)
    (hr : 0 ≤ a.ret) : WindowInv (output_step s a) := by
  obtain ⟨a0, ha0, hret, hz, hbuf, -, -⟩ := arrange_output_buffer_eq _ _ _ _ _ _ ha
  obtain ⟨h0, h1, h2⟩ := hs
  have hlog : written_bytes (s.log ++ [Event.arrange_output s.obuflen a.ret])
      = written_bytes s.log := by
    simp [written_bytes_append, written_bytes]
  unfold WindowInv
  simp only [output_step]
  rw [hlog, hret, hz, hbuf]
  rw [hret] at hr
  cases arrange_paths _ _ _ _ _ _ _ ha0 with
  | alloc_failed py1 hb ha => subst ha; simp at hr
  | allocated b py1 hb h0a hs ha =>
    subst ha
    rw [hb] at h2
    simp only [set_window] at *
    have hw := window_of_range (s.obuflen - ((0 : Nat) : Int)) (by omega) (by omega)
    refine ⟨h1, b, rfl, hs, ?_, ?_⟩
    · omega
    · simp [h2]
  | exhausted b hb ho hm ha => subst ha; simp at hr
  | resize_failed b py1 hb ho hm ha => subst ha; simp at hr
  | resized b0 b1 py1 new_length hb ho hm hnl hrs ha =>
    subst ha
    rw [hb] at h2
    simp only [set_window] at *
    obtain ⟨hn0, hsz, -, hdata⟩ := resize_some _ _ _ _ _ _ hrs
    have hn := (new_length_eq s.obuflen PY_SSIZE_T_MAX h0 (le_refl _)).1
    rw [← hnl] at hn
    have hw := window_of_range (new_length - (s.zst.next_out : Int)) (by omega) (by omega)
    refine ⟨by omega, b1, rfl, hsz, ?_, ?_⟩
    · omega
    · rw [← h2.2.2]
      apply List.map_congr_left
      intro i hi
      have : i < s.zst.next_out := List.mem_range.mp hi
      exact hdata i (by omega) (by omega)
  | kept b hb ho ha =>
    subst ha
    rw [hb] at h2
    simp only [set_window] at *
    have hw := window_of_range (s.obuflen - (s.zst.next_out : Int)) (by omega) (by omega)
    refine ⟨h1, b, rfl, h2.1, ?_, h2.2.2⟩
    omega

/-- A `deflate` call that stores at most `avail_out` bytes keeps the output
accounting. -/
theorem WindowInv.deflated (E : Engine σ) (data : Py_buffer) (hE : E.WritesWithin)
    (s : Locals σ) (hs : WindowInv s) (h0 : 0 ≤ s.obuflen) :
    BufInv (call_deflate E data s) ∧ (call_deflate E data s).RetVal ≠ none := by
  obtain ⟨h1, b, hb, hsz, hwin, hdata⟩ := hs
  have hw := hE s.zst.state data.buf s.zst.next_in s.zst.avail_in s.zst.avail_out s.flush
  unfold BufInv
  simp only [call_deflate, hb, Option.map_some', ne_eq, not_false_eq_true, and_true,
    reduceCtorEq]
  refine ⟨h0, h1, hsz, ?_, ?_⟩
  · simp only [PyBytes.write]; omega
  · rw [write_extends, hdata]
    simp [written_bytes_append, written_bytes]

/-- The output accounting holds whenever the loops run to their end. -/
theorem BufInv.outer_done (cfg : Config) (E : Engine σ) (data : Py_buffer)
    (hE : E.WritesWithin) (fuel : Nat) :
    ∀ n s, BufInv s → ∀ s1, outer_loop cfg E data fuel n s = .done s1 →
      BufInv s1 ∧ s1.RetVal ≠ none := by
  have hin : ∀ k s, BufInv s → ∀ s1, inner_loop cfg E data k s = .done s1 →
      BufInv s1 ∧ s1.RetVal ≠ none := by
    intro k s hs
    refine inner_loop_rule cfg E data BufInv
      (fun e => ∀ s1, e = .done s1 → BufInv s1 ∧ s1.RetVal ≠ none) ?_ ?_ k s hs
    · intro s hs i hi
      have hp := inner_body_paths cfg E data s
      rw [hi] at hp
      cases hp with
      | assert_failed ha => intro s1 h; cases h
      | no_buffer a ha hr => intro s1 h; cases h
      | stream_error a ha hr he => intro s1 h; cases h
      | full a ha hr he hv =>
        exact (WindowInv.deflated E data hE _ (BufInv.arranged cfg s a hs ha hr) hr).1
      | room_left a ha hr he hv =>
        intro s1 h
        cases h
        exact WindowInv.deflated E data hE _ (BufInv.arranged cfg s a hs ha hr) hr
    · intro s _ s1 h; cases h
  have hinput : ∀ s : Locals σ, BufInv s → BufInv (input_step s) := by
    intro s hs
    unfold BufInv at *
    simp only [input_step, written_bytes_append, written_bytes, List.append_nil]
    exact hs
  refine outer_loop_rule cfg E data fuel BufInv
    (fun e => ∀ s1, e = .done s1 → BufInv s1 ∧ s1.RetVal ≠ none) ?_ ?_
  · intro s hs i hi
    have hp := outer_body_paths cfg E data fuel s
    rw [hi] at hp
    cases hp with
    | assert_failed s1 hl ha hv => intro s2 h; cases h
    | more_input s1 hl hf => exact (hin fuel _ (hinput s hs) s1 hl).1
    | finished s1 hl hf ha =>
      intro s2 h
      cases h
      exact hin fuel _ (hinput s hs) s1 hl
    | inner_left e hl hd => intro s2 h; exact absurd h (hd s2)
  · intro s _ s1 h; cases h

/-- Where a returned object comes from. -/
theorem result_object (cfg : Config) (E : Engine σ) (py : PyState) (data : Py_buffer)
    (level : Int) (fuel : Nat) (b : PyBytes)
    (h : (myzip_compress_impl cfg E py data level fuel).ret = .object b) :
    (E.deflateInit level).err = Z_OK ∧
    ∃ s1, outer_loop cfg E data fuel fuel (after_init E py data level) = .done s1 ∧
      myzip_compress_impl cfg E py data level fuel = finish cfg E s1 := by
  have h2 := h
  unfold myzip_compress_impl at h
  simp only at h
  split at h
  · rename_i hok
    refine ⟨hok, ?_⟩
    split at h
    · rename_i s1 heq
      refine ⟨s1, heq, ?_⟩
      unfold myzip_compress_impl
      simp only
      rw [if_pos hok, heq]
    · simp [goto_error] at h
    · simp at h
    · simp at h
  · split at h
    · simp [goto_error] at h
    · split at h <;> simp [goto_error] at h

/-- What `finish` returns, when it returns an object. -/
theorem finish_object (cfg : Config) (E : Engine σ) (s : Locals σ) (b : PyBytes)
    (h : (finish cfg E s).ret = .object b) :
    (E.deflateEnd s.zst.state).err = Z_OK ∧
    (finish cfg E s).s.log = s.log ++ [.deflateEnd Z_OK] ∧
    ∃ b0 py1, s.RetVal = some b0 ∧
      _PyBytes_Resize cfg s.py b0 s.zst.next_out = (some b, py1) ∧
      (finish cfg E s).s.py = py1 := by
  unfold finish at h ⊢
  split at h
  · simp at h
  · rename_i hna
    rw [if_neg hna]
    simp only at h ⊢
    split at h
    · rename_i hok
      rw [if_pos hok]
      have hok2 : (E.deflateEnd s.zst.state).err = Z_OK := hok
      refine ⟨hok2, ?_⟩
      split at h
      · simp at h
      · rename_i b0 hb0
        split at h
        · simp [goto_error] at h
        · rename_i b1 py1 hrs
          simp only [Return.object.injEq] at h
          subst h
          simp only [call_deflateEnd] at hb0 hrs ⊢
          simp only [hb0, hrs, hok2]
          exact ⟨trivial, b0, py1, rfl, hrs, rfl⟩
    · simp [goto_error] at h

/-- The engine `copy_engine` stores at most `avail_out` bytes. -/
theorem copy_engine_writes_within : copy_engine.WritesWithin := by
  intro st buf next_in avail_in avail_out flush
  simp [copy_engine]

/-! ## Flush accounting -/

theorem last_remains_append (last : Option Int) (l1 l2 : List Event) :
    last_remains last (l1 ++ l2) = last_remains (last_remains last l1) l2 := by
  induction l1 generalizing last with
  | nil => rfl
  | cons e l ih => cases e <;> simp [last_remains, ih]

theorem flush_ok_append (last : Option Int) (l1 l2 : List Event) :
    flush_ok last (l1 ++ l2) ↔ flush_ok last l1 ∧ flush_ok (last_remains last l1) l2 := by
  induction l1 generalizing last with
  | nil => simp [flush_ok, last_remains]
  | cons e l ih => cases e <;> simp [flush_ok, last_remains, ih, and_assoc]

/-- In a flush-consistent log a later `arrange_input_buffer` call means that
input remained. -/
theorem flush_ok_input (l : List Event) : ∀ last, flush_ok last l →
    ∀ a rem, Event.arrange_input a rem ∈ l → last ≠ some 0 := by
  induction l with
  | nil => intro last _ a rem hm; simp at hm
  | cons e l ih =>
    intro last hok a rem hm
    cases e with
    | arrange_input a0 r0 => exact hok.1
    | deflateInit _ _ =>
      rcases List.mem_cons.mp hm with hm | hm
      · cases hm
      · exact ih last hok a rem hm
    | arrange_output _ _ =>
      rcases List.mem_cons.mp hm with hm | hm
      · cases hm
      · exact ih last hok a rem hm
    | deflate _ _ _ _ _ _ =>
      rcases List.mem_cons.mp hm with hm | hm
      · cases hm
      · exact ih last hok.2.2 a rem hm
    | deflateEnd _ =>
      rcases List.mem_cons.mp hm with hm | hm
      · cases hm
      · exact ih last hok a rem hm

/-- The `deflate` calls of a flush-consistent log. -/
theorem flush_ok_split (last : Option Int) (l1 l2 : List Event) (f r : Int) (ai ao : Nat)
    (w : List Byte) (e : Int) (hok : flush_ok last (l1 ++ Event.deflate f r ai ao w e :: l2)) :
    last_remains last l1 = some r ∧ f = (if r = 0 then Z_FINISH else Z_NO_FLUSH) ∧
    ∀ a rem, Event.arrange_input a rem ∈ l2 → r ≠ 0 := by
  rw [flush_ok_append] at hok
  obtain ⟨-, h1, h2, h3⟩ := hok
  refine ⟨h1, h2, ?_⟩
  intro a rem hm
  have := flush_ok_input l2 _ h3 a rem hm
  rw [h1] at this
  intro h0
  exact this (by rw [h0])

theorem FlushHead.after_input (s : Locals σ) (hs : FlushHead s) : FlushIn (input_step s) := by
  obtain ⟨h1, h2⟩ := hs
  refine ⟨?_, ?_, rfl⟩
  · simp only [input_step, flush_ok_append, flush_ok, and_true]
    exact ⟨h1, h2⟩
  · simp only [input_step, last_remains_append, last_remains]

theorem FlushIn.through_inner (cfg : Config) (E : Engine σ) (data : Py_buffer) :
    ∀ fuel s, FlushIn s → FlushIn (inner_loop cfg E data fuel s).state := by
  have hout : ∀ (s : Locals σ) a, FlushIn s → FlushIn (output_step s a) := by
    intro s a ⟨h1, h2, h3⟩
    refine ⟨?_, ?_, h3⟩
    · simp only [output_step, flush_ok_append, flush_ok, and_true]; exact h1
    · simp only [output_step, last_remains_append, last_remains]; exact h2
  have hdef : ∀ s : Locals σ, FlushIn s → FlushIn (call_deflate E data s) := by
    intro s ⟨h1, h2, h3⟩
    refine ⟨?_, ?_, h3⟩
    · simp only [call_deflate, flush_ok_append, flush_ok, and_true]; exact ⟨h1, h2, h3⟩
    · simp only [call_deflate, last_remains_append, last_remains]; exact h2
  have hend : ∀ s : Locals σ, FlushIn s → FlushIn (call_deflateEnd E s).2 := by
    intro s ⟨h1, h2, h3⟩
    refine ⟨?_, ?_, h3⟩
    · simp only [call_deflateEnd, flush_ok_append, flush_ok, and_true]; exact h1
    · simp only [call_deflateEnd, last_remains_append, last_remains]; exact h2
  apply inner_loop_rule cfg E data FlushIn (fun e => FlushIn e.state)
  · intro s hs i hi
    have hp := inner_body_paths cfg E data s
    rw [hi] at hp
    cases hp with
    | assert_failed ha => exact hs
    | no_buffer a ha hr => exact hend _ (hout s a hs)
    | stream_error a ha hr he => exact hend _ (hdef _ (hout s a hs))
    | full a ha hr he hv => exact hdef _ (hout s a hs)
    | room_left a ha hr he hv => exact hdef _ (hout s a hs)
  · intro s hs; exact hs

theorem FlushHead.through_outer (cfg : Config) (E : Engine σ) (data : Py_buffer) (fuel : Nat) :
    ∀ n s, FlushHead s → flush_ok none (outer_loop cfg E data fuel n s).state.log := by
  apply outer_loop_rule cfg E data fuel FlushHead (fun e => flush_ok none e.state.log)
  · intro s hs i hi
    have hin := FlushIn.through_inner cfg E data fuel _ (FlushHead.after_input s hs)
    have hp := outer_body_paths cfg E data fuel s
    rw [hi] at hp
    cases hp with
    | assert_failed s1 hl ha hv => rw [hl] at hin; exact hin.1
    | more_input s1 hl hf =>
      rw [hl] at hin
      obtain ⟨h1, h2, h3⟩ := hin
      simp only [Exit.state] at h1 h2 h3
      refine ⟨h1, ?_⟩
      rw [h2]
      intro h0
      simp only [Option.some.injEq] at h0
      rw [if_pos h0] at h3
      exact hf h3
    | finished s1 hl hf ha => rw [hl] at hin; exact hin.1
    | inner_left e hl hd => rw [hl] at hin; exact hin.1
  · intro s hs; exact hs.1

/-- The log at the end of `finish`. -/
theorem finish_log (cfg : Config) (E : Engine σ) (s : Locals σ) :
    (finish cfg E s).s.log = s.log ∨ ∃ e, (finish cfg E s).s.log = s.log ++ [.deflateEnd e] := by
  unfold finish
  split
  · exact Or.inl rfl
  · right
    refine ⟨(E.deflateEnd s.zst.state).err, ?_⟩
    simp only
    split
    · split
      · rfl
      · split <;> rfl
    · rfl

/-- The log at the end of `myzip_compress_impl`: the log of the outer loop,
possibly followed by a `deflateEnd` call, or, when the initialisation
failed, that call alone, possibly followed by a `deflateEnd` call. -/
theorem result_log (cfg : Config) (E : Engine σ) (py : PyState) (data : Py_buffer)
    (level : Int) (fuel : Nat) :
    ∃ l, ((myzip_compress_impl cfg E py data level fuel).s.log = l ∨
        ∃ e, (myzip_compress_impl cfg E py data level fuel).s.log = l ++ [.deflateEnd e]) ∧
      (l = (outer_loop cfg E data fuel fuel (after_init E py data level)).state.log ∨
        l = (after_init E py data level).log) := by
  unfold myzip_compress_impl
  simp only
  split
  · refine ⟨_, ?_, Or.inl rfl⟩
    split
    · rename_i s1 heq
      rw [heq]
      exact finish_log cfg E s1
    · rename_i s1 heq; rw [heq]; exact Or.inl rfl
    · rename_i ln s1 heq; rw [heq]; exact Or.inl rfl
    · rename_i s1 heq; rw [heq]; exact Or.inl rfl
  · refine ⟨_, ?_, Or.inr rfl⟩
    split
    · exact Or.inl rfl
    · split
      · exact Or.inl rfl
      · exact Or.inr ⟨_, rfl⟩

theorem EmptyInv_preserved (cfg : Config) (E : Engine σ) (data : Py_buffer) :
    Preserved cfg E data (@EmptyInv σ) where
  input := by
    intro s ⟨h1, h2⟩
    have h0 : arrange_input_buffer 0 = (0, 0) := by decide
    refine ⟨?_, ?_⟩
    · simp only [input_step, h1, h0]
    · intro f r ai ao w e hm
      simp only [input_step, List.mem_append, List.mem_singleton] at hm
      rcases hm with hm | hm
      · exact h2 f r ai ao w e hm
      · cases hm
  output := by
    intro s a ⟨h1, h2⟩ _
    refine ⟨h1, ?_⟩
    intro f r ai ao w e hm
    simp only [output_step, List.mem_append, List.mem_singleton] at hm
    rcases hm with hm | hm
    · exact h2 f r ai ao w e hm
    · cases hm
  deflate := by
    intro s ⟨h1, h2⟩
    refine ⟨h1, ?_⟩
    intro f r ai ao w e hm
    simp only [call_deflate, List.mem_append, List.mem_singleton] at hm
    rcases hm with hm | hm
    · exact h2 f r ai ao w e hm
    · cases hm; exact h1
  deflateEnd := by
    intro s ⟨h1, h2⟩
    refine ⟨h1, ?_⟩
    intro f r ai ao w e hm
    simp only [call_deflateEnd, List.mem_append, List.mem_singleton] at hm
    rcases hm with hm | hm
    · exact h2 f r ai ao w e hm
    · cases hm
  frame := by
    intro s s1 hs hl hi _ _
    unfold EmptyInv at *
    rw [hl, hi]
    exact hs

/-! ## The engine's lifetime -/

theorem deflateEnd_calls_append (l1 l2 : List Event) :
    deflateEnd_calls (l1 ++ l2) = deflateEnd_calls l1 + deflateEnd_calls l2 := by
  induction l1 with
  | nil => simp [deflateEnd_calls]
  | cons e l ih =>
    cases e <;> simp [deflateEnd_calls, ih]
    omega

/-- A successful `arrange_output_buffer` sets no exception. -/
theorem arrange_output_buffer_err (cfg : Config) (py : PyState) (zst : z_stream σ)
    (buffer : Option PyBytes) (length : Int) (a : Arranged σ)
    (h : arrange_output_buffer cfg py zst buffer length = some a) (hr : 0 ≤ a.ret) :
    a.py.err = py.err := by
  obtain ⟨a0, ha0, hret, -, -, -, hpy⟩ := arrange_output_buffer_eq _ _ _ _ _ _ h
  rw [hret] at hr
  rw [hpy (by omega)]
  cases arrange_paths _ _ _ _ _ _ _ ha0 with
  | alloc_failed py1 hb ha => subst ha; simp at hr
  | allocated b py1 hb h0 hs ha he => subst ha; exact he
  | exhausted b hb ho hm ha => subst ha; simp at hr
  | resize_failed b py1 hb ho hm ha => subst ha; simp at hr
  | resized b0 b1 py1 new_length hb ho hm hnl hrs ha =>
    subst ha
    exact (resize_some _ _ _ _ _ _ hrs).2.2.1
  | kept b hb ho ha => subst ha; rfl

theorem Running.released_inner (cfg : Config) (E : Engine σ) (data : Py_buffer)
    (err0 : Option PyErr) :
    ∀ fuel s, Running err0 s → Released err0 (inner_loop cfg E data fuel s) := by
  have hout : ∀ (s : Locals σ) a, Running err0 s →
      arrange_output_buffer cfg s.py s.zst s.RetVal s.obuflen = some a → 0 ≤ a.ret →
      Running err0 (call_deflate E data (output_step s a)) := by
    intro s a ⟨h1, h2⟩ ha hr
    refine ⟨?_, ?_⟩
    · simp only [call_deflate, output_step, deflateEnd_calls_append, deflateEnd_calls, h1]
    · simp only [call_deflate, output_step]
      rw [arrange_output_buffer_err _ _ _ _ _ _ ha hr, h2]
  apply inner_loop_rule cfg E data (Running err0) (Released err0)
  · intro s hs i hi
    have hp := inner_body_paths cfg E data s
    rw [hi] at hp
    cases hp with
    | assert_failed ha => trivial
    | no_buffer a ha hr =>
      simp only [Released, call_deflateEnd, output_step, deflateEnd_calls_append,
        deflateEnd_calls, hs.1]
    | stream_error a ha hr he =>
      have := (hout s a hs ha hr).1
      simp only [Released, set_error, call_deflateEnd, deflateEnd_calls_append,
        deflateEnd_calls, this]
    | full a ha hr he hv => exact hout s a hs ha hr
    | room_left a ha hr he hv => exact hout s a hs ha hr
  · intro s hs; trivial

theorem Running.released_outer (cfg : Config) (E : Engine σ) (data : Py_buffer)
    (err0 : Option PyErr) (fuel : Nat) :
    ∀ n s, Running err0 s → Released err0 (outer_loop cfg E data fuel n s) := by
  have hinput : ∀ s : Locals σ, Running err0 s → Running err0 (input_step s) := by
    intro s ⟨h1, h2⟩
    exact ⟨by simp only [input_step, deflateEnd_calls_append, deflateEnd_calls, h1], h2⟩
  apply outer_loop_rule cfg E data fuel (Running err0) (Released err0)
  · intro s hs i hi
    have hin := Running.released_inner cfg E data err0 fuel _ (hinput s hs)
    have hp := outer_body_paths cfg E data fuel s
    rw [hi] at hp
    cases hp with
    | assert_failed s1 hl ha hv => trivial
    | more_input s1 hl hf => rw [hl] at hin; exact hin
    | finished s1 hl hf ha => rw [hl] at hin; exact hin
    | inner_left e hl hd => rw [hl] at hin; exact hin
  · intro s hs; trivial

/-- The end of a run in which nothing had failed: `finish` calls `deflateEnd`
once unless an assertion stops it, and returns an object only with the error
indicator untouched. -/
theorem Running.released_finish (cfg : Config) (E : Engine σ) (err0 : Option PyErr)
    (s : Locals σ) (hs : Running err0 s) (hret : (finish cfg E s).returned = true) :
    deflateEnd_calls (finish cfg E s).s.log = 1 ∧
    (∀ b, (finish cfg E s).ret = .object b → (finish cfg E s).s.py.err = err0) ∧
    ((finish cfg E s).ret = .null → (finish cfg E s).s.RetVal = none) := by
  obtain ⟨h1, h2⟩ := hs
  unfold finish at hret ⊢
  split
  · rename_i ha; rw [if_pos ha] at hret; simp [Result.returned] at hret
  · rename_i ha
    rw [if_neg ha] at hret
    simp only at hret ⊢
    split
    · rename_i hok
      rw [if_pos hok] at hret
      split
      · rename_i hnone
        simp only [hnone, Result.returned] at hret
        simp at hret
      · rename_i b0 hb0
        split
        · rename_i py1 hrs
          refine ⟨?_, ?_, ?_⟩
          · simp only [goto_error, call_deflateEnd, deflateEnd_calls_append,
              deflateEnd_calls, h1]
          · intro b hb; simp [goto_error] at hb
          · intro _; rfl
        · rename_i b1 py1 hrs
          refine ⟨?_, ?_, ?_⟩
          · simp only [call_deflateEnd, deflateEnd_calls_append, deflateEnd_calls, h1]
          · intro b _
            have := (resize_some _ _ _ _ _ _ hrs).2.2.1
            simp only [call_deflateEnd] at this ⊢
            rw [this, h2]
          · intro h; simp at h
    · refine ⟨?_, ?_, ?_⟩
      · simp only [goto_error, set_error, call_deflateEnd, deflateEnd_calls_append,
          deflateEnd_calls, h1]
      · intro b hb; simp [goto_error] at hb
      · intro _; rfl

/-! ## The end of the loops -/

/-- With assertions compiled in, the outer loop runs to its end only with the
input window consumed. -/
theorem outer_done_avail_in (cfg : Config) (E : Engine σ) (data : Py_buffer) (fuel n : Nat)
    (s s1 : Locals σ) (ha : cfg.asserts = true)
    (h : outer_loop cfg E data fuel n s = .done s1) : s1.zst.avail_in = 0 := by
  have := outer_loop_rule cfg E data fuel (fun _ => True)
    (fun e => ∀ s1, e = .done s1 → s1.zst.avail_in = 0) ?_ ?_ n s trivial
  · exact this s1 h
  · intro s0 _ i hi
    have hp := outer_body_paths cfg E data fuel s0
    rw [hi] at hp
    cases hp with
    | assert_failed s2 hl ha2 hv => intro s3 h3; cases h3
    | more_input s2 hl hf => trivial
    | finished s2 hl hf ha2 => intro s3 h3; cases h3; exact ha2 ha
    | inner_left e hl hd => intro s3 h3; exact absurd h3 (hd s3)
  · intro s0 _ s3 h3; cases h3

/-- The result of `myzip_compress_impl` when the loops run to their end. -/
theorem result_of_done (cfg : Config) (E : Engine σ) (py : PyState) (data : Py_buffer)
    (level : Int) (fuel : Nat) (s : Locals σ) (hinit : (E.deflateInit level).err = Z_OK)
    (hloop : outer_loop cfg E data fuel fuel (after_init E py data level) = .done s) :
    myzip_compress_impl cfg E py data level fuel = finish cfg E s := by
  unfold myzip_compress_impl
  simp only
  have h0 : (after_init E py data level).err = Z_OK := hinit
  rw [if_pos h0, hloop]

/-- The inner loop is left by a failed assertion only at line 54. -/
theorem inner_abort_line (cfg : Config) (E : Engine σ) (data : Py_buffer) (fuel : Nat)
    (s s1 : Locals σ) (line : Nat) (h : inner_loop cfg E data fuel s = .abort line s1) :
    line = 54 := by
  have := inner_loop_rule cfg E data (fun _ => True)
    (fun e => ∀ ln s1, e = .abort ln s1 → ln = 54) ?_ ?_ fuel s trivial
  · exact this line s1 h
  · intro s0 _ i hi
    have hp := inner_body_paths cfg E data s0
    rw [hi] at hp
    cases hp with
    | assert_failed ha => intro ln s2 h2; cases h2; rfl
    | no_buffer a ha hr => intro ln s2 h2; cases h2
    | stream_error a ha hr he => intro ln s2 h2; cases h2
    | full a ha hr he hv => trivial
    | room_left a ha hr he hv => intro ln s2 h2; cases h2
  · intro s0 _ ln s2 h2; cases h2

/-- The outer loop is left at line 173 only when assertions are compiled in
and the input window is not consumed. -/
theorem outer_abort_173 (cfg : Config) (E : Engine σ) (data : Py_buffer) (fuel n : Nat)
    (s s1 : Locals σ) (h : outer_loop cfg E data fuel n s = .abort 173 s1) :
    cfg.asserts = true ∧ s1.zst.avail_in ≠ 0 := by
  have := outer_loop_rule cfg E data fuel (fun _ => True)
    (fun e => ∀ s1, e = .abort 173 s1 → cfg.asserts = true ∧ s1.zst.avail_in ≠ 0)
    ?_ ?_ n s trivial
  · exact this s1 h
  · intro s0 _ i hi
    have hp := outer_body_paths cfg E data fuel s0
    rw [hi] at hp
    cases hp with
    | assert_failed s2 hl ha hv => intro s3 h3; cases h3; exact ⟨ha, hv⟩
    | more_input s2 hl hf => trivial
    | finished s2 hl hf ha => intro s3 h3; cases h3
    | inner_left e hl hd =>
      intro s3 h3
      rw [h3] at hl
      have := inner_abort_line cfg E data fuel _ s3 173 hl
      omega
  · intro s0 _ s3 h3; cases h3

/-- The result of `myzip_compress_impl` when a loop is left by a failed
assertion. -/
theorem result_of_abort (cfg : Config) (E : Engine σ) (py : PyState) (data : Py_buffer)
    (level : Int) (fuel : Nat) (s : Locals σ) (line : Nat)
    (hinit : (E.deflateInit level).err = Z_OK)
    (hloop : outer_loop cfg E data fuel fuel (after_init E py data level) = .abort line s) :
    myzip_compress_impl cfg E py data level fuel = { ret := .aborted line, s := s } := by
  unfold myzip_compress_impl
  simp only
  have h0 : (after_init E py data level).err = Z_OK := hinit
  rw [if_pos h0, hloop]

/-! ## Stream errors -/

/-- The text of the error set by `zlib_error` starts with "Error", the status
and the phase. -/
theorem zlib_error_starts (zmsg : Option String) (err : Int) (phase : String) :
    ∃ rest, zlib_error zmsg err phase
      = .ZlibError ("Error " ++ toString err ++ " " ++ phase ++ rest) := by
  unfold zlib_error
  cases zlib_error_zmsg zmsg err with
  | none => exact ⟨"", by simp only [String.append_empty]⟩
  | some m =>
    exact ⟨": " ++ String.mk (decode_first_bytes 200 m.data),
      by simp only [String.append_assoc]⟩

/-- A message whose UTF-8 encoding has at most `n` bytes passes `%.<n>s`
whole. -/
theorem decode_first_bytes_whole (l : List Char) :
    ∀ n, String.utf8Len l ≤ n → decode_first_bytes n l = l := by
  induction l with
  | nil => intro n _; rfl
  | cons c cs ih =>
    intro n h
    rw [String.utf8Len_cons] at h
    have hc : c.utf8Size ≤ n := by omega
    simp only [decode_first_bytes, hc, if_true]
    rw [ih (n - c.utf8Size) (by omega)]

/-- What `%.<n>s` gives, by bytes: the longest run of leading characters
whose encoding fits in `n` bytes, followed by U+FFFD exactly when byte `n`
falls inside the next character. -/
theorem decode_first_bytes_spec (l : List Char) :
    ∀ n, ∃ k, k ≤ l.length ∧ String.utf8Len (l.take k) ≤ n ∧
      ((decode_first_bytes n l = l.take k ∧
          (k = l.length ∨ String.utf8Len (l.take k) = n)) ∨
       (decode_first_bytes n l = l.take k ++ [Char.ofNat 0xFFFD] ∧ k < l.length ∧
          String.utf8Len (l.take k) < n ∧ n < String.utf8Len (l.take (k + 1)))) := by
  induction l with
  | nil => intro n; exact ⟨0, Nat.le_refl _, Nat.zero_le _, Or.inl ⟨rfl, Or.inl rfl⟩⟩
  | cons c cs ih =>
    intro n
    by_cases hc : c.utf8Size ≤ n
    · obtain ⟨k, hk, hb, h⟩ := ih (n - c.utf8Size)
      refine ⟨k + 1, by simp only [List.length_cons]; omega, ?_, ?_⟩
      · simp only [List.take_succ_cons, String.utf8Len_cons]; omega
      · simp only [decode_first_bytes, hc, if_true, List.take_succ_cons, String.utf8Len_cons,
          List.length_cons, List.cons_append]
        rcases h with ⟨h1, h2⟩ | ⟨h1, h2, h3, h4⟩
        · left
          refine ⟨by rw [h1], ?_⟩
          rcases h2 with h2 | h2
          · left; omega
          · right; omega
        · right
          exact ⟨by rw [h1], by omega, by omega, by omega⟩
    · by_cases h0 : n = 0
      · subst h0
        refine ⟨0, Nat.zero_le _, Nat.zero_le _, Or.inl ⟨?_, Or.inr rfl⟩⟩
        rw [decode_first_bytes, if_neg hc, if_pos rfl]
        rfl
      · refine ⟨0, Nat.zero_le _, Nat.zero_le _, Or.inr ⟨?_, ?_, ?_, ?_⟩⟩
        · simp only [decode_first_bytes, hc, if_false, h0, List.take_zero, List.nil_append]
        · simp
        · simp only [List.take_zero, String.utf8Len_nil]; omega
        · simp only [List.take_succ_cons, List.take_zero, String.utf8Len_cons,
            String.utf8Len_nil]
          omega

theorem no_stream_error_append (l1 l2 : List Event) :
    no_stream_error (l1 ++ l2) ↔ no_stream_error l1 ∧ no_stream_error l2 := by
  unfold no_stream_error
  constructor
  · intro h
    exact ⟨fun f r ai ao w e hm => h f r ai ao w e (List.mem_append_left _ hm),
      fun f r ai ao w e hm => h f r ai ao w e (List.mem_append_right _ hm)⟩
  · intro ⟨h1, h2⟩ f r ai ao w e hm
    rcases List.mem_append.mp hm with hm | hm
    · exact h1 f r ai ao w e hm
    · exact h2 f r ai ao w e hm

theorem no_stream_error_deflateEnd (e : Int) : no_stream_error [.deflateEnd e] := by
  intro f r ai ao w e0 hm
  simp at hm

theorem no_stream_error_arrange_output (a b : Int) :
    no_stream_error [.arrange_output a b] := by
  intro f r ai ao w e0 hm
  simp at hm

theorem no_stream_error_arrange_input (a : Nat) (b : Int) :
    no_stream_error [.arrange_input a b] := by
  intro f r ai ao w e0 hm
  simp at hm

theorem no_stream_error_deflateInit (a b : Int) : no_stream_error [.deflateInit a b] := by
  intro f r ai ao w e0 hm
  simp at hm

theorem Stepping.stream_inner (cfg : Config) (E : Engine σ) (data : Py_buffer) :
    ∀ fuel s, Stepping s → StreamErrorExit (inner_loop cfg E data fuel s) := by
  have hout : ∀ (s : Locals σ) a, Stepping s → Stepping (output_step s a) := by
    intro s a ⟨h1, h2⟩
    refine ⟨?_, ?_⟩
    · simp only [output_step, no_stream_error_append]
      exact ⟨h1, no_stream_error_arrange_output _ _⟩
    · simp only [output_step, deflateEnd_calls_append, deflateEnd_calls, h2]
  have hdef : ∀ s : Locals σ, Stepping s →
      (call_deflate E data s).err ≠ Z_STREAM_ERROR → Stepping (call_deflate E data s) := by
    intro s ⟨h1, h2⟩ he
    refine ⟨?_, ?_⟩
    · simp only [call_deflate, no_stream_error_append]
      refine ⟨h1, ?_⟩
      intro f r ai ao w e hm
      simp only [List.mem_singleton, Event.deflate.injEq] at hm
      rw [hm.2.2.2.2.2]
      exact he
    · simp only [call_deflate, deflateEnd_calls_append, deflateEnd_calls, h2]
  apply inner_loop_rule cfg E data Stepping StreamErrorExit
  · intro s hs i hi
    have hp := inner_body_paths cfg E data s
    rw [hi] at hp
    cases hp with
    | assert_failed ha => exact hs.1
    | no_buffer a ha hr =>
      left
      simp only [call_deflateEnd, no_stream_error_append]
      exact ⟨(hout s a hs).1, no_stream_error_deflateEnd _⟩
    | stream_error a ha hr he =>
      right
      have h1 := hout s a hs
      refine ⟨(output_step s a).log, (output_step s a).flush, (output_step s a).ibuflen,
        (output_step s a).zst.avail_in, (output_step s a).zst.avail_out,
        (E.deflate (output_step s a).zst.state data.buf (output_step s a).zst.next_in
          (output_step s a).zst.avail_in (output_step s a).zst.avail_out
          (output_step s a).flush).written,
        (E.deflateEnd (call_deflate E data (output_step s a)).zst.state).err,
        ?_, h1.1, h1.2, rfl⟩
      simp only [set_error, call_deflateEnd, call_deflate, List.append_assoc,
        List.singleton_append]
      have he2 : (E.deflate (output_step s a).zst.state data.buf (output_step s a).zst.next_in
          (output_step s a).zst.avail_in (output_step s a).zst.avail_out
          (output_step s a).flush).err = Z_STREAM_ERROR := he
      rw [he2]
    | full a ha hr he hv => exact hdef _ (hout s a hs) he
    | room_left a ha hr he hv => exact hdef _ (hout s a hs) he
  · intro s hs; exact hs.1

theorem Stepping.stream_outer (cfg : Config) (E : Engine σ) (data : Py_buffer)
    (fuel : Nat) :
    ∀ n s, Stepping s → StreamErrorExit (outer_loop cfg E data fuel n s) := by
  have hinput : ∀ s : Locals σ, Stepping s → Stepping (input_step s) := by
    intro s ⟨h1, h2⟩
    refine ⟨?_, ?_⟩
    · simp only [input_step, no_stream_error_append]
      exact ⟨h1, no_stream_error_arrange_input _ _⟩
    · simp only [input_step, deflateEnd_calls_append, deflateEnd_calls, h2]
  apply outer_loop_rule cfg E data fuel Stepping StreamErrorExit
  · intro s hs i hi
    have hin := Stepping.stream_inner cfg E data fuel _ (hinput s hs)
    have hp := outer_body_paths cfg E data fuel s
    rw [hi] at hp
    cases hp with
    | assert_failed s1 hl ha hv => rw [hl] at hin; exact hin.1
    | more_input s1 hl hf => rw [hl] at hin; exact hin
    | finished s1 hl hf ha => rw [hl] at hin; exact hin
    | inner_left e hl hd => rw [hl] at hin; exact hin
  · intro s hs; exact hs.1

/-- Every run ends without any `deflate` call that returned `Z_STREAM_ERROR`,
or it returns `NULL` right after the one that did. -/
theorem stream_error_result (cfg : Config) (E : Engine σ) (py : PyState) (data : Py_buffer)
    (level : Int) (fuel : Nat) :
    no_stream_error (myzip_compress_impl cfg E py data level fuel).s.log ∨
    ((myzip_compress_impl cfg E py data level fuel).ret = .null ∧
      (myzip_compress_impl cfg E py data level fuel).s.RetVal = none ∧
      StreamErrorEnd (myzip_compress_impl cfg E py data level fuel).s) := by
  have hinit : Stepping (after_init E py data level) :=
    ⟨by simp only [after_init]; exact no_stream_error_deflateInit _ _,
      by simp [after_init, deflateEnd_calls]⟩
  have hout := Stepping.stream_outer cfg E data fuel fuel _ hinit
  unfold myzip_compress_impl
  simp only
  split
  · split
    · rename_i s1 heq
      rw [heq] at hout
      left
      rcases finish_log cfg E s1 with h | ⟨e, h⟩
      · rw [h]; exact hout.1
      · rw [h, no_stream_error_append]; exact ⟨hout.1, no_stream_error_deflateEnd _⟩
    · rename_i s1 heq
      rw [heq] at hout
      rcases hout with h | h
      · left; exact h
      · right; exact ⟨rfl, rfl, h⟩
    · rename_i ln s1 heq; rw [heq] at hout; left; exact hout
    · rename_i s1 heq; rw [heq] at hout; left; exact hout
  · left
    split
    · exact hinit.1
    · split
      · exact hinit.1
      · simp only [goto_error, set_error, call_deflateEnd, no_stream_error_append]
        exact ⟨hinit.1, no_stream_error_deflateEnd _⟩

/-- The `deflate` call that returned `Z_STREAM_ERROR` is the last step of its
run. -/
theorem stream_error_is_last (cfg : Config) (E : Engine σ) (py : PyState) (data : Py_buffer)
    (level : Int) (fuel : Nat) (f rem : Int) (ai ao : Nat) (w : List Byte)
    (hm : Event.deflate f rem ai ao w Z_STREAM_ERROR
      ∈ (myzip_compress_impl cfg E py data level fuel).s.log) :
    (myzip_compress_impl cfg E py data level fuel).ret = .null ∧
    (myzip_compress_impl cfg E py data level fuel).s.RetVal = none ∧
    (∃ l e0, (myzip_compress_impl cfg E py data level fuel).s.log
        = l ++ [.deflate f rem ai ao w Z_STREAM_ERROR, .deflateEnd e0] ∧
      no_stream_error l ∧ deflateEnd_calls l = 0) ∧
    (myzip_compress_impl cfg E py data level fuel).s.py.err
      = some (zlib_error (myzip_compress_impl cfg E py data level fuel).s.zst.msg
          Z_STREAM_ERROR "while compressing data") := by
  rcases stream_error_result cfg E py data level fuel with h | ⟨h1, h2, h3⟩
  · exact absurd rfl (h f rem ai ao w Z_STREAM_ERROR hm)
  · refine ⟨h1, h2, ?_, ?_⟩
    · obtain ⟨l, f0, r0, ai0, ao0, w0, e0, hlog, hno, hcalls, -⟩ := h3
      rw [hlog] at hm
      rcases List.mem_append.mp hm with hm | hm
      · exact absurd rfl (hno f rem ai ao w Z_STREAM_ERROR hm)
      · simp only [List.mem_cons, Event.deflate.injEq, List.mem_singleton, reduceCtorEq,
          List.not_mem_nil, or_false] at hm
        obtain ⟨rfl, rfl, rfl, rfl, rfl, -⟩ := hm
        exact ⟨l, e0, hlog, hno, hcalls⟩
    · obtain ⟨l, f0, r0, ai0, ao0, w0, e0, -, -, -, herr⟩ := h3
      exact herr

/-! ## The place of `deflateEnd` -/

theorem Lifetime.of_inner (cfg : Config) (E : Engine σ) (data : Py_buffer) :
    ∀ fuel s, deflateEnd_calls s.log = 0 → Lifetime (inner_loop cfg E data fuel s) := by
  apply inner_loop_rule cfg E data (fun s => deflateEnd_calls s.log = 0) Lifetime
  · intro s hs i hi
    have hp := inner_body_paths cfg E data s
    rw [hi] at hp
    cases hp with
    | assert_failed ha => exact hs
    | no_buffer a ha hr =>
      refine ⟨?_, _, _, rfl⟩
      simp only [call_deflateEnd, output_step, deflateEnd_calls_append, deflateEnd_calls, hs]
    | stream_error a ha hr he =>
      refine ⟨?_, _, _, rfl⟩
      simp only [set_error, call_deflateEnd, call_deflate, output_step,
        deflateEnd_calls_append, deflateEnd_calls, hs]
    | full a ha hr he hv =>
      simp only [call_deflate, output_step, deflateEnd_calls_append, deflateEnd_calls, hs]
    | room_left a ha hr he hv =>
      simp only [Lifetime, call_deflate, output_step, deflateEnd_calls_append,
        deflateEnd_calls, hs]
  · intro s hs; exact hs

theorem Lifetime.of_outer (cfg : Config) (E : Engine σ) (data : Py_buffer) (fuel : Nat) :
    ∀ n s, deflateEnd_calls s.log = 0 → Lifetime (outer_loop cfg E data fuel n s) := by
  have hinput : ∀ s : Locals σ, deflateEnd_calls s.log = 0 →
      deflateEnd_calls (input_step s).log = 0 := by
    intro s hs
    simp only [input_step, deflateEnd_calls_append, deflateEnd_calls, hs]
  apply outer_loop_rule cfg E data fuel (fun s => deflateEnd_calls s.log = 0) Lifetime
  · intro s hs i hi
    have hin := Lifetime.of_inner cfg E data fuel _ (hinput s hs)
    have hp := outer_body_paths cfg E data fuel s
    rw [hi] at hp
    cases hp with
    | assert_failed s1 hl ha hv => rw [hl] at hin; exact hin
    | more_input s1 hl hf => rw [hl] at hin; exact hin
    | finished s1 hl hf ha => rw [hl] at hin; exact hin
    | inner_left e hl hd => rw [hl] at hin; exact hin
  · intro s hs; exact hs

/-- The `deflateEnd` calls of `finish`. -/
theorem finish_calls (cfg : Config) (E : Engine σ) (s : Locals σ)
    (hs : deflateEnd_calls s.log = 0) :
    deflateEnd_calls (finish cfg E s).s.log ≤ 1 ∧
    ((finish cfg E s).returned = true →
      (finish cfg E s).s.log = s.log ++ [.deflateEnd (E.deflateEnd s.zst.state).err]) := by
  have hc : deflateEnd_calls (call_deflateEnd E s).2.log ≤ 1 := by
    simp only [call_deflateEnd, deflateEnd_calls_append, deflateEnd_calls, hs]
    omega
  unfold finish
  split
  · refine ⟨?_, fun h => by simp [Result.returned] at h⟩
    simp only [hs]
    omega
  · simp only
    split
    · split
      · exact ⟨hc, fun h => by simp [Result.returned] at h⟩
      · split
        · exact ⟨hc, fun _ => rfl⟩
        · exact ⟨hc, fun _ => rfl⟩
    · exact ⟨hc, fun _ => rfl⟩

/-! ## Progress of the inner loop -/

theorem windows_ok_append (l1 l2 : List Event) :
    windows_ok (l1 ++ l2) ↔ windows_ok l1 ∧ windows_ok l2 := by
  unfold windows_ok
  constructor
  · intro h
    exact ⟨fun f r ai ao w e hm => h f r ai ao w e (List.mem_append_left _ hm),
      fun f r ai ao w e hm => h f r ai ao w e (List.mem_append_right _ hm)⟩
  · intro ⟨h1, h2⟩ f r ai ao w e hm
    rcases List.mem_append.mp hm with hm | hm
    · exact h1 f r ai ao w e hm
    · exact h2 f r ai ao w e hm

theorem windows_ok_deflateEnd (e : Int) : windows_ok [.deflateEnd e] := by
  intro f r ai ao w e0 hm
  simp at hm

theorem windows_ok_arrange_output (a b : Int) : windows_ok [.arrange_output a b] := by
  intro f r ai ao w e0 hm
  simp at hm

theorem windows_ok_arrange_input (a : Nat) (b : Int) : windows_ok [.arrange_input a b] := by
  intro f r ai ao w e0 hm
  simp at hm

theorem windows_ok_deflateInit (a b : Int) : windows_ok [.deflateInit a b] := by
  intro f r ai ao w e0 hm
  simp at hm

/-- After a successful `arrange_output_buffer` on a buffer of positive
capacity the output window is not empty and starts at the occupied length. -/
theorem GrowInv.window (cfg : Config) (s : Locals σ) (a : Arranged σ) (hs : GrowInv s)
    (ha : arrange_output_buffer cfg s.py s.zst s.RetVal s.obuflen = some a)
    (hr : 0 ≤ a.ret) :
    1 ≤ a.zst.avail_out ∧ 0 < a.ret ∧ a.zst.next_out = s.occupied := by
  obtain ⟨a0, ha0, hret, hz, -, -, -⟩ := arrange_output_buffer_eq _ _ _ _ _ _ ha
  obtain ⟨⟨h0, h1, h2⟩, hpos, -⟩ := hs
  rw [hret, hz]
  rw [hret] at hr
  unfold Locals.occupied
  cases arrange_paths _ _ _ _ _ _ _ ha0 with
  | alloc_failed py1 hb ha => subst ha; simp at hr
  | allocated b py1 hb h0a hsz ha =>
    subst ha
    rw [hb]
    simp only [set_window, occupied_of] at *
    have hw := window_of_range (s.obuflen - ((0 : Nat) : Int)) (by omega) (by omega)
    refine ⟨?_, hpos, trivial⟩
    unfold UINT_MAX at hw ⊢
    omega
  | exhausted b hb ho hm ha => subst ha; simp at hr
  | resize_failed b py1 hb ho hm ha => subst ha; simp at hr
  | resized b0 b1 py1 new_length hb ho hm hnl hrs ha =>
    subst ha
    rw [hb]
    simp only [set_window, occupied_of] at *
    have hn := (new_length_eq s.obuflen PY_SSIZE_T_MAX h0 (le_refl _)).1
    rw [← hnl] at hn
    have hw := window_of_range (new_length - (s.zst.next_out : Int)) (by omega) (by omega)
    refine ⟨?_, by omega, trivial⟩
    unfold UINT_MAX at hw ⊢
    omega
  | kept b hb ho ha =>
    subst ha
    rw [hb] at h2 ⊢
    simp only [set_window, occupied_of] at *
    have hw := window_of_range (s.obuflen - (s.zst.next_out : Int)) (by omega) (by omega)
    refine ⟨?_, hpos, trivial⟩
    unfold UINT_MAX at hw ⊢
    omega

/-- A step of an engine that stores at most `avail_out` bytes keeps `GrowInv`;
if it fills the output window, the occupied length grows, and it stays at
most `PY_SSIZE_T_MAX`. -/
theorem GrowInv.after_deflate (cfg : Config) (E : Engine σ) (data : Py_buffer)
    (hE : E.WritesWithin) (s : Locals σ) (a : Arranged σ) (hs : GrowInv s)
    (ha : arrange_output_buffer cfg s.py s.zst s.RetVal s.obuflen = some a)
    (hr : 0 ≤ a.ret) :
    GrowInv (call_deflate E data (output_step s a)) ∧
    ((call_deflate E data (output_step s a)).zst.avail_out = 0 →
      s.occupied < (call_deflate E data (output_step s a)).occupied) ∧
    ((call_deflate E data (output_step s a)).occupied : Int) ≤ PY_SSIZE_T_MAX := by
  obtain ⟨hav, hpos, hnext⟩ := GrowInv.window cfg s a hs ha hr
  have hwin := BufInv.arranged cfg s a hs.1 ha hr
  obtain ⟨hbuf, hsome⟩ := WindowInv.deflated E data hE _ hwin hr
  have hw := hE (output_step s a).zst.state data.buf (output_step s a).zst.next_in
    (output_step s a).zst.avail_in (output_step s a).zst.avail_out (output_step s a).flush
  have hocc : (call_deflate E data (output_step s a)).occupied
      = (call_deflate E data (output_step s a)).zst.next_out := by
    unfold Locals.occupied occupied_of
    split
    · rename_i h; exact absurd h hsome
    · rfl
  refine ⟨⟨hbuf, ?_, ?_⟩, ?_, ?_⟩
  · simp only [call_deflate, output_step]; exact hpos
  · simp only [call_deflate, output_step, windows_ok_append]
    refine ⟨⟨hs.2.2, windows_ok_arrange_output _ _⟩, ?_⟩
    intro f r ai ao w e hm
    simp only [List.mem_singleton, Event.deflate.injEq] at hm
    rw [hm.2.2.2.1]
    exact hav
  · intro hzero
    rw [hocc]
    simp only [call_deflate, output_step] at hzero hw ⊢
    omega
  · rw [hocc]
    obtain ⟨-, h1, h2⟩ := hbuf
    split at h2
    · rename_i h; exact absurd h hsome
    · omega

/-- The windows of the log when the inner loop is left, and `GrowInv` when it
runs to its end. -/
theorem GrowInv.inner_exit (cfg : Config) (E : Engine σ) (data : Py_buffer)
    (hE : E.WritesWithin) :
    ∀ fuel s, GrowInv s →
      windows_ok (inner_loop cfg E data fuel s).state.log ∧
      ∀ s1, inner_loop cfg E data fuel s = .done s1 → GrowInv s1 := by
  apply inner_loop_rule cfg E data GrowInv
    (fun e => windows_ok e.state.log ∧ ∀ s1, e = .done s1 → GrowInv s1)
  · intro s hs i hi
    have hp := inner_body_paths cfg E data s
    rw [hi] at hp
    cases hp with
    | assert_failed ha => exact ⟨hs.2.2, fun s1 h => by cases h⟩
    | no_buffer a ha hr =>
      refine ⟨?_, fun s1 h => by cases h⟩
      simp only [Exit.state, call_deflateEnd, output_step, windows_ok_append]
      exact ⟨⟨hs.2.2, windows_ok_arrange_output _ _⟩, windows_ok_deflateEnd _⟩
    | stream_error a ha hr he =>
      refine ⟨?_, fun s1 h => by cases h⟩
      have := (GrowInv.after_deflate cfg E data hE s a hs ha hr).1.2.2
      simp only [Exit.state, set_error, call_deflateEnd, windows_ok_append]
      exact ⟨this, windows_ok_deflateEnd _⟩
    | full a ha hr he hv => exact (GrowInv.after_deflate cfg E data hE s a hs ha hr).1
    | room_left a ha hr he hv =>
      have := (GrowInv.after_deflate cfg E data hE s a hs ha hr).1
      exact ⟨this.2.2, fun s1 h => by cases h; exact this⟩
  · intro s hs; exact ⟨hs.2.2, fun s1 h => by cases h⟩

theorem GrowInv.keeps_input (s : Locals σ) (hs : GrowInv s) : GrowInv (input_step s) := by
  obtain ⟨h1, h2, h3⟩ := hs
  refine ⟨?_, h2, ?_⟩
  · unfold BufInv at *
    simp only [input_step, written_bytes_append, written_bytes, List.append_nil]
    exact h1
  · simp only [input_step, windows_ok_append]
    exact ⟨h3, windows_ok_arrange_input _ _⟩

theorem GrowInv.outer_exit (cfg : Config) (E : Engine σ) (data : Py_buffer)
    (hE : E.WritesWithin) (fuel : Nat) :
    ∀ n s, GrowInv s → windows_ok (outer_loop cfg E data fuel n s).state.log := by
  apply outer_loop_rule cfg E data fuel GrowInv (fun e => windows_ok e.state.log)
  · intro s hs i hi
    have hin := GrowInv.inner_exit cfg E data hE fuel _ (GrowInv.keeps_input s hs)
    have hp := outer_body_paths cfg E data fuel s
    rw [hi] at hp
    cases hp with
    | assert_failed s1 hl ha hv => rw [hl] at hin; exact hin.1
    | more_input s1 hl hf => exact hin.2 s1 hl
    | finished s1 hl hf ha => rw [hl] at hin; exact hin.1
    | inner_left e hl hd => rw [hl] at hin; exact hin.1
  · intro s hs; exact hs.2.2

theorem GrowInv.at_init (E : Engine σ) (py : PyState) (data : Py_buffer) (level : Int) :
    GrowInv (after_init E py data level) := by
  refine ⟨⟨by simp only [after_init]; decide, by simp only [after_init]; decide, ?_⟩,
    by simp only [after_init]; decide, ?_⟩
  · simp [after_init, written_bytes]
  · simp only [after_init]; exact windows_ok_deflateInit _ _

/-! ## Termination -/

/-- With an engine that stores at most `avail_out` bytes, the inner loop ends
within `PY_SSIZE_T_MAX - occupied + 1` passes. -/
theorem inner_loop_terminates (cfg : Config) (E : Engine σ) (data : Py_buffer)
    (hE : E.WritesWithin) :
    ∀ fuel s, GrowInv s → PY_SSIZE_T_MAX.toNat - s.occupied < fuel →
      ∀ s1, inner_loop cfg E data fuel s ≠ .fuel s1 := by
  intro fuel
  induction fuel with
  | zero => intro s _ h; omega
  | succ n ih =>
    intro s hs hm s1
    have hp := inner_body_paths cfg E data s
    unfold inner_loop
    cases hi : inner_body cfg E data s with
    | again s2 =>
      rw [hi] at hp
      simp only
      cases hp with
      | full a ha hr he hv =>
        obtain ⟨hg, hlt, hle⟩ := GrowInv.after_deflate cfg E data hE s a hs ha hr
        have hlt := hlt hv
        refine ih _ hg ?_ s1
        have : PY_SSIZE_T_MAX.toNat = 9223372036854775807 := by decide
        unfold PY_SSIZE_T_MAX at hle
        omega
    | leave e =>
      rw [hi] at hp
      simp only
      cases hp with
      | assert_failed ha => intro h; cases h
      | no_buffer a ha hr => intro h; cases h
      | stream_error a ha hr he => intro h; cases h
      | room_left a ha hr he hv => intro h; cases h

/-- With an engine that stores at most `avail_out` bytes and enough passes
allowed to the inner loop, the outer loop ends within
`ibuflen / UINT_MAX + 1` passes. -/
theorem outer_loop_terminates (cfg : Config) (E : Engine σ) (data : Py_buffer)
    (hE : E.WritesWithin) (fuel : Nat) (hfuel : PY_SSIZE_T_MAX.toNat < fuel) :
    ∀ n s, GrowInv s → 0 ≤ s.ibuflen → s.ibuflen ≤ PY_SSIZE_T_MAX →
      s.ibuflen.toNat / UINT_MAX < n →
      ∀ s1, outer_loop cfg E data fuel n s ≠ .fuel s1 := by
  intro n
  induction n with
  | zero => intro s _ _ _ h; exact absurd h (Nat.not_lt_zero _)
  | succ n ih =>
    intro s hs h0 h1 hm s1
    have hp := outer_body_paths cfg E data fuel s
    have hgin := GrowInv.keeps_input s hs
    have hinner := GrowInv.inner_exit cfg E data hE fuel _ hgin
    have hkeep := inner_loop_keeps cfg E data fuel (input_step s)
    have hw := arrange_input_buffer_eq s.ibuflen h0 h1
    unfold outer_loop
    cases hi : outer_body cfg E data fuel s with
    | again s2 =>
      rw [hi] at hp
      simp only
      cases hp with
      | more_input s3 hl hf =>
        rw [hl] at hkeep
        simp only [Exit.state, input_step] at hkeep
        have hne : (arrange_input_buffer s.ibuflen).2 ≠ 0 := by
          intro hz
          rw [hkeep.2, if_pos hz] at hf
          exact hf rfl
        refine ih _ (hinner.2 _ hl) ?_ ?_ ?_ s1
        · rw [hkeep.1]; unfold UINT_MAX at hw; omega
        · rw [hkeep.1]; unfold UINT_MAX at hw; omega
        · rw [hkeep.1]
          unfold UINT_MAX at hw hm ⊢
          omega
    | leave e =>
      rw [hi] at hp
      simp only
      cases hp with
      | assert_failed s2 hl ha hv => intro h; cases h
      | finished s2 hl hf ha => intro h; cases h
      | inner_left e2 hl hd =>
        rw [← hl]
        refine inner_loop_terminates cfg E data hE fuel _ hgin ?_ s1
        omega

/-- The statements after the loops do not use the iteration budget. -/
theorem finish_not_out_of_fuel (cfg : Config) (E : Engine σ) (s : Locals σ) :
    (finish cfg E s).ret ≠ .out_of_fuel := by
  unfold finish
  split
  · simp
  · simp only
    split
    · split
      · simp
      · split <;> simp [goto_error]
    · simp [goto_error]

/-- With an engine that stores at most `avail_out` bytes, a run with more than
`PY_SSIZE_T_MAX` passes allowed to each loop does not exhaust them. -/
theorem result_terminates (cfg : Config) (E : Engine σ) (py : PyState) (data : Py_buffer)
    (level : Int) (fuel : Nat) (hE : E.WritesWithin) (h0 : 0 ≤ data.len)
    (h1 : data.len ≤ PY_SSIZE_T_MAX) (hfuel : PY_SSIZE_T_MAX.toNat < fuel) :
    (myzip_compress_impl cfg E py data level fuel).ret ≠ .out_of_fuel := by
  have hout := outer_loop_terminates cfg E data hE fuel hfuel fuel _
    (GrowInv.at_init E py data level) h0 h1 (by
      simp only [after_init]
      have : PY_SSIZE_T_MAX.toNat = 9223372036854775807 := by decide
      unfold PY_SSIZE_T_MAX at h1
      unfold UINT_MAX
      omega)
  unfold myzip_compress_impl
  simp only
  split
  · split
    · exact finish_not_out_of_fuel cfg E _
    · simp [goto_error]
    · simp
    · rename_i s1 heq
      exact absurd heq (hout s1)
  · split
    · simp [goto_error]
    · split <;> simp [goto_error]

/-- The inner loop sets no input window. -/
theorem inner_loop_input_windows (cfg : Config) (E : Engine σ) (data : Py_buffer)
    (fuel : Nat) (s : Locals σ) :
    input_windows (inner_loop cfg E data fuel s).state.log = input_windows s.log := by
  refine inner_loop_rule cfg E data
    (fun s1 => input_windows s1.log = input_windows s.log)
    (fun e => input_windows e.state.log = input_windows s.log) ?_ ?_ fuel s rfl
  · intro s1 hs i hi
    have hp := inner_body_paths cfg E data s1
    rw [hi] at hp
    cases hp with
    | assert_failed ha => exact hs
    | no_buffer a ha hr =>
      simp only [Exit.state, call_deflateEnd, output_step, input_windows_append, input_windows,
        List.append_nil]
      exact hs
    | stream_error a ha hr he =>
      simp only [Exit.state, set_error, call_deflateEnd, call_deflate, output_step,
        input_windows_append, input_windows, List.append_nil]
      exact hs
    | full a ha hr he hv =>
      simp only [call_deflate, output_step, input_windows_append, input_windows,
        List.append_nil]
      exact hs
    | room_left a ha hr he hv =>
      simp only [Exit.state, call_deflate, output_step, input_windows_append, input_windows,
        List.append_nil]
      exact hs
  · intro s1 hs; exact hs

/-- The number of passes through the outer loop is at most `outer_bound`. -/
theorem HeadInv.passes (cfg : Config) (E : Engine σ) (data : Py_buffer) (n : Int)
    (fuel : Nat) :
    ∀ k s, HeadInv n s →
      (input_windows (outer_loop cfg E data fuel k s).state.log).length ≤ outer_bound n := by
  have hhead : ∀ s : Locals σ, HeadInv n s →
      (input_windows s.log).length ≤ outer_bound n ∧
      (input_windows (input_step s).log).length ≤ outer_bound n := by
    intro s ⟨h1, h2, h3, h4⟩
    have hlen : (input_windows (input_step s).log).length = (input_windows s.log).length + 1 := by
      simp [input_step, input_windows_append, input_windows]
    rw [hlen]
    unfold outer_bound
    unfold UINT_MAX at *
    rcases h4 with h4 | h4
    · rw [h4]; omega
    · have : (input_windows s.log).length + 1
          ≤ (n.toNat + 4294967295 - 1) / 4294967295 := by
        rw [Nat.le_div_iff_mul_le (by decide)]
        omega
      omega
  apply outer_loop_rule cfg E data fuel (HeadInv n)
    (fun e => (input_windows e.state.log).length ≤ outer_bound n)
  · intro s hs i hi
    have hin := inner_loop_input_windows cfg E data fuel (input_step s)
    have hkeep := inner_loop_keeps cfg E data fuel (input_step s)
    have hb := (hhead s hs).2
    have hp := outer_body_paths cfg E data fuel s
    rw [hi] at hp
    cases hp with
    | assert_failed s1 hl ha hv =>
      rw [hl] at hin
      simp only [Exit.state] at hin ⊢
      rw [hin]; exact hb
    | more_input s1 hl hf =>
      rw [hl] at hin hkeep
      simp only [Exit.state] at hin hkeep
      obtain ⟨h1, h2, h3, h4⟩ := hs
      have hw := arrange_input_buffer_eq s.ibuflen h2 h3
      have hne : (arrange_input_buffer s.ibuflen).2 ≠ 0 := by
        intro hz
        have := hkeep.2
        simp only [input_step] at this
        rw [this, if_pos hz] at hf
        exact hf rfl
      have hib : s1.ibuflen = (arrange_input_buffer s.ibuflen).2 := hkeep.1
      have hlen : (input_windows s1.log).length = (input_windows s.log).length + 1 := by
        rw [hin]; simp [input_step, input_windows_append, input_windows]
      refine ⟨?_, ?_, ?_, ?_⟩
      · rw [hlen, hib]
        unfold UINT_MAX at *
        push_cast
        omega
      · rw [hib]; unfold UINT_MAX at *; omega
      · rw [hib]; unfold UINT_MAX at *; omega
      · right; rw [hib]; unfold UINT_MAX at *; omega
    | finished s1 hl hf ha =>
      rw [hl] at hin
      simp only [Exit.state] at hin ⊢
      rw [hin]; exact hb
    | inner_left e hl hd =>
      rw [hl] at hin
      show (input_windows e.state.log).length ≤ outer_bound n
      rw [hin]; exact hb
  · intro s hs; exact (hhead s hs).1

/-- At the occupied length `PY_SSIZE_T_MAX` the buffer cannot grow:
`arrange_output_buffer` returns -2. -/
theorem GrowInv.exhausted (cfg : Config) (s : Locals σ) (hs : GrowInv s)
    (hocc : (s.occupied : Int) = PY_SSIZE_T_MAX) :
    ∃ a, arrange_output_buffer cfg s.py s.zst s.RetVal s.obuflen = some a ∧ a.ret = -2 := by
  obtain ⟨⟨h0, h1, h2⟩, -, -⟩ := hs
  unfold Locals.occupied occupied_of at hocc
  cases hR : s.RetVal with
  | none =>
    rw [hR] at hocc
    simp only at hocc
    exact absurd hocc (by decide)
  | some b =>
    rw [hR] at hocc h2
    simp only at hocc h2
    have hlen : s.obuflen = (s.zst.next_out : Int) := by omega
    have hmax : s.obuflen = PY_SSIZE_T_MAX := by omega
    have hna : ¬ (cfg.asserts = true ∧ ¬ s.obuflen ≤ PY_SSIZE_T_MAX) := fun h => h.2 h1
    refine ⟨{ ret := -2, zst := s.zst, buffer := some b,
              py := { s.py with err := some (.MemoryError none) } }, ?_, rfl⟩
    unfold arrange_output_buffer arrange_output_buffer_with_maximum
    simp only
    rw [if_pos hlen, if_neg hna, if_pos hmax]
    simp

/-! # The claims -/

/-! ## C1: the result is what the engine wrote -/

/-- C1: for every input, every allocator behaviour and every engine whose
`deflate` stores at most `avail_out` bytes, whenever `myzip_compress_impl`
returns an object, its content is the concatenation, in call order, of the
bytes stored by the `deflate` calls of the run and its size is their
number. -/
theorem result_is_written_bytes (cfg : Config) (E : Engine σ) (py : PyState)
    (data : Py_buffer) (level : Int) (fuel : Nat) (b : PyBytes)
    (hE : E.WritesWithin)
    (h : (myzip_compress_impl cfg E py data level fuel).ret = .object b) :
    b.toList = written_bytes (myzip_compress_impl cfg E py data level fuel).s.log ∧
    b.size = (written_bytes (myzip_compress_impl cfg E py data level fuel).s.log).length := by
  obtain ⟨-, s1, hloop, hfin⟩ := result_object cfg E py data level fuel b h
  rw [hfin] at h ⊢
  have hinit : BufInv (after_init E py data level) := by
    refine ⟨by simp only [after_init]; decide, by simp only [after_init]; decide, ?_⟩
    simp [after_init, written_bytes]
  obtain ⟨⟨h0, h1, hbuf⟩, -⟩ := BufInv.outer_done cfg E data hE fuel fuel _ hinit s1 hloop
  obtain ⟨-, hlog, b0, py1, hb0, hrs, -⟩ := finish_object cfg E s1 b h
  rw [hb0] at hbuf
  obtain ⟨-, hsz, -, hdata⟩ := resize_some _ _ _ _ _ _ hrs
  have hsz : b.size = s1.zst.next_out := by omega
  have hlist : b.toList = written_bytes (finish cfg E s1).s.log := by
    rw [hlog, written_bytes_append]
    simp only [written_bytes, List.append_nil]
    rw [← hbuf.2.2]
    unfold PyBytes.toList
    rw [hsz]
    apply List.map_congr_left
    intro i hi
    have : i < s1.zst.next_out := List.mem_range.mp hi
    exact hdata i (by omega) (by omega)
  refine ⟨hlist, ?_⟩
  rw [← hlist]
  simp [PyBytes.toList]

/-- C1 on the run of `copy_engine` over 5 bytes: the 5 bytes are returned. -/
theorem result_is_written_bytes_witness :
    copy_engine.WritesWithin ∧
    ∃ b, (myzip_compress_impl (plain_cfg true) copy_engine fresh_py (ramp 5) 6 2).ret
        = .object b ∧
      b.toList = [0, 1, 2, 3, 4] ∧
      b.toList = written_bytes
        (myzip_compress_impl (plain_cfg true) copy_engine fresh_py (ramp 5) 6 2).s.log :=
  ⟨copy_engine_writes_within, _, rfl, by decide,
    (result_is_written_bytes (plain_cfg true) copy_engine fresh_py (ramp 5) 6 2 _
      copy_engine_writes_within rfl).1⟩

/-! ## C2: the input windows add up to the input length -/

/-- C2: for an input of `0 ≤ n ≤ PY_SSIZE_T_MAX` bytes, at the end of every
run of `myzip_compress_impl` the windows set so far by `arrange_input_buffer`
and the remaining count add up to `n`, every remaining count is non-negative
and every window at most `UINT_MAX`; when the outer loop runs to its end the
remaining count is 0 and the windows add up to `n`; and repeating
`arrange_input_buffer` brings the remaining count to 0 within
`n / UINT_MAX + 1` calls. -/
theorem input_windows_sum {σ : Type} (cfg : Config) (E : Engine σ) (py : PyState)
    (data : Py_buffer) (level : Int) (fuel : Nat)
    (h0 : 0 ≤ data.len) (h1 : data.len ≤ PY_SSIZE_T_MAX) :
    (((input_windows (myzip_compress_impl cfg E py data level fuel).s.log).sum : Int)
        + (myzip_compress_impl cfg E py data level fuel).s.ibuflen = data.len ∧
      0 ≤ (myzip_compress_impl cfg E py data level fuel).s.ibuflen ∧
      ∀ a rem, Event.arrange_input a rem ∈ (myzip_compress_impl cfg E py data level fuel).s.log →
        a ≤ UINT_MAX ∧ 0 ≤ rem) ∧
    (∀ s, outer_loop cfg E data fuel fuel (after_init E py data level) = .done s →
      s.ibuflen = 0 ∧ ((input_windows s.log).sum : Int) = data.len) ∧
    (∃ k, k ≤ data.len.toNat / UINT_MAX + 1 ∧
      (fun x => (arrange_input_buffer x).2)^[k] data.len = 0) := by
  have hP := InputInv_preserved cfg E data data.len
  have hinit : InputInv data.len (after_init E py data level) := by
    refine ⟨by simp [after_init, input_windows], h0, h1, ?_⟩
    intro a rem hm
    simp [after_init] at hm
  have hres := hP.at_result py level fuel hinit
  refine ⟨⟨hres.1, hres.2.1, hres.2.2.2⟩, ?_, remains_reaches_zero _ data.len rfl h0 h1⟩
  intro s hs
  have hz := (outer_done_ibuflen cfg E data fuel fuel _ s hs).1
  have hinv := hP.keeps_outer fuel fuel _ hinit
  rw [hs] at hinv
  have hsum := hinv.1
  simp only [Exit.state] at hsum
  exact ⟨hz, by omega⟩

/-- C2 at `n = 2^32 + 4` with `null_engine`: two windows, `UINT_MAX` and 5. -/
theorem input_windows_sum_witness :
    (0 : Int) ≤ (ramp 4294967300).len ∧ (ramp 4294967300).len ≤ PY_SSIZE_T_MAX ∧
    input_windows (myzip_compress_impl (plain_cfg true) null_engine fresh_py
      (ramp 4294967300) 6 3).s.log = [4294967295, 5] ∧
    (myzip_compress_impl (plain_cfg true) null_engine fresh_py
      (ramp 4294967300) 6 3).s.ibuflen = 0 ∧
    ((input_windows (myzip_compress_impl (plain_cfg true) null_engine fresh_py
      (ramp 4294967300) 6 3).s.log).sum : Int)
      + (myzip_compress_impl (plain_cfg true) null_engine fresh_py
      (ramp 4294967300) 6 3).s.ibuflen = (ramp 4294967300).len :=
  ⟨by decide, by decide, by decide, by decide,
    (input_windows_sum (plain_cfg true) null_engine fresh_py (ramp 4294967300) 6 3
      (by decide) (by decide)).1.1⟩

/-! ## C3: the input window -/

/-- C3: for every remaining count `0 ≤ remains` (a `Py_ssize_t`, hence at
most `PY_SSIZE_T_MAX`), `arrange_input_buffer` sets `avail_in` to
`min remains UINT_MAX` and the new remaining count to `remains - avail_in`;
the window never exceeds `UINT_MAX`. -/
theorem arrange_input_buffer_window (remains : Int) (h0 : 0 ≤ remains)
    (h1 : remains ≤ PY_SSIZE_T_MAX) :
    ((arrange_input_buffer remains).1 : Int) = min remains (UINT_MAX : Int) ∧
    (arrange_input_buffer remains).2 = remains - (arrange_input_buffer remains).1 ∧
    (arrange_input_buffer remains).1 ≤ UINT_MAX := by
  have hw := arrange_input_buffer_eq remains h0 h1
  exact ⟨hw.1, hw.2, by have := hw.1; omega⟩

/-- C3 at `remains = 2^32 + 4`: the window is `UINT_MAX` and 5 bytes remain. -/
theorem arrange_input_buffer_window_witness :
    arrange_input_buffer 4294967300 = (4294967295, 5) ∧
    ((arrange_input_buffer 4294967300).1 : Int) = min 4294967300 (UINT_MAX : Int) ∧
    (arrange_input_buffer 4294967300).2 = 4294967300 - (arrange_input_buffer 4294967300).1 ∧
    (arrange_input_buffer 4294967300).1 ≤ UINT_MAX :=
  ⟨by decide, arrange_input_buffer_window 4294967300 (by decide) (by decide)⟩

/-! ## C4: the growth rule -/

/-- C4: a call of `arrange_output_buffer_with_maximum` on an existing buffer
with `occupied ≤ length` and `max_length ≤ PY_SSIZE_T_MAX` whose resize does
not fail.  If the buffer is full and `length < max_length`, the returned
length is `min (2 * length) max_length`, it is what the shift-based test
selects, the doubling does not overflow `Py_ssize_t`, and the buffer has the
returned size; if the buffer is not full, the length is returned as it was
and the buffer and the allocator are left alone. -/
theorem growth_rule (cfg : Config) (py : PyState) (zst : z_stream σ)
    (b : PyBytes) (length max_length : Int) (a : Arranged σ)
    (hocc : (zst.next_out : Int) ≤ length) (hmax : max_length ≤ PY_SSIZE_T_MAX)
    (h : arrange_output_buffer_with_maximum cfg py zst (some b) length max_length = some a)
    (hres : a.buffer ≠ none) :
    ((zst.next_out : Int) = length → length < max_length →
      a.ret = min (2 * length) max_length ∧
      a.ret = (if length ≤ max_length >>> (1 : Nat) then length * 2 else max_length) ∧
      (length ≤ max_length >>> (1 : Nat) → to_ssize_t (length * 2) = length * 2) ∧
      ∃ b1, a.buffer = some b1 ∧ (b1.size : Int) = a.ret) ∧
    ((zst.next_out : Int) ≠ length →
      a.ret = length ∧ a.buffer = some b ∧ a.py = py) := by
  have h0 : 0 ≤ length := by omega
  have hn := new_length_eq length max_length h0 hmax
  constructor
  · intro ho hlt
    cases arrange_paths _ _ _ _ _ _ _ h with
    | alloc_failed py1 hb => simp at hb
    | allocated b py1 hb => simp at hb
    | exhausted b hb ho hm => omega
    | resize_failed b py1 hb ho hm ha => subst ha; simp at hres
    | resized b0 b1 py1 new_length hb ho hm hnl hr ha =>
      subst ha
      have hs := (resize_some _ _ _ _ _ _ hr).2.1
      refine ⟨?_, ?_, hn.2, b1, rfl, ?_⟩
      · simp only [set_window]; rw [hnl]; exact hn.1
      · simp only [set_window]; rw [hnl]
        split
        · rename_i hh; exact hn.2 hh
        · rfl
      · simpa [set_window] using hs
    | kept b hb ho2 ha => exact absurd ho.symm ho2
  · intro ho
    cases arrange_paths _ _ _ _ _ _ _ h with
    | alloc_failed py1 hb => simp at hb
    | allocated b py1 hb => simp at hb
    | exhausted b hb ho2 hm => exact absurd ho2.symm ho
    | resize_failed b py1 hb ho2 hm ha => exact absurd ho2.symm ho
    | resized b0 b1 py1 new_length hb ho2 => exact absurd ho2.symm ho
    | kept b0 hb ho2 ha =>
      simp only [Option.some.injEq] at hb
      subst ha hb
      simp [set_window]

/-- C4 on a full buffer of 4 bytes with the odd maximum 7: the new length is
7, not 8. -/
theorem growth_rule_witness :
    ((stream_at 4).next_out : Int) ≤ 4 ∧ (7 : Int) ≤ PY_SSIZE_T_MAX ∧
    (∃ a, arrange_output_buffer_with_maximum (plain_cfg true) fresh_py (stream_at 4)
        (some (zeros 4)) 4 7 = some a ∧ a.ret = 7 ∧ a.ret = min (2 * 4) 7) :=
  ⟨by decide, by decide, _, rfl, rfl,
    ((growth_rule (plain_cfg true) fresh_py (stream_at 4) (zeros 4) 4 7 _ (by decide)
      (by decide) rfl (by simp [set_window])).1 rfl (by decide)).1⟩

/-! ## C5: the capacity-exhausted code -/

/-- C5: for a length `0 ≤ length`, `arrange_output_buffer_with_maximum`
returns -2 exactly when the buffer exists, `occupied = length` and
`length = max_length`, and then the buffer, the stream and the interpreter
state are unchanged; the wrapper `arrange_output_buffer` returns -2 exactly
when the buffer is full at `PY_SSIZE_T_MAX` and then sets `MemoryError`; and
the driver leaves by `goto error` with that exception set. -/
theorem capacity_exhausted (cfg : Config) (py : PyState) (zst : z_stream σ)
    (buffer : Option PyBytes) (length max_length : Int) (a : Arranged σ)
    (h0 : 0 ≤ length)
    (h : arrange_output_buffer_with_maximum cfg py zst buffer length max_length = some a) :
    (a.ret = -2 ↔ buffer ≠ none ∧ (zst.next_out : Int) = length ∧ length = max_length) ∧
    (a.ret = -2 → a.buffer = buffer ∧ a.zst = zst ∧ a.py = py) ∧
    (∀ a1, arrange_output_buffer cfg py zst buffer length = some a1 →
      (a1.ret = -2 ↔
        buffer ≠ none ∧ (zst.next_out : Int) = length ∧ length = PY_SSIZE_T_MAX) ∧
      (a1.ret = -2 →
        a1.py.err = some (.MemoryError none) ∧ a1.buffer = buffer ∧ a1.zst = zst)) ∧
    (∀ (E : Engine σ) (data : Py_buffer) (s : Locals σ) (a1 : Arranged σ),
      arrange_output_buffer cfg s.py s.zst s.RetVal s.obuflen = some a1 → a1.ret = -2 →
      ∃ s1, inner_body cfg E data s = .leave (.error s1) ∧
        s1.py.err = some (.MemoryError none)) := by
  have hx := exhausted_iff cfg py zst buffer length max_length a h0 h
  refine ⟨hx.1, hx.2, ?_, ?_⟩
  · intro a1 h1
    obtain ⟨a0, ha0, hr, hz, hb, he, _⟩ := arrange_output_buffer_eq _ _ _ _ _ _ h1
    have hy := exhausted_iff cfg py zst buffer length PY_SSIZE_T_MAX a0 h0 ha0
    rw [hr, hz, hb]
    exact ⟨hy.1, fun h2 => ⟨he h2, (hy.2 h2).1, (hy.2 h2).2.1⟩⟩
  · intro E data s a1 h1 h2
    obtain ⟨a0, _, hr, _, _, he, _⟩ := arrange_output_buffer_eq _ _ _ _ _ _ h1
    have hp := inner_body_paths cfg E data s
    refine ⟨(call_deflateEnd E (output_step s a1)).2, ?_, ?_⟩
    · unfold inner_body
      rw [h1]
      simp only
      rw [if_pos (by simp [output_step, h2])]
    · exact he (by omega)

/-- C5 on a full buffer of 4 bytes with maximum 4: the code is -2 and nothing
is changed. -/
theorem capacity_exhausted_witness :
    (0 : Int) ≤ 4 ∧
    (∃ a, arrange_output_buffer_with_maximum (plain_cfg true) fresh_py (stream_at 4)
        (some (zeros 4)) 4 4 = some a ∧ a.ret = -2 ∧ a.zst = stream_at 4 ∧ a.py = fresh_py) :=
  ⟨by decide, _, rfl, rfl,
    (((capacity_exhausted (plain_cfg true) fresh_py (stream_at 4) (some (zeros 4)) 4 4 _
      (by decide) rfl).2.1) rfl).2⟩

/-! ## C6: the output window -/

/-- C6: on a successful return `0 ≤ r` of `arrange_output_buffer_with_maximum`
called with `occupied ≤ length ≤ max_length ≤ PY_SSIZE_T_MAX`, where
`occupied` is 0 when the buffer is absent and the offset of `next_out`
otherwise: `next_out` stands at offset `occupied` of the buffer,
`avail_out = min (r - occupied) UINT_MAX`, and a buffer that was absent has
been allocated with `length` bytes. -/
theorem output_window (cfg : Config) (py : PyState) (zst : z_stream σ)
    (buffer : Option PyBytes) (length max_length : Int) (a : Arranged σ)
    (hocc : (occupied_of zst buffer : Int) ≤ length) (hlen : length ≤ max_length)
    (hmax : max_length ≤ PY_SSIZE_T_MAX)
    (h : arrange_output_buffer_with_maximum cfg py zst buffer length max_length = some a)
    (hret : 0 ≤ a.ret) :
    a.zst.next_out = occupied_of zst buffer ∧
    (a.zst.avail_out : Int) = min (a.ret - occupied_of zst buffer) (UINT_MAX : Int) ∧
    (buffer = none → occupied_of zst buffer = 0 ∧
      ∃ b, a.buffer = some b ∧ (b.size : Int) = length) ∧
    (∀ b, buffer = some b → occupied_of zst buffer = zst.next_out) := by
  have hw := window_rule cfg py zst buffer length max_length a hocc hlen hmax h hret
  refine ⟨hw.1, hw.2.1, ?_, ?_⟩
  · intro hb
    subst hb
    refine ⟨rfl, ?_⟩
    cases arrange_paths _ _ _ _ _ _ _ h with
    | alloc_failed py1 hb ha => subst ha; simp at hret
    | allocated b py1 hb h0 hs ha => subst ha; exact ⟨b, rfl, hs⟩
    | exhausted b hb => simp at hb
    | resize_failed b py1 hb => simp at hb
    | resized b0 b1 py1 new_length hb => simp at hb
    | kept b hb => simp at hb
  · intro b hb
    subst hb
    rfl

/-- C6 on a buffer of 8 bytes holding 3: the window starts at offset 3 and
has 5 bytes. -/
theorem output_window_witness :
    (occupied_of (stream_at 3) (some (zeros 8)) : Int) ≤ 8 ∧ (8 : Int) ≤ 100 ∧
    (100 : Int) ≤ PY_SSIZE_T_MAX ∧
    (∃ a, arrange_output_buffer_with_maximum (plain_cfg true) fresh_py (stream_at 3)
        (some (zeros 8)) 8 100 = some a ∧ 0 ≤ a.ret ∧ a.zst.next_out = 3 ∧
        a.zst.avail_out = 5 ∧
        (a.zst.avail_out : Int)
          = min (a.ret - occupied_of (stream_at 3) (some (zeros 8))) (UINT_MAX : Int)) :=
  ⟨by decide, by decide, by decide, _, rfl, by decide, rfl, by decide,
    (output_window (plain_cfg true) fresh_py (stream_at 3) (some (zeros 8)) 8 100 _
      (by decide) (by decide) (by decide) rfl (by decide)).2.1⟩

/-! ## C7: the capacity invariant -/

/-- C7: a call of `arrange_output_buffer_with_maximum` with
`occupied ≤ length ≤ max_length ≤ PY_SSIZE_T_MAX` that returns `0 ≤ r` has
`length ≤ r ≤ max_length` and `occupied ≤ r`.  In every run of
`myzip_compress_impl`, with any engine: each `arrange_output_buffer` call is
made with the value of `obuflen` left by the call before it (first
`DEF_BUF_SIZE`), that value is at most `PY_SSIZE_T_MAX`, so the assertion of
line 54 holds and never aborts the run, and a non-negative returned capacity
is no smaller than the one passed in and at most `PY_SSIZE_T_MAX`. -/
theorem capacity_invariant (cfg : Config) (py : PyState) (zst : z_stream σ)
    (buffer : Option PyBytes) (length max_length : Int) (a : Arranged σ)
    (hocc : (occupied_of zst buffer : Int) ≤ length) (hlen : length ≤ max_length)
    (hmax : max_length ≤ PY_SSIZE_T_MAX)
    (h : arrange_output_buffer_with_maximum cfg py zst buffer length max_length = some a)
    (hret : 0 ≤ a.ret) :
    (length ≤ a.ret ∧ a.ret ≤ max_length ∧ (occupied_of zst buffer : Int) ≤ a.ret) ∧
    ∀ (τ : Type) (E : Engine τ) (py0 : PyState) (data : Py_buffer) (level : Int) (fuel : Nat),
      capacity_ok DEF_BUF_SIZE (myzip_compress_impl cfg E py0 data level fuel).s.log ∧
      (∀ len ret,
        Event.arrange_output len ret ∈ (myzip_compress_impl cfg E py0 data level fuel).s.log →
        len ≤ PY_SSIZE_T_MAX ∧ (0 ≤ ret → len ≤ ret ∧ ret ≤ PY_SSIZE_T_MAX)) ∧
      (myzip_compress_impl cfg E py0 data level fuel).ret ≠ .aborted 54 := by
  refine ⟨(window_rule cfg py zst buffer length max_length a hocc hlen hmax h hret).2.2.1, ?_⟩
  intro τ E py0 data level fuel
  have hP := CapInv_preserved cfg E data
  have hinit : CapInv (after_init E py0 data level) := by
    refine ⟨by simp [after_init, capacity_ok], by simp [after_init, capacity_after], ?_⟩
    right
    simp only [after_init]
    decide
  have hres := hP.at_result py0 level fuel hinit
  refine ⟨hres.1, capacity_ok_mem _ _ hres.1, ?_⟩
  intro hab
  rcases result_aborted cfg E py0 data level fuel 54 hab with ⟨s1, h1⟩ | h1 | h1
  · exact hP.line_54 (fun s hs => CapInv_assertion_holds cfg s hs) fuel fuel _ hinit s1 h1
  · omega
  · omega

/-- C7 on a full buffer of 4 bytes with maximum 7, and on the run of
`copy_engine` over 3 bytes. -/
theorem capacity_invariant_witness :
    (occupied_of (stream_at 4) (some (zeros 4)) : Int) ≤ 4 ∧ (4 : Int) ≤ 7 ∧
    (7 : Int) ≤ PY_SSIZE_T_MAX ∧
    (∃ a, arrange_output_buffer_with_maximum (plain_cfg true) fresh_py (stream_at 4)
        (some (zeros 4)) 4 7 = some a ∧ 0 ≤ a.ret ∧ 4 ≤ a.ret ∧ a.ret ≤ 7) ∧
    capacity_ok DEF_BUF_SIZE
      (myzip_compress_impl (plain_cfg true) copy_engine fresh_py (ramp 3) 6 2).s.log :=
  ⟨by decide, by decide, by decide,
    ⟨_, rfl, by decide,
      (capacity_invariant (plain_cfg true) fresh_py (stream_at 4) (some (zeros 4)) 4 7 _
        (by decide) (by decide) (by decide) rfl (by decide)).1.1,
      (capacity_invariant (plain_cfg true) fresh_py (stream_at 4) (some (zeros 4)) 4 7 _
        (by decide) (by decide) (by decide) rfl (by decide)).1.2.1⟩,
    ((capacity_invariant (plain_cfg true) fresh_py (stream_at 4) (some (zeros 4)) 4 7 _
        (by decide) (by decide) (by decide) rfl (by decide)).2
      _ copy_engine fresh_py (ramp 3) 6 2).1⟩

/-! ## C8: the flush mode -/

/-- C8: in every run of `myzip_compress_impl` the log is flush-consistent.
Each `deflate` call is made with the remaining count `r` left by the latest
`arrange_input_buffer` call, in mode `Z_FINISH` if and only if `r = 0` and in
mode `Z_NO_FLUSH` otherwise; a `deflate` call that is followed by another
`arrange_input_buffer` call used `Z_NO_FLUSH`, so the `Z_FINISH` calls all
belong to the last outer iteration; and for an empty input every `deflate`
call, the first included, uses `Z_FINISH`. -/
theorem flush_modes (cfg : Config) (E : Engine σ) (py : PyState) (data : Py_buffer)
    (level : Int) (fuel : Nat) :
    flush_ok none (myzip_compress_impl cfg E py data level fuel).s.log ∧
    (∀ l1 l2 f r ai ao w e,
      (myzip_compress_impl cfg E py data level fuel).s.log
        = l1 ++ Event.deflate f r ai ao w e :: l2 →
      last_remains none l1 = some r ∧
      (f = Z_FINISH ↔ r = 0) ∧ (f = Z_NO_FLUSH ↔ r ≠ 0) ∧
      ∀ a rem, Event.arrange_input a rem ∈ l2 → f = Z_NO_FLUSH) ∧
    (data.len = 0 → ∀ f r ai ao w e,
      Event.deflate f r ai ao w e ∈ (myzip_compress_impl cfg E py data level fuel).s.log →
      f = Z_FINISH) := by
  have hok : flush_ok none (myzip_compress_impl cfg E py data level fuel).s.log := by
    obtain ⟨l, hl, hl2⟩ := result_log cfg E py data level fuel
    have hl3 : flush_ok none l := by
      rcases hl2 with h | h
      · rw [h]
        apply FlushHead.through_outer
        exact ⟨by simp [after_init, flush_ok], by simp [after_init, last_remains]⟩
      · rw [h]; simp [after_init, flush_ok]
    rcases hl with h | ⟨e, h⟩
    · rw [h]; exact hl3
    · rw [h, flush_ok_append]; exact ⟨hl3, by simp [flush_ok]⟩
  have hsplit : ∀ l1 l2 f r ai ao w e,
      (myzip_compress_impl cfg E py data level fuel).s.log
        = l1 ++ Event.deflate f r ai ao w e :: l2 →
      last_remains none l1 = some r ∧
      (f = Z_FINISH ↔ r = 0) ∧ (f = Z_NO_FLUSH ↔ r ≠ 0) ∧
      ∀ a rem, Event.arrange_input a rem ∈ l2 → f = Z_NO_FLUSH := by
    intro l1 l2 f r ai ao w e hlog
    rw [hlog] at hok
    obtain ⟨h1, h2, h3⟩ := flush_ok_split none l1 l2 f r ai ao w e hok
    refine ⟨h1, ?_, ?_, ?_⟩
    · by_cases hr : r = 0
      · rw [if_pos hr] at h2; exact ⟨fun _ => hr, fun _ => h2⟩
      · rw [if_neg hr] at h2
        exact ⟨fun hf => by rw [h2] at hf; exact absurd hf (by decide), fun h0 => absurd h0 hr⟩
    · by_cases hr : r = 0
      · rw [if_pos hr] at h2
        exact ⟨fun hf => by rw [h2] at hf; exact absurd hf (by decide), fun h0 => absurd hr h0⟩
      · rw [if_neg hr] at h2; exact ⟨fun _ => hr, fun _ => h2⟩
    · intro a rem hm
      rw [if_neg (h3 a rem hm)] at h2
      exact h2
  refine ⟨hok, hsplit, ?_⟩
  intro hlen f r ai ao w e hm
  have hP := EmptyInv_preserved cfg E data
  have hinit : EmptyInv (after_init E py data level) := by
    refine ⟨hlen, ?_⟩
    intro f r ai ao w e hm
    simp [after_init] at hm
  have hr := (hP.at_result py level fuel hinit).2 f r ai ao w e hm
  obtain ⟨l1, l2, hl⟩ := List.append_of_mem hm
  exact (hsplit l1 l2 f r ai ao w e hl).2.1.mpr hr

/-- C8 on two runs of `null_engine`: over `2^32 + 4` bytes the first step
uses `Z_NO_FLUSH` and the second `Z_FINISH`; over an empty input the first
step uses `Z_FINISH`. -/
theorem flush_modes_witness :
    (myzip_compress_impl (plain_cfg true) null_engine fresh_py (ramp 4294967300) 6 3).s.log
      = [.deflateInit 6 0,
         .arrange_input 4294967295 5, .arrange_output 16384 16384,
         .deflate Z_NO_FLUSH 5 4294967295 16384 [] Z_OK,
         .arrange_input 5 0, .arrange_output 16384 16384,
         .deflate Z_FINISH 0 5 16384 [] Z_STREAM_END,
         .deflateEnd Z_OK] ∧
    flush_ok none
      (myzip_compress_impl (plain_cfg true) null_engine fresh_py (ramp 4294967300) 6 3).s.log ∧
    (ramp 0).len = 0 ∧
    Event.deflate 4 0 0 16384 [] 1
      ∈ (myzip_compress_impl (plain_cfg true) null_engine fresh_py (ramp 0) 6 2).s.log ∧
    (4 : Int) = Z_FINISH :=
  ⟨by decide,
    (flush_modes (plain_cfg true) null_engine fresh_py (ramp 4294967300) 6 3).1,
    rfl, by decide,
    (flush_modes (plain_cfg true) null_engine fresh_py (ramp 0) 6 2).2.2 rfl 4 0 0 16384 [] 1
      (by decide)⟩

/-! ## C9: the engine is released before the function returns -/

/-- C9, as stated, fails: when `deflateInit` returns `Z_MEM_ERROR` the
function returns `NULL` without any `deflateEnd` call. -/
theorem deflateEnd_skipped_after_Z_MEM_ERROR :
    (myzip_compress_impl (plain_cfg true) (failing_init_engine Z_MEM_ERROR) fresh_py
      (ramp 3) 6 2).returned = true ∧
    deflateEnd_calls (myzip_compress_impl (plain_cfg true) (failing_init_engine Z_MEM_ERROR)
      fresh_py (ramp 3) 6 2).s.log = 0 ∧
    ¬ deflateEnd_calls (myzip_compress_impl (plain_cfg true) (failing_init_engine Z_MEM_ERROR)
      fresh_py (ramp 3) 6 2).s.log = 1 := by
  decide

/-- C9, amended: whenever `myzip_compress_impl` returns, `deflateEnd` has been
called exactly once if `deflateInit` returned a status other than
`Z_MEM_ERROR` and `Z_STREAM_ERROR`, and not at all if it returned one of
these two; an object is returned only with the error indicator untouched, and
when `NULL` is returned the buffer has been released. -/
theorem deflateEnd_once_unless_init_refused (cfg : Config) (E : Engine σ) (py : PyState)
    (data : Py_buffer) (level : Int) (fuel : Nat)
    (hret : (myzip_compress_impl cfg E py data level fuel).returned = true) :
    deflateEnd_calls (myzip_compress_impl cfg E py data level fuel).s.log
      = (if (E.deflateInit level).err = Z_MEM_ERROR ∨ (E.deflateInit level).err = Z_STREAM_ERROR
          then 0 else 1) ∧
    (∀ b, (myzip_compress_impl cfg E py data level fuel).ret = .object b →
      (myzip_compress_impl cfg E py data level fuel).s.py.err = py.err) ∧
    ((myzip_compress_impl cfg E py data level fuel).ret = .null →
      (myzip_compress_impl cfg E py data level fuel).s.RetVal = none) := by
  have hinit : Running py.err (after_init E py data level) :=
    ⟨by simp [after_init, deflateEnd_calls], rfl⟩
  have hout := Running.released_outer cfg E data py.err fuel fuel _ hinit
  unfold myzip_compress_impl at hret ⊢
  simp only at hret ⊢
  split
  · rename_i hok0
    rw [if_pos hok0] at hret
    have hok : (E.deflateInit level).err = Z_OK := hok0
    have hif : ¬ ((E.deflateInit level).err = Z_MEM_ERROR ∨
        (E.deflateInit level).err = Z_STREAM_ERROR) := by
      rw [hok]; decide
    rw [if_neg hif]
    split
    · rename_i s1 heq
      rw [heq] at hout hret
      exact Running.released_finish cfg E py.err s1 hout hret
    · rename_i s1 heq
      rw [heq] at hout
      refine ⟨hout, ?_, fun _ => rfl⟩
      intro b hb; simp [goto_error] at hb
    · rename_i ln s1 heq
      rw [heq] at hret
      simp [Result.returned] at hret
    · rename_i s1 heq
      rw [heq] at hret
      simp [Result.returned] at hret
  · rename_i hnok
    split
    · rename_i hmem
      have hmem : (E.deflateInit level).err = Z_MEM_ERROR := hmem
      rw [if_pos (Or.inl hmem)]
      refine ⟨by simp [goto_error, set_error, after_init, deflateEnd_calls], ?_, fun _ => rfl⟩
      intro b hb; simp [goto_error] at hb
    · rename_i hnmem
      split
      · rename_i hse
        have hse : (E.deflateInit level).err = Z_STREAM_ERROR := hse
        rw [if_pos (Or.inr hse)]
        refine ⟨by simp [goto_error, set_error, after_init, deflateEnd_calls], ?_, fun _ => rfl⟩
        intro b hb; simp [goto_error] at hb
      · rename_i hnse
        have h1 : ¬ (E.deflateInit level).err = Z_MEM_ERROR := hnmem
        have h2 : ¬ (E.deflateInit level).err = Z_STREAM_ERROR := hnse
        rw [if_neg (by tauto)]
        refine ⟨by simp [goto_error, set_error, call_deflateEnd, after_init, deflateEnd_calls],
          ?_, fun _ => rfl⟩
        intro b hb; simp [goto_error] at hb

/-- C9, amended, on three runs: `copy_engine` (one call), an initialisation
refused with `Z_STREAM_ERROR` (no call) and one failing with
`Z_VERSION_ERROR` (one call). -/
theorem deflateEnd_once_unless_init_refused_witness :
    (myzip_compress_impl (plain_cfg true) copy_engine fresh_py (ramp 5) 6 2).returned = true ∧
    deflateEnd_calls
      (myzip_compress_impl (plain_cfg true) copy_engine fresh_py (ramp 5) 6 2).s.log = 1 ∧
    deflateEnd_calls (myzip_compress_impl (plain_cfg true) (failing_init_engine Z_STREAM_ERROR)
      fresh_py (ramp 5) 6 2).s.log = 0 ∧
    deflateEnd_calls (myzip_compress_impl (plain_cfg true) (failing_init_engine Z_VERSION_ERROR)
      fresh_py (ramp 5) 6 2).s.log = 1 :=
  ⟨by decide,
    (deflateEnd_once_unless_init_refused (plain_cfg true) copy_engine fresh_py (ramp 5) 6 2
      (by decide)).1,
    (deflateEnd_once_unless_init_refused (plain_cfg true) (failing_init_engine Z_STREAM_ERROR)
      fresh_py (ramp 5) 6 2 (by decide)).1,
    (deflateEnd_once_unless_init_refused (plain_cfg true) (failing_init_engine Z_VERSION_ERROR)
      fresh_py (ramp 5) 6 2 (by decide)).1⟩

/-! ## C10: an engine that does not finish -/

/-- C10, as stated, fails: with `idle_engine`, which consumes nothing and
never reports `Z_STREAM_END`, the outer loop ends with 3 unconsumed bytes and
the status `Z_OK`.  Built without assertions the function returns an (empty)
object and sets no exception; built with assertions the process dies at the
assertion of line 173 and no exception is set either. -/
theorem unfinished_stream_is_returned :
    (outer_loop (plain_cfg false) idle_engine (ramp 3) 2 2
      (after_init idle_engine fresh_py (ramp 3) 6)).state.zst.avail_in = 3 ∧
    (outer_loop (plain_cfg false) idle_engine (ramp 3) 2 2
      (after_init idle_engine fresh_py (ramp 3) 6)).state.err = Z_OK ∧
    Z_OK ≠ Z_STREAM_END ∧
    (myzip_compress_impl (plain_cfg false) idle_engine fresh_py (ramp 3) 6 2).value.map
      PyBytes.toList = some [] ∧
    (myzip_compress_impl (plain_cfg false) idle_engine fresh_py (ramp 3) 6 2).s.py.err = none ∧
    (myzip_compress_impl (plain_cfg true) idle_engine fresh_py (ramp 3) 6 2).aborted_at
      = some 173 ∧
    (myzip_compress_impl (plain_cfg true) idle_engine fresh_py (ramp 3) 6 2).s.py.err = none := by
  decide

/-- C10, amended: let the outer loop of `myzip_compress_impl` end, by its
condition or by the assertion of line 173, in a state with unconsumed input
or with a last status other than `Z_STREAM_END`.  Built with assertions, the
process dies at the assertion of line 173 or 176 and no exception is set.
Built without assertions, no check is made: the loop ended by its condition,
`deflateEnd` is called and its status alone decides; if it is not `Z_OK` the
function returns `NULL` with the error formatted from that status and the
phase "while finishing compression", and if it is `Z_OK` the buffer is
resized to the bytes written and returned, `NULL` being returned only if
that resize fails. -/
theorem unfinished_stream_outcome (cfg : Config) (E : Engine σ) (py : PyState)
    (data : Py_buffer) (level : Int) (fuel : Nat) (s : Locals σ)
    (hinit : (E.deflateInit level).err = Z_OK)
    (hloop : outer_loop cfg E data fuel fuel (after_init E py data level) = .done s ∨
      outer_loop cfg E data fuel fuel (after_init E py data level) = .abort 173 s)
    (hbad : s.zst.avail_in ≠ 0 ∨ s.err ≠ Z_STREAM_END) :
    (cfg.asserts = true →
      ∃ line, (line = 173 ∨ line = 176) ∧
        (myzip_compress_impl cfg E py data level fuel).ret = .aborted line ∧
        (myzip_compress_impl cfg E py data level fuel).s.py.err = s.py.err) ∧
    (cfg.asserts = false →
      outer_loop cfg E data fuel fuel (after_init E py data level) = .done s ∧
      ((E.deflateEnd s.zst.state).err ≠ Z_OK →
        (myzip_compress_impl cfg E py data level fuel).ret = .null ∧
        (myzip_compress_impl cfg E py data level fuel).s.py.err
          = some (zlib_error (E.deflateEnd s.zst.state).msg (E.deflateEnd s.zst.state).err
              "while finishing compression")) ∧
      ((E.deflateEnd s.zst.state).err = Z_OK → ∀ b, s.RetVal = some b →
        ((_PyBytes_Resize cfg s.py b s.zst.next_out).1 = none →
          (myzip_compress_impl cfg E py data level fuel).ret = .null ∧
          (myzip_compress_impl cfg E py data level fuel).s.py
            = (_PyBytes_Resize cfg s.py b s.zst.next_out).2) ∧
        (∀ b1, (_PyBytes_Resize cfg s.py b s.zst.next_out).1 = some b1 →
          (myzip_compress_impl cfg E py data level fuel).ret = .object b1 ∧
          (myzip_compress_impl cfg E py data level fuel).s.py.err = s.py.err))) := by
  constructor
  · intro ha
    rcases hloop with hloop | hloop
    · rw [result_of_done cfg E py data level fuel s hinit hloop]
      have hin := outer_done_avail_in cfg E data fuel fuel _ s ha hloop
      have herr : s.err ≠ Z_STREAM_END := by
        rcases hbad with h | h
        · exact absurd hin h
        · exact h
      refine ⟨176, Or.inr rfl, ?_⟩
      unfold finish
      rw [if_pos ⟨ha, herr⟩]
      exact ⟨rfl, rfl⟩
    · rw [result_of_abort cfg E py data level fuel s 173 hinit hloop]
      exact ⟨173, Or.inl rfl, rfl, rfl⟩
  · intro ha
    have hloop : outer_loop cfg E data fuel fuel (after_init E py data level) = .done s := by
      rcases hloop with hloop | hloop
      · exact hloop
      · have := (outer_abort_173 cfg E data fuel fuel _ s hloop).1
        rw [ha] at this
        exact absurd this (by decide)
    refine ⟨hloop, ?_⟩
    rw [result_of_done cfg E py data level fuel s hinit hloop]
    have hna : ¬ (cfg.asserts = true ∧ s.err ≠ Z_STREAM_END) := by
      rw [ha]; simp
    constructor
    · intro hend
      unfold finish
      rw [if_neg hna]
      simp only
      have h1 : ¬ (call_deflateEnd E s).1 = Z_OK := hend
      rw [if_neg h1]
      exact ⟨rfl, rfl⟩
    · intro hend b hb
      have h1 : (call_deflateEnd E s).1 = Z_OK := hend
      have h2 : (call_deflateEnd E s).2.RetVal = some b := hb
      constructor
      · intro hnone
        unfold finish
        rw [if_neg hna]
        simp only
        rw [if_pos h1]
        simp only [h2]
        have h3 : _PyBytes_Resize cfg (call_deflateEnd E s).2.py b
            (call_deflateEnd E s).2.zst.next_out
            = (none, (_PyBytes_Resize cfg s.py b s.zst.next_out).2) := by
          simp only [call_deflateEnd]
          rw [← hnone]
        rw [h3]
        exact ⟨rfl, rfl⟩
      · intro b1 hsome
        unfold finish
        rw [if_neg hna]
        simp only
        rw [if_pos h1]
        simp only [h2]
        have h3 : _PyBytes_Resize cfg (call_deflateEnd E s).2.py b
            (call_deflateEnd E s).2.zst.next_out
            = (some b1, (_PyBytes_Resize cfg s.py b s.zst.next_out).2) := by
          simp only [call_deflateEnd]
          rw [← hsome]
        rw [h3]
        refine ⟨rfl, ?_⟩
        have h4 : _PyBytes_Resize cfg s.py b s.zst.next_out
            = (some b1, (_PyBytes_Resize cfg s.py b s.zst.next_out).2) := by
          rw [← hsome]
        exact (resize_some _ _ _ _ _ _ h4).2.2.1

/-- C10, amended, on `idle_engine`: built without assertions the loop ends
with 3 unconsumed bytes and the function returns an object; built with
assertions the process dies at line 173. -/
theorem unfinished_stream_outcome_witness :
    (idle_engine.deflateInit 6).err = Z_OK ∧
    (∃ s, outer_loop (plain_cfg false) idle_engine (ramp 3) 2 2
        (after_init idle_engine fresh_py (ramp 3) 6) = .done s ∧
      (s.zst.avail_in ≠ 0 ∨ s.err ≠ Z_STREAM_END) ∧
      ∃ b b1, s.RetVal = some b ∧
        (_PyBytes_Resize (plain_cfg false) s.py b s.zst.next_out).1 = some b1 ∧
        (myzip_compress_impl (plain_cfg false) idle_engine fresh_py (ramp 3) 6 2).ret
          = .object b1) ∧
    (∃ s, outer_loop (plain_cfg true) idle_engine (ramp 3) 2 2
        (after_init idle_engine fresh_py (ramp 3) 6) = .abort 173 s ∧
      (s.zst.avail_in ≠ 0 ∨ s.err ≠ Z_STREAM_END) ∧
      ∃ line, (line = 173 ∨ line = 176) ∧
        (myzip_compress_impl (plain_cfg true) idle_engine fresh_py (ramp 3) 6 2).ret
          = .aborted line ∧
        (myzip_compress_impl (plain_cfg true) idle_engine fresh_py (ramp 3) 6 2).s.py.err
          = s.py.err) :=
  ⟨rfl,
    ⟨_, rfl, Or.inl (by decide), _, _, rfl, rfl,
      (((((unfinished_stream_outcome (plain_cfg false) idle_engine fresh_py (ramp 3) 6 2 _ rfl
        (Or.inl rfl) (Or.inl (by decide))).2 rfl).2).2 rfl _ rfl).2 _ rfl).1⟩,
    ⟨_, rfl, Or.inl (by decide),
      (unfinished_stream_outcome (plain_cfg true) idle_engine fresh_py (ramp 3) 6 2 _ rfl
        (Or.inr rfl) (Or.inl (by decide))).1 rfl⟩⟩

/-! ## C11: a step that returns `Z_STREAM_ERROR` -/

/-- C11: in every run of `myzip_compress_impl` in which a `deflate` call
returns `Z_STREAM_ERROR`, that call is the last step: it is followed by one
`deflateEnd` call, the first of the run, and by nothing else; the function
returns `NULL` with the buffer released, and the exception set is the one
`zlib_error` formats from `Z_STREAM_ERROR` and the phase "while compressing
data", whose text starts with "Error -2 while compressing data". -/
theorem stream_error_aborts (cfg : Config) (E : Engine σ) (py : PyState) (data : Py_buffer)
    (level : Int) (fuel : Nat) (f rem : Int) (ai ao : Nat) (w : List Byte)
    (hm : Event.deflate f rem ai ao w Z_STREAM_ERROR
      ∈ (myzip_compress_impl cfg E py data level fuel).s.log) :
    (myzip_compress_impl cfg E py data level fuel).ret = .null ∧
    (myzip_compress_impl cfg E py data level fuel).s.RetVal = none ∧
    (∃ l e0, (myzip_compress_impl cfg E py data level fuel).s.log
        = l ++ [.deflate f rem ai ao w Z_STREAM_ERROR, .deflateEnd e0] ∧
      no_stream_error l ∧ deflateEnd_calls l = 0) ∧
    (myzip_compress_impl cfg E py data level fuel).s.py.err
      = some (zlib_error (myzip_compress_impl cfg E py data level fuel).s.zst.msg
          Z_STREAM_ERROR "while compressing data") ∧
    (∃ rest, (myzip_compress_impl cfg E py data level fuel).s.py.err
      = some (.ZlibError ("Error -2 while compressing data" ++ rest))) := by
  obtain ⟨h1, h2, h3, h4⟩ := stream_error_is_last cfg E py data level fuel f rem ai ao w hm
  refine ⟨h1, h2, h3, h4, ?_⟩
  obtain ⟨rest, hrest⟩ := zlib_error_starts
    (myzip_compress_impl cfg E py data level fuel).s.zst.msg Z_STREAM_ERROR
    "while compressing data"
  refine ⟨rest, ?_⟩
  rw [h4, hrest]
  have : "Error " ++ toString Z_STREAM_ERROR ++ " " ++ "while compressing data"
      = "Error -2 while compressing data" := by decide
  rw [this]

/-- C11 on `stream_error_engine`: the first step fails, `deflateEnd` follows
and the error is raised. -/
theorem stream_error_aborts_witness :
    Event.deflate 4 0 3 16384 [] Z_STREAM_ERROR
      ∈ (myzip_compress_impl (plain_cfg true) stream_error_engine fresh_py (ramp 3) 6 2).s.log ∧
    (myzip_compress_impl (plain_cfg true) stream_error_engine fresh_py (ramp 3) 6 2).s.py.err
      = some (.ZlibError "Error -2 while compressing data: inconsistent stream state") ∧
    (myzip_compress_impl (plain_cfg true) stream_error_engine fresh_py (ramp 3) 6 2).s.RetVal
      = none :=
  ⟨by decide, by decide,
    (stream_error_aborts (plain_cfg true) stream_error_engine fresh_py (ramp 3) 6 2 4 0 3 16384 []
      (by decide)).2.1⟩

/-! ## C12: the status of `deflateEnd` -/

/-- C12: let the loops of `myzip_compress_impl` run to their end in the state
`s`.  The function returns an object only if `deflateEnd` returns `Z_OK`.
If the assertion of line 176 holds or is compiled out, so that `deflateEnd`
is called, and it returns another status, the function returns `NULL` with
the buffer released, and the exception set is the one `zlib_error` formats
from that status and the phase "while finishing compression", whose text
starts with "Error", the status and that phase. -/
theorem finalization_status (cfg : Config) (E : Engine σ) (py : PyState) (data : Py_buffer)
    (level : Int) (fuel : Nat) (s : Locals σ)
    (hinit : (E.deflateInit level).err = Z_OK)
    (hloop : outer_loop cfg E data fuel fuel (after_init E py data level) = .done s) :
    (∀ b, (myzip_compress_impl cfg E py data level fuel).ret = .object b →
      (E.deflateEnd s.zst.state).err = Z_OK) ∧
    ((cfg.asserts = true → s.err = Z_STREAM_END) → (E.deflateEnd s.zst.state).err ≠ Z_OK →
      (myzip_compress_impl cfg E py data level fuel).ret = .null ∧
      (myzip_compress_impl cfg E py data level fuel).s.RetVal = none ∧
      (myzip_compress_impl cfg E py data level fuel).s.log
        = s.log ++ [.deflateEnd (E.deflateEnd s.zst.state).err] ∧
      (myzip_compress_impl cfg E py data level fuel).s.py.err
        = some (zlib_error (E.deflateEnd s.zst.state).msg (E.deflateEnd s.zst.state).err
            "while finishing compression") ∧
      ∃ rest, (myzip_compress_impl cfg E py data level fuel).s.py.err
        = some (.ZlibError ("Error " ++ toString (E.deflateEnd s.zst.state).err
            ++ " while finishing compression" ++ rest))) := by
  rw [result_of_done cfg E py data level fuel s hinit hloop]
  constructor
  · intro b hb
    exact (finish_object cfg E s b hb).1
  · intro ha hend
    have hna : ¬ (cfg.asserts = true ∧ s.err ≠ Z_STREAM_END) := fun h => h.2 (ha h.1)
    have h1 : ¬ (call_deflateEnd E s).1 = Z_OK := hend
    have hfin : finish cfg E s = goto_error (set_error
        { (call_deflateEnd E s).2 with err := (call_deflateEnd E s).1 }
        (zlib_error (call_deflateEnd E s).2.zst.msg (call_deflateEnd E s).1
          "while finishing compression")) := by
      unfold finish
      rw [if_neg hna]
      simp only
      rw [if_neg h1]
    rw [hfin]
    refine ⟨rfl, rfl, rfl, rfl, ?_⟩
    obtain ⟨rest, hrest⟩ := zlib_error_starts (E.deflateEnd s.zst.state).msg
      (E.deflateEnd s.zst.state).err "while finishing compression"
    refine ⟨rest, ?_⟩
    have : (goto_error (set_error
        { (call_deflateEnd E s).2 with err := (call_deflateEnd E s).1 }
        (zlib_error (call_deflateEnd E s).2.zst.msg (call_deflateEnd E s).1
          "while finishing compression"))).s.py.err
        = some (zlib_error (E.deflateEnd s.zst.state).msg (E.deflateEnd s.zst.state).err
            "while finishing compression") := rfl
    rw [this, hrest]
    have hs : " " ++ ("while finishing compression" ++ rest)
        = " while finishing compression" ++ rest := by
      rw [← String.append_assoc]; rfl
    simp only [String.append_assoc, hs]

/-- C12 on `failing_end_engine`: the loops run to their end, `deflateEnd`
returns `Z_DATA_ERROR` and the error is raised. -/
theorem finalization_status_witness :
    (failing_end_engine.deflateInit 6).err = Z_OK ∧
    ∃ s, outer_loop (plain_cfg true) failing_end_engine (ramp 3) 2 2
        (after_init failing_end_engine fresh_py (ramp 3) 6) = .done s ∧
      (myzip_compress_impl (plain_cfg true) failing_end_engine fresh_py (ramp 3) 6 2).s.py.err
        = some (.ZlibError "Error -3 while finishing compression: invalid input data") ∧
      (myzip_compress_impl (plain_cfg true) failing_end_engine fresh_py (ramp 3) 6 2).ret
        = .null :=
  ⟨rfl, _, rfl, by decide,
    ((finalization_status (plain_cfg true) failing_end_engine fresh_py (ramp 3) 6 2 _ rfl rfl).2
      (fun _ => rfl) (by decide)).1⟩

/-! ## C13: a failed initialisation -/

/-- C13: when `deflateInit` returns a status other than `Z_OK`,
`myzip_compress_impl` returns `NULL` with no buffer, without any
`arrange_output_buffer` or `deflate` call and without any allocation request:
the log is the `deflateInit` call alone, followed by one `deflateEnd` call
when the status is neither `Z_MEM_ERROR` nor `Z_STREAM_ERROR`.  `Z_MEM_ERROR`
gives `MemoryError`, `Z_STREAM_ERROR` gives the error "Bad compression
level", and any other status the error formatted by `zlib_error` from that
status and the phase "while compressing data". -/
theorem init_failure (cfg : Config) (E : Engine σ) (py : PyState) (data : Py_buffer)
    (level : Int) (fuel : Nat) (h : (E.deflateInit level).err ≠ Z_OK) :
    (myzip_compress_impl cfg E py data level fuel).ret = .null ∧
    (myzip_compress_impl cfg E py data level fuel).s.RetVal = none ∧
    (myzip_compress_impl cfg E py data level fuel).s.py.allocs = py.allocs ∧
    ((E.deflateInit level).err = Z_MEM_ERROR →
      (myzip_compress_impl cfg E py data level fuel).s.log
        = [.deflateInit level Z_MEM_ERROR] ∧
      (myzip_compress_impl cfg E py data level fuel).s.py.err
        = some (.MemoryError (some "Out of memory while compressing data"))) ∧
    ((E.deflateInit level).err = Z_STREAM_ERROR →
      (myzip_compress_impl cfg E py data level fuel).s.log
        = [.deflateInit level Z_STREAM_ERROR] ∧
      (myzip_compress_impl cfg E py data level fuel).s.py.err
        = some (.ZlibError "Bad compression level")) ∧
    ((E.deflateInit level).err ≠ Z_MEM_ERROR → (E.deflateInit level).err ≠ Z_STREAM_ERROR →
      (myzip_compress_impl cfg E py data level fuel).s.log
        = [.deflateInit level (E.deflateInit level).err,
           .deflateEnd (E.deflateEnd (E.deflateInit level).state).err] ∧
      (myzip_compress_impl cfg E py data level fuel).s.py.err
        = some (zlib_error (E.deflateEnd (E.deflateInit level).state).msg
            (E.deflateInit level).err "while compressing data")) := by
  have h0 : ¬ (after_init E py data level).err = Z_OK := h
  unfold myzip_compress_impl
  simp only
  rw [if_neg h0]
  by_cases hm : (E.deflateInit level).err = Z_MEM_ERROR
  · have hm0 : (after_init E py data level).err = Z_MEM_ERROR := hm
    rw [if_pos hm0]
    refine ⟨rfl, rfl, rfl, fun _ => ⟨?_, rfl⟩, fun hs => ?_, fun hn => absurd hm hn⟩
    · simp [goto_error, set_error, after_init, hm]
    · rw [hm] at hs; exact absurd hs (by decide)
  · have hm0 : ¬ (after_init E py data level).err = Z_MEM_ERROR := hm
    rw [if_neg hm0]
    by_cases hs : (E.deflateInit level).err = Z_STREAM_ERROR
    · have hs0 : (after_init E py data level).err = Z_STREAM_ERROR := hs
      rw [if_pos hs0]
      refine ⟨rfl, rfl, rfl, fun hx => absurd hx hm, fun _ => ⟨?_, rfl⟩,
        fun _ hn => absurd hs hn⟩
      simp [goto_error, set_error, after_init, hs]
    · have hs0 : ¬ (after_init E py data level).err = Z_STREAM_ERROR := hs
      rw [if_neg hs0]
      exact ⟨rfl, rfl, rfl, fun hx => absurd hx hm, fun hx => absurd hx hs,
        fun _ _ => ⟨rfl, rfl⟩⟩

/-- C13 on an initialisation that fails with `Z_VERSION_ERROR`. -/
theorem init_failure_witness :
    ((failing_init_engine Z_VERSION_ERROR).deflateInit 6).err ≠ Z_OK ∧
    (myzip_compress_impl (plain_cfg true) (failing_init_engine Z_VERSION_ERROR) fresh_py
      (ramp 3) 6 2).s.py.err
      = some (.ZlibError "Error -6 while compressing data: library version mismatch") ∧
    (myzip_compress_impl (plain_cfg true) (failing_init_engine Z_VERSION_ERROR) fresh_py
      (ramp 3) 6 2).s.RetVal = none :=
  ⟨by decide, by decide,
    (init_failure (plain_cfg true) (failing_init_engine Z_VERSION_ERROR) fresh_py (ramp 3) 6 2
      (by decide)).2.1⟩

/-! ## C14: the statuses of a step -/

/-- C14, as stated, fails: with `data_error_engine` on an input of
`2^32 + 4` bytes the first step returns `Z_DATA_ERROR`; a second step is
invoked all the same, and the function returns an (empty) object with no
exception set, also in a build with assertions. -/
theorem data_error_is_swallowed :
    (myzip_compress_impl (plain_cfg true) data_error_engine fresh_py (ramp 4294967300) 6 3).s.log
      = [.deflateInit 6 0,
         .arrange_input 4294967295 5, .arrange_output 16384 16384,
         .deflate Z_NO_FLUSH 5 4294967295 16384 [] Z_DATA_ERROR,
         .arrange_input 5 0, .arrange_output 16384 16384,
         .deflate Z_FINISH 0 5 16384 [] Z_STREAM_END,
         .deflateEnd Z_OK] ∧
    (myzip_compress_impl (plain_cfg true) data_error_engine fresh_py (ramp 4294967300) 6
      3).value.map PyBytes.toList = some [] ∧
    (myzip_compress_impl (plain_cfg true) data_error_engine fresh_py (ramp 4294967300) 6
      3).s.py.err = none := by
  decide

/-- C14, amended: in every run of `myzip_compress_impl` a `deflate` call that
returns `Z_STREAM_ERROR` is the last step, the function returns `NULL` and
the error formatted from `Z_STREAM_ERROR` is set.  Any other status of a
step, `Z_DATA_ERROR` included, is not examined by the loop body: whether the
inner loop goes on or ends is decided by `avail_out` alone. -/
theorem only_stream_error_is_checked (cfg : Config) (E : Engine σ) (py : PyState)
    (data : Py_buffer) (level : Int) (fuel : Nat) :
    (∀ f rem ai ao w,
      Event.deflate f rem ai ao w Z_STREAM_ERROR
        ∈ (myzip_compress_impl cfg E py data level fuel).s.log →
      (myzip_compress_impl cfg E py data level fuel).ret = .null ∧
      (∃ l e0, (myzip_compress_impl cfg E py data level fuel).s.log
          = l ++ [.deflate f rem ai ao w Z_STREAM_ERROR, .deflateEnd e0] ∧
        no_stream_error l) ∧
      (myzip_compress_impl cfg E py data level fuel).s.py.err
        = some (zlib_error (myzip_compress_impl cfg E py data level fuel).s.zst.msg
            Z_STREAM_ERROR "while compressing data")) ∧
    (∀ (s : Locals σ) (a : Arranged σ),
      arrange_output_buffer cfg s.py s.zst s.RetVal s.obuflen = some a → 0 ≤ a.ret →
      (call_deflate E data (output_step s a)).err ≠ Z_STREAM_ERROR →
      inner_body cfg E data s
        = if (call_deflate E data (output_step s a)).zst.avail_out = 0
          then .again (call_deflate E data (output_step s a))
          else .leave (.done (call_deflate E data (output_step s a)))) := by
  constructor
  · intro f rem ai ao w hm
    obtain ⟨h1, -, ⟨l, e0, hl, hno, -⟩, h4⟩ :=
      stream_error_is_last cfg E py data level fuel f rem ai ao w hm
    exact ⟨h1, ⟨l, e0, hl, hno⟩, h4⟩
  · intro s a ha hr he
    unfold inner_body
    rw [ha]
    simp only
    have hr2 : ¬ (output_step s a).obuflen < 0 := by
      simp only [output_step]; omega
    rw [if_neg hr2, if_neg he]

/-- C14, amended, on `stream_error_engine`, whose first step returns
`Z_STREAM_ERROR`, and on `data_error_engine`, whose first step returns
`Z_DATA_ERROR` and is followed by a second one. -/
theorem only_stream_error_is_checked_witness :
    Event.deflate 4 0 3 16384 [] Z_STREAM_ERROR
      ∈ (myzip_compress_impl (plain_cfg true) stream_error_engine fresh_py (ramp 3) 6 2).s.log ∧
    (myzip_compress_impl (plain_cfg true) stream_error_engine fresh_py (ramp 3) 6 2).ret
      = .null ∧
    (myzip_compress_impl (plain_cfg true) data_error_engine fresh_py (ramp 4294967300) 6
      3).returned = true :=
  ⟨by decide,
    ((only_stream_error_is_checked (plain_cfg true) stream_error_engine fresh_py (ramp 3) 6
      2).1 4 0 3 16384 [] (by decide)).1,
    by decide⟩

/-! ## C15: the message of an error -/

/-- C15: for every status `err` and every optional engine message `m`, the
message `zlib_error` settles on is the one the specification describes: for
`Z_VERSION_ERROR` the text "library version mismatch", whatever `m` is;
otherwise `m` if it is present; otherwise the fixed text of `Z_BUF_ERROR`,
`Z_STREAM_ERROR` or `Z_DATA_ERROR`; otherwise none, and then the error text
is "Error", the status and the phase. -/
theorem zlib_error_message (err : Int) (m : Option String) (phase : String) :
    zlib_error_zmsg m err = resolved_message err m ∧
    (err = Z_VERSION_ERROR → zlib_error_zmsg m err = some "library version mismatch") ∧
    (err ≠ Z_VERSION_ERROR → ∀ t, m = some t → zlib_error_zmsg m err = some t) ∧
    (m = none → err = Z_BUF_ERROR →
      zlib_error_zmsg m err = some "incomplete or truncated stream") ∧
    (m = none → err = Z_STREAM_ERROR →
      zlib_error_zmsg m err = some "inconsistent stream state") ∧
    (m = none → err = Z_DATA_ERROR → zlib_error_zmsg m err = some "invalid input data") ∧
    (m = none → err ≠ Z_VERSION_ERROR → err ≠ Z_BUF_ERROR → err ≠ Z_STREAM_ERROR →
      err ≠ Z_DATA_ERROR →
      zlib_error_zmsg m err = none ∧
      zlib_error m err phase = .ZlibError ("Error " ++ toString err ++ " " ++ phase)) := by
  have hres : zlib_error_zmsg m err = resolved_message err m := by
    unfold zlib_error_zmsg resolved_message
    by_cases hv : err = Z_VERSION_ERROR
    · simp [hv]
    · cases m with
      | none => simp [hv]
      | some t => simp [hv]
  refine ⟨hres, ?_, ?_, ?_, ?_, ?_, ?_⟩
  · intro hv; rw [hres]; simp [resolved_message, hv]
  · intro hv t ht; rw [hres, ht]; simp [resolved_message, hv]
  · intro hm he; rw [hres, hm, he]; decide
  · intro hm he; rw [hres, hm, he]; decide
  · intro hm he; rw [hres, hm, he]; decide
  · intro hm h1 h2 h3 h4
    have hz : zlib_error_zmsg m err = none := by
      rw [hres, hm]; simp [resolved_message, h1, h2, h3, h4]
    refine ⟨hz, ?_⟩
    unfold zlib_error
    rw [hz]

/-- C15 on three calls: a version mismatch with an engine message present,
an engine message with `Z_DATA_ERROR`, and `Z_MEM_ERROR` without a message. -/
theorem zlib_error_message_witness :
    zlib_error_zmsg (some "bad block") Z_VERSION_ERROR = some "library version mismatch" ∧
    zlib_error_zmsg (some "bad block") Z_DATA_ERROR = some "bad block" ∧
    zlib_error none Z_MEM_ERROR "while compressing data"
      = .ZlibError ("Error " ++ toString Z_MEM_ERROR ++ " " ++ "while compressing data") ∧
    zlib_error none Z_MEM_ERROR "while compressing data"
      = .ZlibError "Error -4 while compressing data" :=
  ⟨(zlib_error_message Z_VERSION_ERROR (some "bad block") "").2.1 rfl,
    (zlib_error_message Z_DATA_ERROR (some "bad block") "").2.2.1 (by decide) _ rfl,
    ((zlib_error_message Z_MEM_ERROR none "while compressing data").2.2.2.2.2.2 rfl
      (by decide) (by decide) (by decide) (by decide)).2,
    by decide⟩

/-! ## C16: the text of an error -/

set_option maxRecDepth 100000 in
/-- C16, as stated, fails: for the engine message `long_message`, of 201
characters and 201 bytes, the error text holds only the first 200 of them;
the last character `b` is not in the text. -/
theorem zlib_error_cuts_long_message :
    long_message.length = 201 ∧ long_message.utf8ByteSize = 201 ∧
    'b' ∈ long_message.data ∧
    zlib_error (some long_message) Z_BUF_ERROR "while compressing data"
      = .ZlibError ("Error -5 while compressing data: " ++ String.mk (List.replicate 200 'a')) ∧
    'b' ∉ ("Error -5 while compressing data: " ++ String.mk (List.replicate 200 'a')).data := by
  decide

/-- C16, amended: the error value produced by `zlib_error` is the text made
of "Error", the decimal status code and the phase, followed, when a message
is resolved, by a colon and what the first 200 bytes of that message decode
to.  A message of at most 200 bytes in UTF-8 appears whole.  In general the
text ends with the first `k` characters of the message, the most that fit in
200 bytes, and after them with one U+FFFD exactly when byte 200 falls inside
character `k + 1`. -/
theorem zlib_error_text (zmsg : Option String) (err : Int) (phase : String) :
    (zlib_error_zmsg zmsg err = none →
      zlib_error zmsg err phase = .ZlibError ("Error " ++ toString err ++ " " ++ phase)) ∧
    (∀ m, zlib_error_zmsg zmsg err = some m →
      zlib_error zmsg err phase
        = .ZlibError ("Error " ++ toString err ++ " " ++ phase ++ ": "
            ++ String.mk (decode_first_bytes 200 m.data)) ∧
      (m.utf8ByteSize ≤ 200 →
        zlib_error zmsg err phase
          = .ZlibError ("Error " ++ toString err ++ " " ++ phase ++ ": " ++ m)) ∧
      (∃ k, k ≤ m.length ∧ (String.mk (m.data.take k)).utf8ByteSize ≤ 200 ∧
        ((decode_first_bytes 200 m.data = m.data.take k ∧
            (k = m.length ∨ (String.mk (m.data.take k)).utf8ByteSize = 200)) ∨
         (decode_first_bytes 200 m.data = m.data.take k ++ [Char.ofNat 0xFFFD] ∧
            k < m.length ∧ (String.mk (m.data.take k)).utf8ByteSize < 200 ∧
            200 < (String.mk (m.data.take (k + 1))).utf8ByteSize)))) := by
  constructor
  · intro hz
    unfold zlib_error
    rw [hz]
  · intro m hz
    have ht : zlib_error zmsg err phase
        = .ZlibError ("Error " ++ toString err ++ " " ++ phase ++ ": "
            ++ String.mk (decode_first_bytes 200 m.data)) := by
      unfold zlib_error
      rw [hz]
    refine ⟨ht, ?_, ?_⟩
    · intro hl
      rw [ht]
      cases m with
      | mk d =>
        rw [String.utf8ByteSize_mk] at hl
        rw [decode_first_bytes_whole d 200 hl]
    · cases m with
      | mk d =>
        simp only [String.utf8ByteSize_mk, String.length]
        exact decode_first_bytes_spec d 200

set_option maxRecDepth 100000 in
/-- C16, amended, on the message "bad block", which appears whole. -/
theorem zlib_error_text_witness :
    zlib_error_zmsg (some "bad block") Z_DATA_ERROR = some "bad block" ∧
    "bad block".utf8ByteSize ≤ 200 ∧
    zlib_error (some "bad block") Z_DATA_ERROR "while compressing data"
      = .ZlibError ("Error " ++ toString Z_DATA_ERROR ++ " " ++ "while compressing data"
          ++ ": " ++ "bad block") ∧
    zlib_error (some "bad block") Z_DATA_ERROR "while compressing data"
      = .ZlibError "Error -3 while compressing data: bad block" :=
  ⟨by decide, by decide,
    ((zlib_error_text (some "bad block") Z_DATA_ERROR "while compressing data").2 "bad block"
      (by decide)).2.1 (by decide),
    by decide⟩

set_option maxRecDepth 100000 in
/-- The limit of `%.200s` counts bytes, not characters.  Of `accented_message`,
150 characters in 300 bytes, the text holds the first 100 characters.  Of
`shifted_message`, where byte 200 is the first byte of character 101, the
text holds the first 100 characters and then U+FFFD. -/
theorem zlib_error_counts_bytes :
    accented_message.length = 150 ∧ accented_message.utf8ByteSize = 300 ∧
    zlib_error (some accented_message) Z_DATA_ERROR "while compressing data"
      = .ZlibError ("Error -3 while compressing data: "
          ++ String.mk (List.replicate 100 (Char.ofNat 0xE9))) ∧
    shifted_message.length = 151 ∧ shifted_message.utf8ByteSize = 301 ∧
    zlib_error (some shifted_message) Z_DATA_ERROR "while compressing data"
      = .ZlibError ("Error -3 while compressing data: "
          ++ String.mk ('a' :: List.replicate 99 (Char.ofNat 0xE9) ++ [Char.ofNat 0xFFFD])) := by
  decide

/-! ## C17: termination -/

/-- C17: for every input of `0 ≤ n ≤ PY_SSIZE_T_MAX` bytes and every engine
that stores at most `avail_out` bytes, `myzip_compress_impl` terminates: a
run that is allowed more than `PY_SSIZE_T_MAX` passes through each loop
never exhausts them.  The outer loop is entered at most
`max(1, ceil(n / UINT_MAX))` times.  Every repetition of the inner loop
strictly increases the occupied length of the buffer, which stays at most
`PY_SSIZE_T_MAX`; at that length `arrange_output_buffer` returns -2, which
ends the loop. -/
theorem compress_terminates (cfg : Config) (E : Engine σ) (py : PyState)
    (data : Py_buffer) (level : Int) (hE : E.WritesWithin)
    (h0 : 0 ≤ data.len) (h1 : data.len ≤ PY_SSIZE_T_MAX) :
    (∀ fuel, PY_SSIZE_T_MAX.toNat < fuel →
      (myzip_compress_impl cfg E py data level fuel).ret ≠ .out_of_fuel) ∧
    (∀ fuel, (input_windows (myzip_compress_impl cfg E py data level fuel).s.log).length
      ≤ max 1 ((data.len.toNat + UINT_MAX - 1) / UINT_MAX)) ∧
    GrowInv (after_init E py data level) ∧
    (∀ s : Locals σ, GrowInv s →
      GrowInv (input_step s) ∧ (input_step s).occupied = s.occupied) ∧
    (∀ s s2, GrowInv s → inner_body cfg E data s = .again s2 →
      GrowInv s2 ∧ s.occupied < s2.occupied ∧ (s2.occupied : Int) ≤ PY_SSIZE_T_MAX) ∧
    (∀ s s2, GrowInv s → inner_body cfg E data s = .leave (.done s2) → GrowInv s2) ∧
    (∀ s : Locals σ, GrowInv s → (s.occupied : Int) = PY_SSIZE_T_MAX →
      ∃ a s1, arrange_output_buffer cfg s.py s.zst s.RetVal s.obuflen = some a ∧ a.ret = -2 ∧
        inner_body cfg E data s = .leave (.error s1)) := by
  refine ⟨?_, ?_, GrowInv.at_init E py data level, ?_, ?_, ?_, ?_⟩
  · intro fuel hfuel
    exact result_terminates cfg E py data level fuel hE h0 h1 hfuel
  · intro fuel
    have hhead : HeadInv data.len (after_init E py data level) := by
      refine ⟨?_, h0, h1, Or.inl ?_⟩
      · simp [after_init, input_windows]
      · simp [after_init, input_windows]
    have hloop := HeadInv.passes cfg E data data.len fuel fuel _ hhead
    have hb : outer_bound data.len = max 1 ((data.len.toNat + UINT_MAX - 1) / UINT_MAX) := rfl
    rw [← hb]
    obtain ⟨l, hl, hl2⟩ := result_log cfg E py data level fuel
    have hl3 : (input_windows l).length ≤ outer_bound data.len := by
      rcases hl2 with h | h
      · rw [h]; exact hloop
      · rw [h]; simp [after_init, input_windows]
    rcases hl with h | ⟨e, h⟩
    · rw [h]; exact hl3
    · rw [h, input_windows_append]
      simp only [input_windows, List.append_nil]
      exact hl3
  · intro s hs
    exact ⟨GrowInv.keeps_input s hs, rfl⟩
  · intro s s2 hs hi
    have hp := inner_body_paths cfg E data s
    rw [hi] at hp
    cases hp with
    | full a ha hr he hv =>
      obtain ⟨hg, hlt, hle⟩ := GrowInv.after_deflate cfg E data hE s a hs ha hr
      exact ⟨hg, hlt hv, hle⟩
  · intro s s2 hs hi
    have hp := inner_body_paths cfg E data s
    rw [hi] at hp
    cases hp with
    | room_left a ha hr he hv => exact (GrowInv.after_deflate cfg E data hE s a hs ha hr).1
  · intro s hs hocc
    obtain ⟨a, ha, hr⟩ := GrowInv.exhausted cfg s hs hocc
    refine ⟨a, (call_deflateEnd E (output_step s a)).2, ha, hr, ?_⟩
    unfold inner_body
    rw [ha]
    simp only
    rw [if_pos (by simp only [output_step]; omega)]

/-- C17 on the run of `copy_engine` over 5 bytes: it ends with one pass
through each loop, and it does not run out of passes however many it is
allowed beyond `PY_SSIZE_T_MAX`. -/
theorem compress_terminates_witness :
    copy_engine.WritesWithin ∧ (0 : Int) ≤ (ramp 5).len ∧ (ramp 5).len ≤ PY_SSIZE_T_MAX ∧
    (myzip_compress_impl (plain_cfg true) copy_engine fresh_py (ramp 5) 6 1).returned = true ∧
    input_windows (myzip_compress_impl (plain_cfg true) copy_engine fresh_py (ramp 5) 6
      1).s.log = [5] ∧
    (myzip_compress_impl (plain_cfg true) copy_engine fresh_py (ramp 5) 6
      9223372036854775808).ret ≠ .out_of_fuel :=
  ⟨copy_engine_writes_within, by decide, by decide, by decide, by decide,
    (compress_terminates (plain_cfg true) copy_engine fresh_py (ramp 5) 6
      copy_engine_writes_within (by decide) (by decide)).1 9223372036854775808 (by decide)⟩

/-! ## C18: the output window is never empty -/

/-- C18: in every run of `myzip_compress_impl` with an engine that stores at
most `avail_out` bytes, every `deflate` call is given an output window of at
least one byte.  The reason is the growth rule: a full buffer of positive
length below the maximum comes back strictly longer, with a non-empty
window; whereas a full buffer of length 0 comes back with length 0 and an
empty window, which the initial length `DEF_BUF_SIZE = 16384` excludes. -/
theorem output_window_not_empty (cfg : Config) (E : Engine σ) (py : PyState)
    (data : Py_buffer) (level : Int) (fuel : Nat) (hE : E.WritesWithin) :
    (∀ f r ai ao w e,
      Event.deflate f r ai ao w e ∈ (myzip_compress_impl cfg E py data level fuel).s.log →
      1 ≤ ao) ∧
    (0 : Int) < DEF_BUF_SIZE ∧
    (∀ (py1 : PyState) (zst : z_stream σ) (b : PyBytes) (length max_length : Int)
      (a : Arranged σ),
      (zst.next_out : Int) = length → 0 < length → length < max_length →
      max_length ≤ PY_SSIZE_T_MAX →
      arrange_output_buffer_with_maximum cfg py1 zst (some b) length max_length = some a →
      0 ≤ a.ret → length < a.ret ∧ 1 ≤ a.zst.avail_out) ∧
    (∀ (py1 : PyState) (zst : z_stream σ) (b : PyBytes) (max_length : Int) (a : Arranged σ),
      zst.next_out = 0 → 0 < max_length → max_length ≤ PY_SSIZE_T_MAX →
      arrange_output_buffer_with_maximum cfg py1 zst (some b) 0 max_length = some a →
      0 ≤ a.ret → a.ret = 0 ∧ a.zst.avail_out = 0) := by
  refine ⟨?_, by decide, ?_, ?_⟩
  · have hloop := GrowInv.outer_exit cfg E data hE fuel fuel _ (GrowInv.at_init E py data level)
    obtain ⟨l, hl, hl2⟩ := result_log cfg E py data level fuel
    have hl3 : windows_ok l := by
      rcases hl2 with h | h
      · rw [h]; exact hloop
      · rw [h]; simp only [after_init]; exact windows_ok_deflateInit _ _
    rcases hl with h | ⟨e, h⟩
    · rw [h]; exact hl3
    · rw [h]
      exact (windows_ok_append _ _).mpr ⟨hl3, windows_ok_deflateEnd _⟩
  · intro py1 zst b length max_length a ho hpos hlt hmax h hr
    have hw := window_rule cfg py1 zst (some b) length max_length a
      (by simp only [occupied_of]; omega) (by omega) hmax h hr
    have hn := (new_length_eq length max_length (by omega) hmax).1
    cases arrange_paths _ _ _ _ _ _ _ h with
    | alloc_failed py2 hb => simp at hb
    | allocated b2 py2 hb => simp at hb
    | exhausted b2 hb ho2 hm ha => subst ha; simp at hr
    | resize_failed b2 py2 hb ho2 hm ha => subst ha; simp at hr
    | resized b0 b1 py2 new_length hb ho2 hm hnl hrs ha =>
      subst ha
      rw [← hnl] at hn
      have h2 := hw.2.1
      simp only [set_window, occupied_of] at h2 ⊢
      constructor
      · omega
      · unfold UINT_MAX at h2 ⊢; omega
    | kept b2 hb ho2 ha => exact absurd ho.symm ho2
  · intro py1 zst b max_length a ho hpos hmax h hr
    have hn := (new_length_eq 0 max_length (le_refl _) hmax).1
    cases arrange_paths _ _ _ _ _ _ _ h with
    | alloc_failed py2 hb => simp at hb
    | allocated b2 py2 hb => simp at hb
    | exhausted b2 hb ho2 hm ha => subst ha; simp at hr
    | resize_failed b2 py2 hb ho2 hm ha => subst ha; simp at hr
    | resized b0 b1 py2 new_length hb ho2 hm hnl hrs ha =>
      subst ha
      rw [← hnl] at hn
      have hz : new_length = 0 := by omega
      subst hz
      simp only [set_window, ho]
      exact ⟨trivial, by decide⟩
    | kept b2 hb ho2 ha =>
      rw [ho] at ho2
      exact absurd rfl ho2

/-- C18 on the run of `copy_engine` over 5 bytes, whose only step gets a
window of 16384 bytes. -/
theorem output_window_not_empty_witness :
    copy_engine.WritesWithin ∧
    Event.deflate 4 0 5 16384 [0, 1, 2, 3, 4] 1
      ∈ (myzip_compress_impl (plain_cfg true) copy_engine fresh_py (ramp 5) 6 2).s.log ∧
    1 ≤ 16384 :=
  ⟨copy_engine_writes_within, by decide,
    (output_window_not_empty (plain_cfg true) copy_engine fresh_py (ramp 5) 6 2
      copy_engine_writes_within).1 4 0 5 16384 [0, 1, 2, 3, 4] 1 (by decide)⟩

/-! ## C19: `deflateEnd` after a successful initialisation -/

/-- C19: in every run of `myzip_compress_impl` in which `deflateInit` returns
`Z_OK`, `deflateEnd` is called at most once; and whenever the function
returns, with an object or with `NULL`, `deflateEnd` has been called exactly
once and that call is the last call of the run: every `deflate` call comes
before it. -/
theorem deflateEnd_last_and_once (cfg : Config) (E : Engine σ) (py : PyState)
    (data : Py_buffer) (level : Int) (fuel : Nat)
    (hinit : (E.deflateInit level).err = Z_OK) :
    deflateEnd_calls (myzip_compress_impl cfg E py data level fuel).s.log ≤ 1 ∧
    ((myzip_compress_impl cfg E py data level fuel).returned = true →
      deflateEnd_calls (myzip_compress_impl cfg E py data level fuel).s.log = 1 ∧
      ∃ l e, (myzip_compress_impl cfg E py data level fuel).s.log = l ++ [.deflateEnd e] ∧
        deflateEnd_calls l = 0 ∧
        ∀ f r ai ao w e1,
          Event.deflate f r ai ao w e1 ∈ (myzip_compress_impl cfg E py data level fuel).s.log →
          Event.deflate f r ai ao w e1 ∈ l) := by
  have h0 : deflateEnd_calls (after_init E py data level).log = 0 := by
    simp [after_init, deflateEnd_calls]
  have hout := Lifetime.of_outer cfg E data fuel fuel _ h0
  have hlast : ∀ (log l : List Event) (e : Int), log = l ++ [.deflateEnd e] →
      deflateEnd_calls log = 1 →
      deflateEnd_calls log = 1 ∧
      ∃ l e, log = l ++ [.deflateEnd e] ∧ deflateEnd_calls l = 0 ∧
        ∀ f r ai ao w e1, Event.deflate f r ai ao w e1 ∈ log →
          Event.deflate f r ai ao w e1 ∈ l := by
    intro log l e hl hc
    refine ⟨hc, l, e, hl, ?_, ?_⟩
    · rw [hl, deflateEnd_calls_append] at hc
      simp only [deflateEnd_calls] at hc
      omega
    · intro f r ai ao w e1 hm
      rw [hl] at hm
      rcases List.mem_append.mp hm with hm | hm
      · exact hm
      · simp at hm
  have herr : (after_init E py data level).err = Z_OK := hinit
  unfold myzip_compress_impl
  simp only
  rw [if_pos herr]
  split
  · rename_i s1 heq
    rw [heq] at hout
    have hf := finish_calls cfg E s1 hout
    refine ⟨hf.1, fun hret => ?_⟩
    have hl := hf.2 hret
    refine hlast _ _ _ hl ?_
    rw [hl, deflateEnd_calls_append]
    simp only [deflateEnd_calls]
    have : deflateEnd_calls s1.log = 0 := hout
    omega
  · rename_i s1 heq
    rw [heq] at hout
    obtain ⟨hc, l, e, hl⟩ := hout
    refine ⟨by simp only [goto_error]; omega, fun _ => ?_⟩
    exact hlast _ l e hl hc
  · rename_i ln s1 heq
    rw [heq] at hout
    have : deflateEnd_calls s1.log = 0 := hout
    exact ⟨by simp only [this]; omega, fun h => by simp [Result.returned] at h⟩
  · rename_i s1 heq
    rw [heq] at hout
    have : deflateEnd_calls s1.log = 0 := hout
    exact ⟨by simp only [this]; omega, fun h => by simp [Result.returned] at h⟩

/-- C19 on three runs: a success (`copy_engine`), a step failing with
`Z_STREAM_ERROR` and a failing `deflateEnd`. -/
theorem deflateEnd_last_and_once_witness :
    (copy_engine.deflateInit 6).err = Z_OK ∧
    (stream_error_engine.deflateInit 6).err = Z_OK ∧
    (failing_end_engine.deflateInit 6).err = Z_OK ∧
    (myzip_compress_impl (plain_cfg true) copy_engine fresh_py (ramp 5) 6 2).returned = true ∧
    deflateEnd_calls
      (myzip_compress_impl (plain_cfg true) copy_engine fresh_py (ramp 5) 6 2).s.log = 1 ∧
    deflateEnd_calls
      (myzip_compress_impl (plain_cfg true) stream_error_engine fresh_py (ramp 5) 6 2).s.log
      = 1 ∧
    deflateEnd_calls
      (myzip_compress_impl (plain_cfg true) failing_end_engine fresh_py (ramp 5) 6 2).s.log
      = 1 :=
  ⟨rfl, rfl, rfl, by decide,
    ((deflateEnd_last_and_once (plain_cfg true) copy_engine fresh_py (ramp 5) 6 2 rfl).2
      (by decide)).1,
    ((deflateEnd_last_and_once (plain_cfg true) stream_error_engine fresh_py (ramp 5) 6 2 rfl).2
      (by decide)).1,
    ((deflateEnd_last_and_once (plain_cfg true) failing_end_engine fresh_py (ramp 5) 6 2 rfl).2
      (by decide)).1⟩

/-! ## C20: the engine's allocator -/

/-- C20: for all `items` and `size`, `PyZlib_Malloc` returns `NULL` without a
request when `size ≠ 0` and `items > PY_SSIZE_T_MAX / size`; otherwise it
requests exactly `items * size` bytes, a product that is at most
`PY_SSIZE_T_MAX`, so that the multiplication in `size_t` does not wrap, and
that is 0 when `size = 0`. -/
theorem PyZlib_Malloc_request (items size : Nat) :
    (size ≠ 0 ∧ items > PY_SSIZE_T_MAX.toNat / size → PyZlib_Malloc items size = .null) ∧
    (¬ (size ≠ 0 ∧ items > PY_SSIZE_T_MAX.toNat / size) →
      PyZlib_Malloc items size = .PyMem_RawMalloc (items * size) ∧
      ((items * size : Nat) : Int) ≤ PY_SSIZE_T_MAX ∧
      (items * size) % 18446744073709551616 = items * size ∧
      (size = 0 → items * size = 0)) := by
  have hmax : to_size_t PY_SSIZE_T_MAX = PY_SSIZE_T_MAX.toNat := by decide
  constructor
  · intro h
    unfold PyZlib_Malloc
    rw [hmax, if_pos h]
  · intro h
    have hle : items * size ≤ 9223372036854775807 := by
      by_cases hs : size = 0
      · subst hs; simp
      · have hi : items ≤ PY_SSIZE_T_MAX.toNat / size := by
          by_contra hc
          exact h ⟨hs, by omega⟩
        have hv : PY_SSIZE_T_MAX.toNat = 9223372036854775807 := by decide
        rw [hv] at hi
        calc items * size ≤ (9223372036854775807 / size) * size := Nat.mul_le_mul_right _ hi
          _ ≤ 9223372036854775807 := Nat.div_mul_le_self _ _
    have hmod : (items * size) % 18446744073709551616 = items * size :=
      Nat.mod_eq_of_lt (by omega)
    refine ⟨?_, ?_, hmod, ?_⟩
    · unfold PyZlib_Malloc
      rw [hmax, if_neg h, hmod]
    · unfold PY_SSIZE_T_MAX; omega
    · intro hs; subst hs; simp

/-- C20 on two calls: `(2^32 - 1) * (2^32 - 1)` bytes are refused, `3 * 5`
bytes are requested. -/
theorem PyZlib_Malloc_request_witness :
    (4294967295 ≠ 0 ∧ 4294967295 > PY_SSIZE_T_MAX.toNat / 4294967295) ∧
    PyZlib_Malloc 4294967295 4294967295 = .null ∧
    ¬ (5 ≠ 0 ∧ 3 > PY_SSIZE_T_MAX.toNat / 5) ∧
    PyZlib_Malloc 3 5 = .PyMem_RawMalloc (3 * 5) :=
  ⟨by decide, (PyZlib_Malloc_request 4294967295 4294967295).1 (by decide), by decide,
    ((PyZlib_Malloc_request 3 5).2 (by decide)).1⟩

end MyZip
